import Mathlib

/-!
# Verification of the dot-printer-studio timeline / pathfinding engine

This file gives a shallow embedding, in Lean 4, of the core compute path of
the dot-printer-studio player:

* `src/lib/pathfinding.ts` — the A* grid pathfinder (`findPath`,
  `octileDistance`, `buildObstacleSet`);
* `src/player/utils.ts` — position keys, connection keys, connection path
  grouping (`ensureFrameOrder`, `buildConnectionPaths`), color parsing with
  its module-level memoization cache (`parseColor`, `mixColors`,
  `resolveColor`);
* `src/player/renderer.ts` — the per-frame render pass (`renderFrame`,
  `renderExistingConnections`, `renderAnimatingConnections`, `renderDots`,
  `renderAutoConnections`), modelled as a pure function that emits a list of
  draw primitives instead of calling into a canvas context.

Modelling conventions:

* JS numbers are modelled as exact rationals `ℚ`.  Quantities that mix
  integers with `Math.SQRT2` (A* costs and octile distances) are modelled
  exactly in the quadratic field ℚ(√2) by the type `Q2` below; `Q2.blt` is
  the strict `<` comparison of the denoted real numbers, proved correct
  against `Real.sqrt 2`.
* JS `Map`/`Set` objects are modelled as association lists / key lists with
  JS insertion semantics (`set` overwrites in place, `add` keeps the first
  occurrence); string keys are kept as Lean `String`s.
* `Number(...)` numeric-literal parsing, number-to-string conversion,
  `Math.hypot` and `Math.sqrt` (used only for segment lengths and the
  strings inside position keys, which no claim computes with) are
  abstracted as parameters of the model, bundled in `JsEnv`; every
  renderer theorem holds for an arbitrary environment.
* The canvas context is replaced by an emitted list of `Prim` draw
  primitives; mutable context state that a drawing call reads
  (`globalAlpha`, `strokeStyle`, `lineWidth`, …) is stored in the emitted
  primitive itself.  The model is total: nothing in the per-frame compute
  path can throw, which is the Lean rendering of "never fatal".
-/

/-! ## The quadratic field ℚ(√2)

A* costs are sums of `1` (orthogonal step) and `Math.SQRT2` (diagonal step),
and the octile heuristic is `max(dx,dy) + (SQRT2 - 1) * min(dx,dy)
= (max - min) + min * √2`.  Every numeric value the pathfinder compares is
therefore of the form `a + b * √2` with integer `a`, `b`, which `Q2`
represents exactly. -/

structure Q2 where
  a : ℤ
  b : ℤ
deriving DecidableEq, Repr

namespace Q2

/-- The real number denoted by a `Q2` value. -/
noncomputable def toReal (x : Q2) : ℝ := (x.a : ℝ) + (x.b : ℝ) * Real.sqrt 2

instance : Zero Q2 := ⟨⟨0, 0⟩⟩
instance : One Q2 := ⟨⟨1, 0⟩⟩
instance : Add Q2 := ⟨fun x y => ⟨x.a + y.a, x.b + y.b⟩⟩
instance : Neg Q2 := ⟨fun x => ⟨-x.a, -x.b⟩⟩
instance : Sub Q2 := ⟨fun x y => ⟨x.a - y.a, x.b - y.b⟩⟩
instance : Mul Q2 := ⟨fun x y => ⟨x.a * y.a + 2 * (x.b * y.b), x.a * y.b + x.b * y.a⟩⟩

/-- `√2` itself. -/
def sqrt2 : Q2 := ⟨0, 1⟩

/-- Embedding of the integers. -/
def ofInt (n : ℤ) : Q2 := ⟨n, 0⟩

/-- Strict comparison of the denoted real numbers, decided on the rational
components.  `blt x y = true` iff `x.toReal < y.toReal`
(`blt_iff_toReal_lt` below). -/
def blt (x y : Q2) : Bool :=
  let p := y.a - x.a
  let q := y.b - x.b
  if q = 0 then decide (0 < p)
  else if 0 < q then decide (0 ≤ p) || decide (p ^ 2 < 2 * q ^ 2)
  else decide (0 < p) && decide (2 * q ^ 2 < p ^ 2)

/-- `Math.max` on `Q2` values. -/
def max2 (x y : Q2) : Q2 := if blt x y then y else x

/-- `Math.min` on `Q2` values. -/
def min2 (x y : Q2) : Q2 := if blt y x then y else x

theorem sqrt_two_pos : (0 : ℝ) < Real.sqrt 2 := Real.sqrt_pos.mpr (by norm_num)

theorem sqrt_two_sq : Real.sqrt 2 ^ 2 = 2 := Real.sq_sqrt (by norm_num)

/-- Positivity of `p + q√2` characterised by rational inequalities
(stated over `ℚ` so that both `Q2` and the renderer's `QR2` can use it). -/
theorem pos_iff (p q : ℚ) :
    (0 : ℝ) < (p : ℝ) + (q : ℝ) * Real.sqrt 2 ↔
      (q = 0 ∧ 0 < p) ∨ (0 < q ∧ (0 ≤ p ∨ p ^ 2 < 2 * q ^ 2)) ∨
        (q < 0 ∧ 0 < p ∧ 2 * q ^ 2 < p ^ 2) := by
  have h2 := sqrt_two_sq
  have hpos := sqrt_two_pos
  constructor
  · intro h
    rcases lt_trichotomy q 0 with hq | hq | hq
    · refine Or.inr (Or.inr ⟨hq, ?_, ?_⟩)
      · by_contra hp
        push_neg at hp
        have hp' : (p : ℝ) ≤ 0 := by exact_mod_cast hp
        have hq' : (q : ℝ) < 0 := by exact_mod_cast hq
        nlinarith [mul_pos (neg_pos.mpr hq') hpos]
      · by_contra hcon
        push_neg at hcon
        have hcon' : (p : ℝ) ^ 2 ≤ 2 * (q : ℝ) ^ 2 := by exact_mod_cast hcon
        have hq' : (q : ℝ) < 0 := by exact_mod_cast hq
        nlinarith [mul_pos (neg_pos.mpr hq') hpos]
    · subst hq
      refine Or.inl ⟨rfl, ?_⟩
      have : (0 : ℝ) < (p : ℝ) := by simpa using h
      exact_mod_cast this
    · refine Or.inr (Or.inl ⟨hq, ?_⟩)
      by_contra hcon
      push_neg at hcon
      obtain ⟨hp, hsq⟩ := hcon
      have hp' : (p : ℝ) < 0 := by exact_mod_cast hp
      have hsq' : 2 * (q : ℝ) ^ 2 ≤ (p : ℝ) ^ 2 := by exact_mod_cast hsq
      have hq' : (0 : ℝ) < (q : ℝ) := by exact_mod_cast hq
      nlinarith [mul_pos hq' hpos]
  · rintro (⟨hq, hp⟩ | ⟨hq, hp | hp⟩ | ⟨hq, hp, hsq⟩)
    · subst hq
      have : (0 : ℝ) < (p : ℝ) := by exact_mod_cast hp
      simpa using this
    · have hq' : (0 : ℝ) < (q : ℝ) := by exact_mod_cast hq
      have hp' : (0 : ℝ) ≤ (p : ℝ) := by exact_mod_cast hp
      nlinarith [mul_pos hq' hpos]
    · have hq' : (0 : ℝ) < (q : ℝ) := by exact_mod_cast hq
      have hp' : (p : ℝ) ^ 2 < 2 * (q : ℝ) ^ 2 := by exact_mod_cast hp
      nlinarith [mul_pos hq' hpos]
    · have hq' : (q : ℝ) < 0 := by exact_mod_cast hq
      have hp' : (0 : ℝ) < (p : ℝ) := by exact_mod_cast hp
      have hsq' : 2 * (q : ℝ) ^ 2 < (p : ℝ) ^ 2 := by exact_mod_cast hsq
      nlinarith [mul_pos (neg_pos.mpr hq') hpos]

/-- `blt` decides the strict order of the denoted reals. -/
theorem blt_iff_toReal_lt (x y : Q2) : blt x y = true ↔ x.toReal < y.toReal := by
  have key : x.toReal < y.toReal ↔
      (0 : ℝ) < (((y.a - x.a : ℤ) : ℚ) : ℝ) + (((y.b - x.b : ℤ) : ℚ) : ℝ) * Real.sqrt 2 := by
    unfold toReal
    push_cast
    constructor <;> intro h <;> nlinarith [sqrt_two_pos]
  rw [key, pos_iff]
  show (if y.b - x.b = 0 then decide (0 < y.a - x.a)
    else if 0 < y.b - x.b then
      decide (0 ≤ y.a - x.a) || decide ((y.a - x.a) ^ 2 < 2 * (y.b - x.b) ^ 2)
    else decide (0 < y.a - x.a) && decide (2 * (y.b - x.b) ^ 2 < (y.a - x.a) ^ 2)) = true ↔ _
  split_ifs with hq hq'
  · simp only [decide_eq_true_eq]
    constructor
    · intro h
      refine Or.inl ⟨by exact_mod_cast hq, by exact_mod_cast h⟩
    · rintro (⟨_, h⟩ | ⟨h, _⟩ | ⟨h, _, _⟩)
      · exact_mod_cast h
      · exact absurd hq (ne_of_gt (by exact_mod_cast h))
      · exact absurd hq (ne_of_lt (by exact_mod_cast h))
  · simp only [Bool.or_eq_true, decide_eq_true_eq]
    constructor
    · intro h
      refine Or.inr (Or.inl ⟨by exact_mod_cast hq', ?_⟩)
      rcases h with h | h
      · exact Or.inl (by exact_mod_cast h)
      · exact Or.inr (by exact_mod_cast h)
    · rintro (⟨h, _⟩ | ⟨_, h⟩ | ⟨h, _, _⟩)
      · exact absurd (show y.b - x.b = 0 by exact_mod_cast h) hq
      · rcases h with h | h
        · exact Or.inl (by exact_mod_cast h)
        · exact Or.inr (by exact_mod_cast h)
      · have : y.b - x.b < 0 := by exact_mod_cast h
        exact absurd this (not_lt.mpr (le_of_lt hq'))
  · simp only [Bool.and_eq_true, decide_eq_true_eq]
    constructor
    · intro h
      refine Or.inr (Or.inr ⟨?_, by exact_mod_cast h.1, by exact_mod_cast h.2⟩)
      have : y.b - x.b < 0 := lt_of_le_of_ne (le_of_not_lt hq') hq
      exact_mod_cast this
    · rintro (⟨h, _⟩ | ⟨h, _⟩ | ⟨_, h1, h2⟩)
      · exact absurd (show y.b - x.b = 0 by exact_mod_cast h) hq
      · exact absurd (show 0 < y.b - x.b by exact_mod_cast h) hq'
      · exact ⟨by exact_mod_cast h1, by exact_mod_cast h2⟩

end Q2

/-! ## The A* grid pathfinder (`src/lib/pathfinding.ts`)

Grid cells are integer pairs; obstacle sets are the source's `Set<string>`
of `"x:y"` keys, modelled as lists of coordinate pairs with membership
semantics (the key template is injective on integer coordinates).  All costs are exact `Q2` values; the JS `<`
comparisons on floats become `Q2.blt`, the comparison of the denoted real
numbers.  The unbounded `while (openSet.length > 0)` loop is modelled with
explicit fuel `gridSize² + 2`; every iteration permanently closes a fresh
in-bounds cell (plus possibly the start cell), so the real loop can never
run longer than that and the fuel is never exhausted. -/

namespace Pathfinding

structure GridPosition where
  x : ℤ
  y : ℤ
deriving DecidableEq, Repr

/-- `` createPositionKey = (x, y) => `${x}:${y}` ``.  The JS template string
is injective on integer coordinates, so the key is modelled by the
coordinate pair itself; `Set<string>` membership becomes pair membership. -/
def createPositionKey (x y : ℤ) : ℤ × ℤ := (x, y)

/-- Octile distance `max(dx,dy) + (SQRT2 - 1) * min(dx,dy)`, stored exactly
as `(max - min) + min·√2 : Q2`. -/
def octileDistance (x1 y1 x2 y2 : ℤ) : Q2 :=
  let dx := |x1 - x2|
  let dy := |y1 - y2|
  ⟨max dx dy - min dx dy, min dx dy⟩

/-- Sanity check: the `Q2` stored by `octileDistance` denotes exactly
`max(dx,dy) + (√2 - 1)·min(dx,dy)`. -/
theorem octileDistance_toReal (x1 y1 x2 y2 : ℤ) :
    (octileDistance x1 y1 x2 y2).toReal =
      (max |x1 - x2| |y1 - y2| : ℤ) + (Real.sqrt 2 - 1) * (min |x1 - x2| |y1 - y2| : ℤ) := by
  unfold octileDistance Q2.toReal
  push_cast
  ring

/-- The eight movement directions in source order with their step costs
(`1` orthogonal, `√2` diagonal). -/
def DIRECTIONS : List (ℤ × ℤ × Q2) :=
  [(0, -1, ⟨1, 0⟩), (1, -1, ⟨0, 1⟩), (1, 0, ⟨1, 0⟩), (1, 1, ⟨0, 1⟩),
   (0, 1, ⟨1, 0⟩), (-1, 1, ⟨0, 1⟩), (-1, 0, ⟨1, 0⟩), (-1, -1, ⟨0, 1⟩)]

/-- A node of the search tree; `parent` links reproduce the JS object
graph (parents are always already-expanded nodes, which the JS code never
mutates afterwards, so immutable modelling is faithful).  `root` is a node
with `parent: null`, `child` a node with a parent. -/
inductive PathNode where
  | root (x y : ℤ) (g h f : Q2)
  | child (x y : ℤ) (g h f : Q2) (parent : PathNode)
deriving DecidableEq, Repr

namespace PathNode

def x : PathNode → ℤ
  | root v _ _ _ _ => v
  | child v _ _ _ _ _ => v

def y : PathNode → ℤ
  | root _ v _ _ _ => v
  | child _ v _ _ _ _ => v

def g : PathNode → Q2
  | root _ _ v _ _ => v
  | child _ _ v _ _ _ => v

def h : PathNode → Q2
  | root _ _ _ v _ => v
  | child _ _ _ v _ _ => v

def f : PathNode → Q2
  | root _ _ _ _ v => v
  | child _ _ _ _ v _ => v

/-- Rebuild a node with updated `g`, `f` and parent (the in-place mutation
of the `else if (gScore < openSet[existingIndex].g)` branch). -/
def withUpdate (n : PathNode) (gScore fScore : Q2) (par : PathNode) : PathNode :=
  child n.x n.y gScore n.h fScore par

end PathNode

/-- Path reconstruction by following `parent` links (`path.unshift` builds
the list start-first). -/
def reconstructPath : PathNode → List GridPosition
  | .root px py _ _ _ => [⟨px, py⟩]
  | .child px py _ _ _ p => reconstructPath p ++ [⟨px, py⟩]

/-- The `for (let i = 1; ...)` scan for the open node of lowest `f`
(first strictly-lowest index wins). -/
def scanLowest : List PathNode → ℕ → ℕ → PathNode → ℕ × PathNode
  | [], _, bestIdx, best => (bestIdx, best)
  | n :: rest, i, bestIdx, best =>
    if Q2.blt n.f best.f then scanLowest rest (i + 1) i n
    else scanLowest rest (i + 1) bestIdx best

/-- The body of the `for (const dir of DIRECTIONS)` neighbor loop: returns
the updated open set. -/
def processNeighbor (endP : GridPosition) (gridSize : ℤ) (isObst : ℤ × ℤ → Bool)
    (closedSet : List (ℤ × ℤ)) (current : PathNode)
    (openSet : List PathNode) (dir : ℤ × ℤ × Q2) : List PathNode :=
  let nx := current.x + dir.1
  let ny := current.y + dir.2.1
  let neighborKey := createPositionKey nx ny
  if nx < 0 ∨ ny < 0 ∨ gridSize ≤ nx ∨ gridSize ≤ ny then openSet
  else if neighborKey ∈ closedSet then openSet
  else if isObst neighborKey then openSet
  else if (dir.1 ≠ 0 ∧ dir.2.1 ≠ 0) ∧
      (isObst (createPositionKey (current.x + dir.1) current.y) = true ∨
        isObst (createPositionKey current.x (current.y + dir.2.1)) = true) then openSet
  else
    let gScore := current.g + dir.2.2
    let hScore := octileDistance nx ny endP.x endP.y
    let existingIndex := openSet.findIdx (fun n => n.x == nx && n.y == ny)
    if hfound : existingIndex < openSet.length then
      let n := openSet.get ⟨existingIndex, hfound⟩
      if Q2.blt gScore n.g then
        openSet.set existingIndex (n.withUpdate gScore (gScore + hScore) current)
      else openSet
    else openSet ++ [PathNode.child nx ny gScore hScore (gScore + hScore) current]

/-- One `while` iteration of the A* main loop, with fuel. -/
def aStarLoop (endP : GridPosition) (gridSize : ℤ) (isObst : ℤ × ℤ → Bool) :
    ℕ → List PathNode → List (ℤ × ℤ) → Option (List GridPosition)
  | 0, _, _ => none
  | _ + 1, [], _ => none
  | fuel + 1, first :: rest, closedSet =>
    let scan := scanLowest rest 1 0 first
    let lowestIndex := scan.1
    let current := scan.2
    if current.x = endP.x ∧ current.y = endP.y then some (reconstructPath current)
    else
      let openSet := (first :: rest).eraseIdx lowestIndex
      let closedSet := createPositionKey current.x current.y :: closedSet
      let newOpen :=
        DIRECTIONS.foldl (processNeighbor endP gridSize isObst closedSet current) openSet
      aStarLoop endP gridSize isObst fuel newOpen closedSet

/-- The working obstacle set: the caller's obstacles with the start and end
keys deleted (`workingObstacles.delete(startKey/endKey)`). -/
def workingObstacles (start endP : GridPosition) (obstacles : List (ℤ × ℤ)) :
    ℤ × ℤ → Bool :=
  fun k =>
    obstacles.contains k && !(k == createPositionKey start.x start.y) &&
      !(k == createPositionKey endP.x endP.y)

/-- `findPath` from `src/lib/pathfinding.ts`. -/
def findPath (start endP : GridPosition) (gridSize : ℤ) (obstacles : List (ℤ × ℤ)) :
    Option (List GridPosition) :=
  if start.x = endP.x ∧ start.y = endP.y then some [⟨start.x, start.y⟩]
  else
    let isObst := workingObstacles start endP obstacles
    let h0 := octileDistance start.x start.y endP.x endP.y
    let startNode := PathNode.root start.x start.y 0 h0 h0
    aStarLoop endP gridSize isObst (gridSize.toNat * gridSize.toNat + 2) [startNode] []

end Pathfinding

/-! ## Corner-cutting soundness of `findPath` (claim C5 infrastructure)

Every node ever placed in the open set carries a parent chain of legal
moves: 8-adjacent, in bounds, not onto a working obstacle, and — for
diagonal moves — with both orthogonally-adjacent in-between cells free of
working obstacles.  The returned path is the reconstruction of such a
chain. -/

namespace Pathfinding

/-- A legal A* move from `p` to `q` under the working obstacle test:
one of the eight directions, in bounds, target not an obstacle, and the
corner-cutting guard for diagonal moves. -/
def legalStep (gridSize : ℤ) (isObst : ℤ × ℤ → Bool) (p q : GridPosition) : Prop :=
  ∃ dir ∈ DIRECTIONS,
    q.x = p.x + dir.1 ∧ q.y = p.y + dir.2.1 ∧
    (0 ≤ q.x ∧ 0 ≤ q.y ∧ q.x < gridSize ∧ q.y < gridSize) ∧
    isObst (createPositionKey q.x q.y) = false ∧
    (dir.1 ≠ 0 ∧ dir.2.1 ≠ 0 →
      isObst (createPositionKey q.x p.y) = false ∧
      isObst (createPositionKey p.x q.y) = false)

/-- The corner-cutting property claim C5 asserts of consecutive path cells:
a diagonal step has both in-between cells free of working obstacles. -/
def cornerOk (isObst : ℤ × ℤ → Bool) (p q : GridPosition) : Prop :=
  p.x ≠ q.x → p.y ≠ q.y →
    isObst (createPositionKey q.x p.y) = false ∧
    isObst (createPositionKey p.x q.y) = false

theorem legalStep_cornerOk (gridSize : ℤ) (isObst : ℤ × ℤ → Bool)
    (p q : GridPosition) (h : legalStep gridSize isObst p q) : cornerOk isObst p q := by
  obtain ⟨dir, _, hx, hy, _, _, hcorner⟩ := h
  intro hpx hpy
  refine hcorner ⟨?_, ?_⟩
  · intro h0
    exact hpx (by omega)
  · intro h0
    exact hpy (by omega)

/-- A node whose parent chain consists of legal moves. -/
def chainOk (gridSize : ℤ) (isObst : ℤ × ℤ → Bool) : PathNode → Prop
  | .root _ _ _ _ _ => True
  | .child nx ny _ _ _ par =>
      legalStep gridSize isObst ⟨par.x, par.y⟩ ⟨nx, ny⟩ ∧ chainOk gridSize isObst par

theorem reconstructPath_getLast (n : PathNode) :
    (reconstructPath n).getLast? = some ⟨n.x, n.y⟩ := by
  cases n with
  | root nx ny g h f =>
    simp [reconstructPath, PathNode.x, PathNode.y]
  | child nx ny g h f par =>
    simp [reconstructPath, List.getLast?_append, PathNode.x, PathNode.y]

theorem chainOk_reconstruct (gridSize : ℤ) (isObst : ℤ × ℤ → Bool) :
    ∀ n : PathNode, chainOk gridSize isObst n →
      List.Chain' (legalStep gridSize isObst) (reconstructPath n) := by
  intro n
  induction n with
  | root nx ny g h f =>
    intro _
    simp [reconstructPath]
  | child nx ny g h f par ih =>
    intro hok
    obtain ⟨hstep, hpar⟩ := hok
    show List.Chain' _ (reconstructPath par ++ [⟨nx, ny⟩])
    rw [List.chain'_append]
    refine ⟨ih hpar, List.chain'_singleton _, ?_⟩
    intro x hx y hy
    rw [reconstructPath_getLast] at hx
    simp only [List.head?_cons, Option.mem_def, Option.some_inj] at hx hy
    subst hx
    subst hy
    exact hstep

theorem scanLowest_mem :
    ∀ (l : List PathNode) (i bi : ℕ) (b : PathNode),
      (scanLowest l i bi b).2 = b ∨ (scanLowest l i bi b).2 ∈ l := by
  intro l
  induction l with
  | nil => intro i bi b; simp [scanLowest]
  | cons n rest ih =>
    intro i bi b
    unfold scanLowest
    by_cases hlt : Q2.blt n.f b.f <;> simp only [hlt, if_true, if_false]
    · rcases ih (i + 1) i n with h | h
      · exact Or.inr (by simp [h])
      · exact Or.inr (List.mem_cons_of_mem _ h)
    · rcases ih (i + 1) bi b with h | h
      · exact Or.inl h
      · exact Or.inr (List.mem_cons_of_mem _ h)

theorem legalStep_of_guards (gridSize : ℤ) (isObst : ℤ × ℤ → Bool)
    (current : PathNode) (dir : ℤ × ℤ × Q2) (hdir : dir ∈ DIRECTIONS)
    (h1 : ¬(current.x + dir.1 < 0 ∨ current.y + dir.2.1 < 0 ∨
      gridSize ≤ current.x + dir.1 ∨ gridSize ≤ current.y + dir.2.1))
    (h3 : ¬isObst (createPositionKey (current.x + dir.1) (current.y + dir.2.1)) = true)
    (h4 : ¬((dir.1 ≠ 0 ∧ dir.2.1 ≠ 0) ∧
      (isObst (createPositionKey (current.x + dir.1) current.y) = true ∨
        isObst (createPositionKey current.x (current.y + dir.2.1)) = true))) :
    legalStep gridSize isObst ⟨current.x, current.y⟩
      ⟨current.x + dir.1, current.y + dir.2.1⟩ := by
  push_neg at h1
  obtain ⟨hb1, hb2, hb3, hb4⟩ := h1
  refine ⟨dir, hdir, rfl, rfl, ⟨?_, ?_, ?_, ?_⟩, ?_, ?_⟩
  · show 0 ≤ current.x + dir.1
    omega
  · show 0 ≤ current.y + dir.2.1
    omega
  · show current.x + dir.1 < gridSize
    omega
  · show current.y + dir.2.1 < gridSize
    omega
  · exact Bool.not_eq_true _ |>.mp h3
  · intro hdiag
    constructor
    · by_contra hc
      exact h4 ⟨hdiag, Or.inl (Bool.not_eq_false _ |>.mp hc)⟩
    · by_contra hc
      exact h4 ⟨hdiag, Or.inr (Bool.not_eq_false _ |>.mp hc)⟩

theorem processNeighbor_preserves (endP : GridPosition) (gridSize : ℤ)
    (isObst : ℤ × ℤ → Bool) (closedSet : List (ℤ × ℤ)) (current : PathNode)
    (dir : ℤ × ℤ × Q2) (hdir : dir ∈ DIRECTIONS) (openSet : List PathNode)
    (hopen : ∀ n ∈ openSet, chainOk gridSize isObst n)
    (hcur : chainOk gridSize isObst current) :
    ∀ n ∈ processNeighbor endP gridSize isObst closedSet current openSet dir,
      chainOk gridSize isObst n := by
  intro n hn
  unfold processNeighbor at hn
  simp only at hn
  split_ifs at hn with h1 h2 h3 h4 hfound hglt
  · exact hopen n hn
  · exact hopen n hn
  · exact hopen n hn
  · exact hopen n hn
  · -- update of an existing open node
    rcases List.mem_or_eq_of_mem_set hn with hmem | heq
    · exact hopen n hmem
    · subst heq
      have hpm := @List.findIdx_get _ (fun n : PathNode =>
        n.x == current.x + dir.1 && n.y == current.y + dir.2.1) openSet hfound
      simp only [Bool.and_eq_true, beq_iff_eq] at hpm
      show chainOk gridSize isObst (PathNode.child _ _ _ _ _ current)
      refine ⟨?_, hcur⟩
      show legalStep gridSize isObst _ ⟨_, _⟩
      rw [hpm.1, hpm.2]
      exact legalStep_of_guards gridSize isObst current dir hdir h1 h3 h4
  · exact hopen n hn
  · -- new node appended to the open set
    rcases List.mem_append.mp hn with hmem | hmem
    · exact hopen n hmem
    · have heq : n = PathNode.child (current.x + dir.1) (current.y + dir.2.1) _ _ _ current :=
        List.mem_singleton.mp hmem
      subst heq
      exact ⟨legalStep_of_guards gridSize isObst current dir hdir h1 h3 h4, hcur⟩

theorem foldl_processNeighbor_preserves (endP : GridPosition) (gridSize : ℤ)
    (isObst : ℤ × ℤ → Bool) (closedSet : List (ℤ × ℤ)) (current : PathNode)
    (hcur : chainOk gridSize isObst current) :
    ∀ (dirs : List (ℤ × ℤ × Q2)), (∀ d ∈ dirs, d ∈ DIRECTIONS) →
      ∀ (openSet : List PathNode), (∀ n ∈ openSet, chainOk gridSize isObst n) →
        ∀ n ∈ dirs.foldl (processNeighbor endP gridSize isObst closedSet current) openSet,
          chainOk gridSize isObst n := by
  intro dirs
  induction dirs with
  | nil => intro _ openSet hopen n hn; exact hopen n hn
  | cons d dirs ih =>
    intro hsub openSet hopen n hn
    simp only [List.foldl_cons] at hn
    exact ih (fun d' hd' => hsub d' (List.mem_cons_of_mem _ hd'))
      _ (processNeighbor_preserves endP gridSize isObst closedSet current d
          (hsub d (List.mem_cons_self _ _)) openSet hopen hcur) n hn

theorem aStarLoop_chain (endP : GridPosition) (gridSize : ℤ) (isObst : ℤ × ℤ → Bool) :
    ∀ (fuel : ℕ) (openSet : List PathNode) (closedSet : List (ℤ × ℤ))
      (path : List GridPosition),
      (∀ n ∈ openSet, chainOk gridSize isObst n) →
      aStarLoop endP gridSize isObst fuel openSet closedSet = some path →
      List.Chain' (legalStep gridSize isObst) path := by
  intro fuel
  induction fuel with
  | zero => intro openSet closedSet path _ h; simp [aStarLoop] at h
  | succ fuel ih =>
    intro openSet closedSet path hopen hrun
    cases openSet with
    | nil => simp [aStarLoop] at hrun
    | cons first rest =>
      rw [aStarLoop] at hrun
      simp only at hrun
      set scan := scanLowest rest 1 0 first with hscan
      have hmem : scan.2 ∈ first :: rest := by
        rcases scanLowest_mem rest 1 0 first with h | h
        · rw [← hscan] at h
          rw [h]
          exact List.mem_cons_self _ _
        · rw [← hscan] at h
          exact List.mem_cons_of_mem _ h
      by_cases hend : scan.2.x = endP.x ∧ scan.2.y = endP.y
      · rw [if_pos hend] at hrun
        obtain rfl : reconstructPath scan.2 = path := Option.some_inj.mp hrun
        exact chainOk_reconstruct gridSize isObst scan.2 (hopen _ hmem)
      · rw [if_neg hend] at hrun
        refine ih _ _ path ?_ hrun
        refine foldl_processNeighbor_preserves endP gridSize isObst _ scan.2
          (hopen _ hmem) DIRECTIONS (fun d hd => hd) _ ?_
        intro n hn
        exact hopen n (List.mem_of_mem_eraseIdx hn)

end Pathfinding

namespace Pathfinding

theorem chainOk_root (gridSize : ℤ) (isObst : ℤ × ℤ → Bool) (nx ny : ℤ)
    (g h f : Q2) : chainOk gridSize isObst (.root nx ny g h f) := by
  rw [chainOk]
  trivial

end Pathfinding

/-- **C5** — Corner-cutting: for every start, end, grid size and obstacle
set, every path returned by `findPath` is free of corner-cutting diagonal
steps: whenever two consecutive cells of the path differ in both
coordinates, neither of the two orthogonally-adjacent in-between cells is
in the working obstacle set (the caller's obstacles with the start and end
keys removed). -/
theorem findPath_no_corner_cutting (start endP : Pathfinding.GridPosition)
    (gridSize : ℤ) (obstacles : List (ℤ × ℤ)) (path : List Pathfinding.GridPosition)
    (h : Pathfinding.findPath start endP gridSize obstacles = some path) :
    List.Chain' (Pathfinding.cornerOk (Pathfinding.workingObstacles start endP obstacles))
      path := by
  unfold Pathfinding.findPath at h
  split_ifs at h with heq
  · obtain rfl : [⟨start.x, start.y⟩] = path := Option.some_inj.mp h
    exact List.chain'_singleton _
  · refine List.Chain'.imp
      (fun a b hab => Pathfinding.legalStep_cornerOk gridSize _ a b hab) ?_
    refine Pathfinding.aStarLoop_chain endP gridSize
      (Pathfinding.workingObstacles start endP obstacles) _ _ _ path ?_ h
    intro n hn
    have heqn : n = Pathfinding.PathNode.root start.x start.y 0 _ _ :=
      List.mem_singleton.mp hn
    subst heqn
    exact Pathfinding.chainOk_root _ _ _ _ _ _ _

/-- Witness for C5 at a concrete input: on a 3×3 grid with an obstacle at
`(1,0)`, the route `(0,0) → (2,0)` goes around the obstacle and cuts no
corner. -/
theorem findPath_no_corner_cutting_witness :
    List.Chain'
      (Pathfinding.cornerOk (Pathfinding.workingObstacles ⟨0, 0⟩ ⟨2, 0⟩ [(1, 0)]))
      [⟨0, 0⟩, ⟨0, 1⟩, ⟨1, 1⟩, ⟨2, 1⟩, ⟨2, 0⟩] :=
  findPath_no_corner_cutting ⟨0, 0⟩ ⟨2, 0⟩ 3 [(1, 0)]
    [⟨0, 0⟩, ⟨0, 1⟩, ⟨1, 1⟩, ⟨2, 1⟩, ⟨2, 0⟩] (by decide)

/-! ## A* on an empty grid (claim C2 infrastructure)

On an empty `R×R` grid the search expands exactly the diagonal nodes
`(0,0), (1,1), …, (R-1,R-1)` in order: the diagonal node always has
`f = (R-1)·√2`, strictly below the `2 + (R-2)·√2` and `2 + (R-1)·√2` of
every other open node, since `√2 < 2`.  The open and closed sets after each
iteration are described explicitly and the loop is stepped through them.
All `f`-comparisons reduce to constant integer differences, checked by
`decide` after shifting (`Q2.blt_congr_diff`). -/

namespace Q2

theorem blt_congr_diff (x y u v : Q2) (ha : y.a - x.a = v.a - u.a)
    (hb : y.b - x.b = v.b - u.b) : blt x y = blt u v := by
  unfold blt
  rw [ha, hb]

theorem add_mk (a b c d : ℤ) : (⟨a, b⟩ + ⟨c, d⟩ : Q2) = ⟨a + c, b + d⟩ := rfl

end Q2

namespace Pathfinding

theorem scanLowest_no_better :
    ∀ (l : List PathNode) (i bi : ℕ) (b : PathNode),
      (∀ n ∈ l, Q2.blt n.f b.f = false) → scanLowest l i bi b = (bi, b) := by
  intro l
  induction l with
  | nil => intro i bi b _; rfl
  | cons n rest ih =>
    intro i bi b hno
    unfold scanLowest
    rw [hno n (List.mem_cons_self _ _)]
    simp only [Bool.false_eq_true, if_false]
    exact ih (i + 1) bi b (fun m hm => hno m (List.mem_cons_of_mem _ hm))

theorem scanLowest_unique_min :
    ∀ (l1 : List PathNode) (m : PathNode) (l2 : List PathNode) (i bi : ℕ) (b : PathNode),
      (∀ n ∈ l1, Q2.blt n.f b.f = false) → Q2.blt m.f b.f = true →
      (∀ n ∈ l2, Q2.blt n.f m.f = false) →
      scanLowest (l1 ++ m :: l2) i bi b = (i + l1.length, m) := by
  intro l1
  induction l1 with
  | nil =>
    intro m l2 i bi b _ hm hl2
    show scanLowest (m :: l2) i bi b = _
    unfold scanLowest
    rw [hm]
    simp only [if_true]
    rw [scanLowest_no_better l2 (i + 1) i m hl2]
    simp
  | cons n l1 ih =>
    intro m l2 i bi b hl1 hm hl2
    show scanLowest (n :: (l1 ++ m :: l2)) i bi b = _
    unfold scanLowest
    rw [hl1 n (List.mem_cons_self _ _)]
    simp only [Bool.false_eq_true, if_false]
    rw [ih m l2 (i + 1) bi b (fun x hx => hl1 x (List.mem_cons_of_mem _ hx)) hm hl2]
    simp only [List.length_cons]
    congr 1
    omega

theorem eraseIdx_middle {α : Type} :
    ∀ (l1 : List α) (m : α) (l2 : List α),
      (l1 ++ m :: l2).eraseIdx l1.length = l1 ++ l2 := by
  intro l1
  induction l1 with
  | nil => intro m l2; rfl
  | cons a l1 ih =>
    intro m l2
    show ((a :: (l1 ++ m :: l2)).eraseIdx (l1.length + 1)) = _
    rw [List.eraseIdx_cons_succ, ih]
    rfl

theorem findIdx_all_false {α : Type} (p : α → Bool) :
    ∀ (l : List α), (∀ n ∈ l, p n = false) → l.findIdx p = l.length := by
  intro l
  induction l with
  | nil => intro _; rfl
  | cons a l ih =>
    intro h
    rw [List.findIdx_cons, h a (List.mem_cons_self _ _)]
    simp only [cond_false]
    rw [ih (fun n hn => h n (List.mem_cons_of_mem _ hn))]
    rfl

/-- `processNeighbor` when the neighbor is out of bounds: no change. -/
theorem pn_oob (endP : GridPosition) (gz : ℤ) (o : ℤ × ℤ → Bool)
    (c : List (ℤ × ℤ)) (cur : PathNode) (l : List PathNode) (d : ℤ × ℤ × Q2)
    (h : cur.x + d.1 < 0 ∨ cur.y + d.2.1 < 0 ∨ gz ≤ cur.x + d.1 ∨ gz ≤ cur.y + d.2.1) :
    processNeighbor endP gz o c cur l d = l := by
  unfold processNeighbor
  rw [if_pos h]

/-- `processNeighbor` when the neighbor is in the closed set: no change. -/
theorem pn_closed (endP : GridPosition) (gz : ℤ) (o : ℤ × ℤ → Bool)
    (c : List (ℤ × ℤ)) (cur : PathNode) (l : List PathNode) (d : ℤ × ℤ × Q2)
    (hb : ¬(cur.x + d.1 < 0 ∨ cur.y + d.2.1 < 0 ∨ gz ≤ cur.x + d.1 ∨ gz ≤ cur.y + d.2.1))
    (hcl : createPositionKey (cur.x + d.1) (cur.y + d.2.1) ∈ c) :
    processNeighbor endP gz o c cur l d = l := by
  unfold processNeighbor
  rw [if_neg hb, if_pos hcl]

/-- `processNeighbor` with no obstacles anywhere, an unvisited free cell not
yet in the open set: the new node is appended. -/
theorem pn_push (endP : GridPosition) (gz : ℤ) (o : ℤ × ℤ → Bool)
    (c : List (ℤ × ℤ)) (cur : PathNode) (l : List PathNode) (d : ℤ × ℤ × Q2)
    (ho : ∀ p, o p = false)
    (hb : ¬(cur.x + d.1 < 0 ∨ cur.y + d.2.1 < 0 ∨ gz ≤ cur.x + d.1 ∨ gz ≤ cur.y + d.2.1))
    (hcl : createPositionKey (cur.x + d.1) (cur.y + d.2.1) ∉ c)
    (habs : ∀ n ∈ l, ¬(n.x = cur.x + d.1 ∧ n.y = cur.y + d.2.1)) :
    processNeighbor endP gz o c cur l d =
      l ++ [PathNode.child (cur.x + d.1) (cur.y + d.2.1) (cur.g + d.2.2)
        (octileDistance (cur.x + d.1) (cur.y + d.2.1) endP.x endP.y)
        (cur.g + d.2.2 + octileDistance (cur.x + d.1) (cur.y + d.2.1) endP.x endP.y) cur] := by
  unfold processNeighbor
  rw [if_neg hb, if_neg hcl]
  rw [if_neg (by rw [ho]; simp)]
  rw [if_neg (by rw [ho, ho]; simp)]
  have hidx : l.findIdx (fun n => n.x == cur.x + d.1 && n.y == cur.y + d.2.1) = l.length := by
    refine findIdx_all_false _ l ?_
    intro n hn
    have := habs n hn
    simp only [Bool.and_eq_true, beq_iff_eq, Bool.and_eq_false_iff]
    by_cases hx : n.x = cur.x + d.1
    · refine Or.inr ?_
      rw [beq_eq_false_iff_ne]
      exact fun hy => this ⟨hx, hy⟩
    · refine Or.inl ?_
      rw [beq_eq_false_iff_ne]
      exact hx
  rw [dif_neg (by rw [hidx]; omega)]

/-- `processNeighbor` with no obstacles, a free unvisited cell already in
the open set via a cheaper-or-equal route: no change. -/
theorem pn_no_update (endP : GridPosition) (gz : ℤ) (o : ℤ × ℤ → Bool)
    (c : List (ℤ × ℤ)) (cur : PathNode) (l : List PathNode) (d : ℤ × ℤ × Q2)
    (ho : ∀ p, o p = false)
    (hb : ¬(cur.x + d.1 < 0 ∨ cur.y + d.2.1 < 0 ∨ gz ≤ cur.x + d.1 ∨ gz ≤ cur.y + d.2.1))
    (hcl : createPositionKey (cur.x + d.1) (cur.y + d.2.1) ∉ c)
    (hpresent : ∃ n ∈ l, n.x = cur.x + d.1 ∧ n.y = cur.y + d.2.1)
    (hnoupd : ∀ n ∈ l, n.x = cur.x + d.1 ∧ n.y = cur.y + d.2.1 →
      Q2.blt (cur.g + d.2.2) n.g = false) :
    processNeighbor endP gz o c cur l d = l := by
  unfold processNeighbor
  rw [if_neg hb, if_neg hcl]
  rw [if_neg (by rw [ho]; simp)]
  rw [if_neg (by rw [ho, ho]; simp)]
  have hidx : l.findIdx (fun n => n.x == cur.x + d.1 && n.y == cur.y + d.2.1) < l.length := by
    rw [List.findIdx_lt_length]
    obtain ⟨n, hn, hx, hy⟩ := hpresent
    exact ⟨n, hn, by simp [hx, hy]⟩
  rw [dif_pos hidx]
  have hpm := @List.findIdx_get _ _ _ hidx
  simp only [Bool.and_eq_true, beq_iff_eq] at hpm
  have hmem : l.get ⟨List.findIdx
      (fun n => n.x == cur.x + d.1 && n.y == cur.y + d.2.1) l, hidx⟩ ∈ l :=
    List.get_mem _ _ hidx
  show (if Q2.blt (cur.g + d.2.2) (l.get ⟨List.findIdx
      (fun n => n.x == cur.x + d.1 && n.y == cur.y + d.2.1) l, hidx⟩).g = true
    then _ else l) = l
  rw [hnoupd _ hmem ⟨hpm.1, hpm.2⟩]
  simp


/-- Octile distance to the far corner `(R-1, R-1)` in closed form, for cells
inside the grid. -/
theorem octD_eval (x y R : ℤ) (hx : x ≤ R - 1) (hy : y ≤ R - 1) :
    octileDistance x y (R - 1) (R - 1) = ⟨|x - y|, R - 1 - max x y⟩ := by
  unfold octileDistance
  have h1 : |x - (R - 1)| = R - 1 - x := by
    rw [abs_of_nonpos (by omega)]
    ring
  have h2 : |y - (R - 1)| = R - 1 - y := by
    rw [abs_of_nonpos (by omega)]
    ring
  simp only [h1, h2, Q2.mk.injEq]
  rcases le_total x y with h | h
  · rw [abs_of_nonpos (by omega)]
    constructor <;> omega
  · rw [abs_of_nonneg (by omega)]
    constructor <;> omega

/-- The diagonal chain of expanded nodes: `dgN R k` is the search node at
`(k, k)` with `g = k·√2`, parented along the diagonal. -/
def dgN (R : ℤ) : ℕ → PathNode
  | 0 => .root 0 0 ⟨0, 0⟩ ⟨0, R - 1⟩ ⟨0, R - 1⟩
  | k + 1 => .child ((k : ℤ) + 1) ((k : ℤ) + 1) ⟨0, (k : ℤ) + 1⟩ ⟨0, R - 2 - k⟩ ⟨0, R - 1⟩
      (dgN R k)

/-- The open node at `(i+1, i)` pushed while expanding `(i, i)`. -/
def rtN (R : ℤ) (i : ℕ) : PathNode :=
  .child ((i : ℤ) + 1) i ⟨1, i⟩ ⟨1, R - 2 - i⟩ ⟨2, R - 2⟩ (dgN R i)

/-- The open node at `(i, i+1)` pushed while expanding `(i, i)`. -/
def dnN (R : ℤ) (i : ℕ) : PathNode :=
  .child i ((i : ℤ) + 1) ⟨1, i⟩ ⟨1, R - 2 - i⟩ ⟨2, R - 2⟩ (dgN R i)

/-- The open node at `(i+1, i-1)` pushed while expanding `(i, i)`, `i ≥ 1`. -/
def urN (R : ℤ) (i : ℕ) : PathNode :=
  .child ((i : ℤ) + 1) ((i : ℤ) - 1) ⟨0, (i : ℤ) + 1⟩ ⟨2, R - 2 - i⟩ ⟨2, R - 1⟩ (dgN R i)

/-- The open node at `(i-1, i+1)` pushed while expanding `(i, i)`, `i ≥ 1`. -/
def dlN (R : ℤ) (i : ℕ) : PathNode :=
  .child ((i : ℤ) - 1) ((i : ℤ) + 1) ⟨0, (i : ℤ) + 1⟩ ⟨2, R - 2 - i⟩ ⟨2, R - 1⟩ (dgN R i)

theorem dgN_x (R : ℤ) (k : ℕ) : (dgN R k).x = (k : ℤ) := by
  cases k with
  | zero => rfl
  | succ k =>
    show (k : ℤ) + 1 = ((k + 1 : ℕ) : ℤ)
    push_cast
    ring

theorem dgN_y (R : ℤ) (k : ℕ) : (dgN R k).y = (k : ℤ) := by
  cases k with
  | zero => rfl
  | succ k =>
    show (k : ℤ) + 1 = ((k + 1 : ℕ) : ℤ)
    push_cast
    ring

theorem dgN_g (R : ℤ) (k : ℕ) : (dgN R k).g = ⟨0, (k : ℤ)⟩ := by
  cases k with
  | zero => rfl
  | succ k =>
    show (⟨0, (k : ℤ) + 1⟩ : Q2) = ⟨0, ((k + 1 : ℕ) : ℤ)⟩
    rw [Q2.mk.injEq]
    refine ⟨rfl, ?_⟩
    push_cast
    ring

theorem dgN_f (R : ℤ) (k : ℕ) : (dgN R k).f = ⟨0, R - 1⟩ := by
  cases k <;> rfl

/-- All pushed side nodes of generations `1..b`, in push order. -/
def blocks (R : ℤ) (b : ℕ) : List PathNode :=
  ((List.range b).map
    (fun t => [urN R (t + 1), rtN R (t + 1), dnN R (t + 1), dlN R (t + 1)])).join

theorem blocks_succ (R : ℤ) (b : ℕ) :
    blocks R (b + 1) =
      blocks R b ++ [urN R (b + 1), rtN R (b + 1), dnN R (b + 1), dlN R (b + 1)] := by
  unfold blocks
  rw [List.range_succ, List.map_append]
  simp

theorem mem_blocks (R : ℤ) (b : ℕ) (n : PathNode) (h : n ∈ blocks R b) :
    ∃ j : ℕ, 1 ≤ j ∧ j ≤ b ∧
      (n = urN R j ∨ n = rtN R j ∨ n = dnN R j ∨ n = dlN R j) := by
  unfold blocks at h
  rw [List.mem_join] at h
  obtain ⟨l, hl, hn⟩ := h
  rw [List.mem_map] at hl
  obtain ⟨t, ht, rfl⟩ := hl
  rw [List.mem_range] at ht
  refine ⟨t + 1, by omega, by omega, ?_⟩
  simp only [List.mem_cons, List.mem_singleton] at hn
  rcases hn with h | h | h | h | h
  · exact Or.inl h
  · exact Or.inr (Or.inl h)
  · exact Or.inr (Or.inr (Or.inl h))
  · exact Or.inr (Or.inr (Or.inr h))
  · exact absurd h (List.not_mem_nil _)

/-- Closed set after expanding the diagonal nodes `(0,0) .. (m,m)`, most
recently closed key first. -/
def closedUpTo : ℕ → List (ℤ × ℤ)
  | 0 => [(0, 0)]
  | m + 1 => ((m : ℤ) + 1, (m : ℤ) + 1) :: closedUpTo m

theorem mem_closedUpTo : ∀ (m : ℕ) (p : ℤ × ℤ),
    p ∈ closedUpTo m ↔ ∃ i : ℕ, i ≤ m ∧ p = ((i : ℤ), (i : ℤ)) := by
  intro m
  induction m with
  | zero =>
    intro p
    constructor
    · intro h
      have hp : p = ((0 : ℤ), (0 : ℤ)) := List.mem_singleton.mp h
      exact ⟨0, le_rfl, by simpa using hp⟩
    · rintro ⟨i, hi, rfl⟩
      have h0 : i = 0 := by omega
      subst h0
      simp [closedUpTo]
  | succ m ih =>
    intro p
    constructor
    · intro h
      rcases List.mem_cons.mp h with h | h
      · refine ⟨m + 1, le_rfl, ?_⟩
        rw [h]
        push_cast
        rfl
      · obtain ⟨i, hi, rfl⟩ := (ih p).mp h
        exact ⟨i, by omega, rfl⟩
    · rintro ⟨i, hi, rfl⟩
      by_cases him : i = m + 1
      · subst him
        refine List.mem_cons.mpr (Or.inl ?_)
        push_cast
        rfl
      · exact List.mem_cons.mpr (Or.inr ((ih _).mpr ⟨i, by omega, rfl⟩))

/-- The open set just before the iteration that pops the diagonal node
`(t+2, t+2)`: generation-0 side nodes, generations `1..t` of side nodes,
then the generation-`t+1` push block with the diagonal node in the
middle. -/
def openState (R : ℤ) (t : ℕ) : List PathNode :=
  rtN R 0 :: dnN R 0 ::
    (blocks R t ++
      urN R (t + 1) :: rtN R (t + 1) :: dgN R (t + 2) :: dnN R (t + 1) :: [dlN R (t + 1)])

/-- The claim's step-cost metric: `1` per orthogonal step, `√2` per diagonal
step. -/
def stepCost (p q : GridPosition) : Q2 :=
  if p.x ≠ q.x ∧ p.y ≠ q.y then Q2.sqrt2 else 1

/-- Total cost of a path under the claim's metric. -/
def pathCost : List GridPosition → Q2
  | [] => 0
  | [_] => 0
  | p :: q :: rest => stepCost p q + pathCost (q :: rest)

/-- The diagonal run of `k+1` cells starting at `(c, c)`. -/
def diagCells (c : ℤ) : ℕ → List GridPosition
  | 0 => [⟨c, c⟩]
  | k + 1 => ⟨c, c⟩ :: diagCells (c + 1) k

theorem diagCells_append (m : ℕ) : ∀ (c e : ℤ), e = c + m + 1 →
    diagCells c m ++ [⟨e, e⟩] = diagCells c (m + 1) := by
  induction m with
  | zero =>
    intro c e he
    show ([⟨c, c⟩] : List GridPosition) ++ [⟨e, e⟩] = [⟨c, c⟩, ⟨c + 1, c + 1⟩]
    have he' : e = c + 1 := by
      rw [he]
      push_cast
      ring
    rw [he']
    rfl
  | succ m ih =>
    intro c e he
    show (⟨c, c⟩ : GridPosition) :: (diagCells (c + 1) m ++ [⟨e, e⟩]) = 
      (⟨c, c⟩ : GridPosition) :: diagCells (c + 1) (m + 1)
    rw [ih (c + 1) e (by rw [he]; push_cast; ring)]

theorem reconstruct_dgN (R : ℤ) : ∀ k : ℕ, reconstructPath (dgN R k) = diagCells 0 k := by
  intro k
  induction k with
  | zero => rfl
  | succ k ih =>
    show reconstructPath (dgN R k) ++ [⟨(k : ℤ) + 1, (k : ℤ) + 1⟩] = _
    rw [ih, diagCells_append k 0 ((k : ℤ) + 1) (by push_cast; ring)]

theorem pathCost_diagCells : ∀ (k : ℕ) (c : ℤ), pathCost (diagCells c k) = ⟨0, (k : ℤ)⟩ := by
  intro k
  induction k with
  | zero =>
    intro c
    show (0 : Q2) = ⟨0, ((0 : ℕ) : ℤ)⟩
    rfl
  | succ k ih =>
    intro c
    have hhead : ∃ rest, diagCells (c + 1) k = ⟨c + 1, c + 1⟩ :: rest := by
      cases k with
      | zero => exact ⟨[], rfl⟩
      | succ k => exact ⟨diagCells (c + 1 + 1) k, rfl⟩
    obtain ⟨rest, hr⟩ := hhead
    show pathCost (⟨c, c⟩ :: diagCells (c + 1) k) = _
    rw [hr]
    show stepCost ⟨c, c⟩ ⟨c + 1, c + 1⟩ + pathCost (⟨c + 1, c + 1⟩ :: rest) = _
    rw [← hr, ih (c + 1)]
    unfold stepCost
    rw [if_pos ⟨(by omega : c ≠ c + 1), (by omega : c ≠ c + 1)⟩]
    show (⟨0, 1⟩ + ⟨0, (k : ℤ)⟩ : Q2) = _
    rw [Q2.add_mk, Q2.mk.injEq]
    refine ⟨by ring, ?_⟩
    push_cast
    ring

theorem bltShift (a b c d e f : ℤ) (h1 : c - a = e) (h2 : d - b = f) :
    Q2.blt ⟨a, b⟩ ⟨c, d⟩ = Q2.blt ⟨0, 0⟩ ⟨e, f⟩ := by
  refine Q2.blt_congr_diff _ _ _ _ ?_ ?_ <;> simp [h1, h2]

theorem rtN_x (R : ℤ) (i : ℕ) : (rtN R i).x = (i : ℤ) + 1 := rfl
theorem rtN_y (R : ℤ) (i : ℕ) : (rtN R i).y = (i : ℤ) := rfl
theorem rtN_g (R : ℤ) (i : ℕ) : (rtN R i).g = ⟨1, (i : ℤ)⟩ := rfl
theorem rtN_f (R : ℤ) (i : ℕ) : (rtN R i).f = ⟨2, R - 2⟩ := rfl
theorem dnN_x (R : ℤ) (i : ℕ) : (dnN R i).x = (i : ℤ) := rfl
theorem dnN_y (R : ℤ) (i : ℕ) : (dnN R i).y = (i : ℤ) + 1 := rfl
theorem dnN_g (R : ℤ) (i : ℕ) : (dnN R i).g = ⟨1, (i : ℤ)⟩ := rfl
theorem dnN_f (R : ℤ) (i : ℕ) : (dnN R i).f = ⟨2, R - 2⟩ := rfl
theorem urN_x (R : ℤ) (i : ℕ) : (urN R i).x = (i : ℤ) + 1 := rfl
theorem urN_y (R : ℤ) (i : ℕ) : (urN R i).y = (i : ℤ) - 1 := rfl
theorem urN_g (R : ℤ) (i : ℕ) : (urN R i).g = ⟨0, (i : ℤ) + 1⟩ := rfl
theorem urN_f (R : ℤ) (i : ℕ) : (urN R i).f = ⟨2, R - 1⟩ := rfl
theorem dlN_x (R : ℤ) (i : ℕ) : (dlN R i).x = (i : ℤ) - 1 := rfl
theorem dlN_y (R : ℤ) (i : ℕ) : (dlN R i).y = (i : ℤ) + 1 := rfl
theorem dlN_g (R : ℤ) (i : ℕ) : (dlN R i).g = ⟨0, (i : ℤ) + 1⟩ := rfl
theorem dlN_f (R : ℤ) (i : ℕ) : (dlN R i).f = ⟨2, R - 1⟩ := rfl

/-- Goal corner of the empty-grid run. -/
def eGoal (R : ℤ) : GridPosition := ⟨R - 1, R - 1⟩

/-- The working obstacle test of the empty-grid run: always false. -/
def eObst (R : ℤ) : ℤ × ℤ → Bool := workingObstacles ⟨0, 0⟩ (eGoal R) []

theorem eObst_false (R : ℤ) (p : ℤ × ℤ) : eObst R p = false := rfl

/-- Elimination principle for membership in the standing open set
`rtN 0 :: dnN 0 :: blocks b`. -/
theorem forall_mem_E (R : ℤ) (b : ℕ) (P : PathNode → Prop)
    (h1 : P (rtN R 0)) (h2 : P (dnN R 0))
    (h3 : ∀ j : ℕ, 1 ≤ j → j ≤ b →
      P (urN R j) ∧ P (rtN R j) ∧ P (dnN R j) ∧ P (dlN R j)) :
    ∀ n ∈ rtN R 0 :: dnN R 0 :: blocks R b, P n := by
  intro n hn
  rcases List.mem_cons.mp hn with rfl | hn
  · exact h1
  rcases List.mem_cons.mp hn with rfl | hn
  · exact h2
  obtain ⟨j, hj1, hj2, hcase⟩ := mem_blocks R b n hn
  rcases hcase with rfl | rfl | rfl | rfl
  · exact (h3 j hj1 hj2).1
  · exact (h3 j hj1 hj2).2.1
  · exact (h3 j hj1 hj2).2.2.1
  · exact (h3 j hj1 hj2).2.2.2

theorem mem_blocks_of (R : ℤ) (b j : ℕ) (h1 : 1 ≤ j) (h2 : j ≤ b) :
    urN R j ∈ blocks R b ∧ rtN R j ∈ blocks R b ∧
      dnN R j ∈ blocks R b ∧ dlN R j ∈ blocks R b := by
  have hj : j - 1 + 1 = j := by omega
  have hblock : [urN R j, rtN R j, dnN R j, dlN R j] ∈
      (List.range b).map
        (fun t => [urN R (t + 1), rtN R (t + 1), dnN R (t + 1), dlN R (t + 1)]) := by
    rw [List.mem_map]
    exact ⟨j - 1, List.mem_range.mpr (by omega), by rw [hj]⟩
  refine ⟨?_, ?_, ?_, ?_⟩ <;>
    · unfold blocks
      rw [List.mem_join]
      exact ⟨_, hblock, by simp⟩


theorem not_pos_in_E (R : ℤ) (b : ℕ) (nx ny : ℤ)
    (h1 : ¬(nx = 1 ∧ ny = 0)) (h2 : ¬(nx = 0 ∧ ny = 1))
    (h3 : ∀ j : ℕ, 1 ≤ j → j ≤ b →
      ¬(nx = (j : ℤ) + 1 ∧ ny = (j : ℤ) - 1) ∧ ¬(nx = (j : ℤ) + 1 ∧ ny = (j : ℤ)) ∧
      ¬(nx = (j : ℤ) ∧ ny = (j : ℤ) + 1) ∧ ¬(nx = (j : ℤ) - 1 ∧ ny = (j : ℤ) + 1)) :
    ∀ n ∈ rtN R 0 :: dnN R 0 :: blocks R b, ¬(n.x = nx ∧ n.y = ny) := by
  refine forall_mem_E R b _ ?_ ?_ ?_
  · rintro ⟨hx, hy⟩
    rw [rtN_x] at hx
    rw [rtN_y] at hy
    exact h1 ⟨by omega, by omega⟩
  · rintro ⟨hx, hy⟩
    rw [dnN_x] at hx
    rw [dnN_y] at hy
    exact h2 ⟨by omega, by omega⟩
  · intro j hj1 hj2
    obtain ⟨c1, c2, c3, c4⟩ := h3 j hj1 hj2
    refine ⟨?_, ?_, ?_, ?_⟩
    · rintro ⟨hx, hy⟩
      rw [urN_x] at hx
      rw [urN_y] at hy
      exact c1 ⟨by omega, by omega⟩
    · rintro ⟨hx, hy⟩
      rw [rtN_x] at hx
      rw [rtN_y] at hy
      exact c2 ⟨by omega, by omega⟩
    · rintro ⟨hx, hy⟩
      rw [dnN_x] at hx
      rw [dnN_y] at hy
      exact c3 ⟨by omega, by omega⟩
    · rintro ⟨hx, hy⟩
      rw [dlN_x] at hx
      rw [dlN_y] at hy
      exact c4 ⟨by omega, by omega⟩


theorem child_congr (x1 x2 y1 y2 : ℤ) (g1 g2 h1 h2 f1 f2 : Q2) (p : PathNode)
    (hx : x1 = x2) (hy : y1 = y2) (hg : g1 = g2) (hh : h1 = h2) (hf : f1 = f2) :
    PathNode.child x1 y1 g1 h1 f1 p = PathNode.child x2 y2 g2 h2 f2 p := by
  rw [hx, hy, hg, hh, hf]

theorem octD_ur (R c : ℤ) (hc : 1 ≤ c) (hR : c + 1 ≤ R - 1) :
    octileDistance (c + 1) (c + -1) (R - 1) (R - 1) = ⟨2, R - 2 - c⟩ := by
  rw [octD_eval _ _ R (by omega) (by omega), Q2.mk.injEq]
  constructor
  · rw [show (c + 1) - (c + -1) = (2 : ℤ) from by ring]
    norm_num
  · rw [max_eq_left (by omega)]
    ring

theorem octD_rt (R c : ℤ) (hc : 0 ≤ c) (hR : c + 1 ≤ R - 1) :
    octileDistance (c + 1) (c + 0) (R - 1) (R - 1) = ⟨1, R - 2 - c⟩ := by
  rw [octD_eval _ _ R (by omega) (by omega), Q2.mk.injEq]
  constructor
  · rw [show (c + 1) - (c + 0) = (1 : ℤ) from by ring]
    norm_num
  · rw [max_eq_left (by omega)]
    ring

theorem octD_dg (R c : ℤ) (hc : 0 ≤ c) (hR : c + 1 ≤ R - 1) :
    octileDistance (c + 1) (c + 1) (R - 1) (R - 1) = ⟨0, R - 2 - c⟩ := by
  rw [octD_eval _ _ R (by omega) (by omega), Q2.mk.injEq]
  constructor
  · rw [show (c + 1) - (c + 1) = (0 : ℤ) from by ring]
    norm_num
  · rw [max_self]
    ring

theorem octD_dn (R c : ℤ) (hc : 0 ≤ c) (hR : c + 1 ≤ R - 1) :
    octileDistance (c + 0) (c + 1) (R - 1) (R - 1) = ⟨1, R - 2 - c⟩ := by
  rw [octD_eval _ _ R (by omega) (by omega), Q2.mk.injEq]
  constructor
  · rw [show (c + 0) - (c + 1) = (-1 : ℤ) from by ring]
    norm_num
  · rw [max_eq_right (by omega)]
    ring

theorem octD_dl (R c : ℤ) (hc : 1 ≤ c) (hR : c + 1 ≤ R - 1) :
    octileDistance (c + -1) (c + 1) (R - 1) (R - 1) = ⟨2, R - 2 - c⟩ := by
  rw [octD_eval _ _ R (by omega) (by omega), Q2.mk.injEq]
  constructor
  · rw [show (c + -1) - (c + 1) = (-2 : ℤ) from by ring]
    norm_num
  · rw [max_eq_right (by omega)]
    ring

theorem scan_openState (R : ℤ) (t : ℕ) : scanLowest
    (dnN R 0 :: (blocks R t ++
      urN R (t+1) :: rtN R (t+1) :: dgN R (t+2) :: dnN R (t+1) :: [dlN R (t+1)]))
    1 0 (rtN R 0)
    = (1 + (dnN R 0 :: (blocks R t ++ [urN R (t+1), rtN R (t+1)])).length, dgN R (t+2)) := by
  have hsh : dnN R 0 :: (blocks R t ++
      urN R (t+1) :: rtN R (t+1) :: dgN R (t+2) :: dnN R (t+1) :: [dlN R (t+1)])
      = (dnN R 0 :: (blocks R t ++ [urN R (t+1), rtN R (t+1)])) ++
        dgN R (t+2) :: [dnN R (t+1), dlN R (t+1)] := by
    simp
  rw [hsh]
  refine scanLowest_unique_min _ _ _ _ _ _ ?_ ?_ ?_
  · intro n hn
    rcases List.mem_cons.mp hn with rfl | hn
    · rw [dnN_f, rtN_f, bltShift 2 (R-2) 2 (R-2) 0 0 (by ring) (by ring)]
      decide
    rcases List.mem_append.mp hn with hn | hn
    · obtain ⟨j, hj1, hj2, hc⟩ := mem_blocks R t n hn
      rcases hc with rfl | rfl | rfl | rfl
      · rw [urN_f, rtN_f, bltShift 2 (R-1) 2 (R-2) 0 (-1) (by ring) (by ring)]
        decide
      · rw [rtN_f, rtN_f, bltShift 2 (R-2) 2 (R-2) 0 0 (by ring) (by ring)]
        decide
      · rw [dnN_f, rtN_f, bltShift 2 (R-2) 2 (R-2) 0 0 (by ring) (by ring)]
        decide
      · rw [dlN_f, rtN_f, bltShift 2 (R-1) 2 (R-2) 0 (-1) (by ring) (by ring)]
        decide
    · rcases List.mem_cons.mp hn with rfl | hn
      · rw [urN_f, rtN_f, bltShift 2 (R-1) 2 (R-2) 0 (-1) (by ring) (by ring)]
        decide
      · rw [List.mem_singleton.mp hn, rtN_f, rtN_f,
          bltShift 2 (R-2) 2 (R-2) 0 0 (by ring) (by ring)]
        decide
  · rw [show (dgN R (t+2)).f = (⟨0, R-1⟩ : Q2) from rfl, rtN_f,
      bltShift 0 (R-1) 2 (R-2) 2 (-1) (by ring) (by ring)]
    decide
  · intro n hn
    rcases List.mem_cons.mp hn with rfl | hn
    · rw [dnN_f, show (dgN R (t+2)).f = (⟨0, R-1⟩ : Q2) from rfl,
        bltShift 2 (R-2) 0 (R-1) (-2) 1 (by ring) (by ring)]
      decide
    · rw [List.mem_singleton.mp hn, dlN_f,
        show (dgN R (t+2)).f = (⟨0, R-1⟩ : Q2) from rfl,
        bltShift 2 (R-1) 0 (R-1) (-2) 0 (by ring) (by ring)]
      decide

theorem emptyStep (R : ℤ) (t : ℕ) (ht : (t : ℤ) + 2 ≤ R - 2) (fuel : ℕ) :
    aStarLoop (eGoal R) R (eObst R) (fuel + 1) (openState R t) (closedUpTo (t + 1)) =
      aStarLoop (eGoal R) R (eObst R) fuel (openState R (t + 1)) (closedUpTo (t + 2)) := by
  have hobs := eObst_false R
  -- the scan over the tail finds the diagonal node
  have hscan := scan_openState R t
  show aStarLoop _ _ _ (fuel + 1)
    (rtN R 0 :: (dnN R 0 :: (blocks R t ++
      urN R (t+1) :: rtN R (t+1) :: dgN R (t+2) :: dnN R (t+1) :: [dlN R (t+1)]))) _ = _
  rw [aStarLoop]
  simp only
  rw [hscan]
  simp only
  rw [if_neg (by
    rintro ⟨h1, -⟩
    rw [dgN_x] at h1
    have : ((t + 2 : ℕ) : ℤ) = R - 1 := h1
    omega)]
  -- the erase removes exactly the diagonal node
  have herase : (rtN R 0 :: (dnN R 0 :: (blocks R t ++
      urN R (t+1) :: rtN R (t+1) :: dgN R (t+2) :: dnN R (t+1) :: [dlN R (t+1)]))).eraseIdx
        (1 + (dnN R 0 :: (blocks R t ++ [urN R (t+1), rtN R (t+1)])).length)
      = rtN R 0 :: dnN R 0 :: blocks R (t + 1) := by
    have h1 : rtN R 0 :: (dnN R 0 :: (blocks R t ++
        urN R (t+1) :: rtN R (t+1) :: dgN R (t+2) :: dnN R (t+1) :: [dlN R (t+1)]))
        = (rtN R 0 :: dnN R 0 :: (blocks R t ++ [urN R (t+1), rtN R (t+1)])) ++
          dgN R (t+2) :: [dnN R (t+1), dlN R (t+1)] := by
      simp
    have h2 : 1 + (dnN R 0 :: (blocks R t ++ [urN R (t+1), rtN R (t+1)])).length
        = (rtN R 0 :: dnN R 0 :: (blocks R t ++ [urN R (t+1), rtN R (t+1)])).length := by
      simp
      omega
    rw [h1, h2, eraseIdx_middle]
    rw [blocks_succ]
    simp
  rw [herase]
  have hclosed : createPositionKey (dgN R (t+2)).x (dgN R (t+2)).y :: closedUpTo (t+1)
      = closedUpTo (t + 2) := by
    rw [dgN_x, dgN_y]
    show (((t + 2 : ℕ) : ℤ), ((t + 2 : ℕ) : ℤ)) :: closedUpTo (t+1)
      = (((t + 1 : ℕ) : ℤ) + 1, ((t + 1 : ℕ) : ℤ) + 1) :: closedUpTo (t + 1)
    have hc : ((t + 2 : ℕ) : ℤ) = ((t + 1 : ℕ) : ℤ) + 1 := by push_cast; ring
    rw [hc]
  rw [hclosed]
  congr 1
  -- now evaluate the eight neighbor expansions of (t+2, t+2)
  simp only [DIRECTIONS, List.foldl_cons, List.foldl_nil]

  have s1 : processNeighbor (eGoal R) R (eObst R) (closedUpTo (t+2)) (dgN R (t+2))
      (rtN R 0 :: dnN R 0 :: blocks R (t+1)) (0, -1, ⟨1, 0⟩)
      = rtN R 0 :: dnN R 0 :: blocks R (t+1) := by
    refine pn_no_update _ _ _ _ _ _ _ hobs ?_ ?_ ?_ ?_
    · dsimp only
      rw [dgN_x, dgN_y]
      push_cast
      omega
    · dsimp only
      rw [dgN_x, dgN_y]
      intro hmem
      obtain ⟨i, hi, heq⟩ := (mem_closedUpTo _ _).mp hmem
      simp only [createPositionKey, Prod.mk.injEq] at heq
      omega
    · refine ⟨rtN R (t+1), ?_, ?_, ?_⟩
      · exact List.mem_cons_of_mem _ (List.mem_cons_of_mem _
          (mem_blocks_of R (t+1) (t+1) (by omega) le_rfl).2.1)
      · dsimp only
        rw [rtN_x, dgN_x]
        push_cast
        ring
      · dsimp only
        rw [rtN_y, dgN_y]
        push_cast
        ring
    · refine forall_mem_E R (t+1) _ ?_ ?_ ?_
      · rintro ⟨hx, -⟩
        rw [rtN_x, dgN_x] at hx
        dsimp only at hx
        exfalso
        push_cast at hx
        omega
      · rintro ⟨hx, -⟩
        rw [dnN_x, dgN_x] at hx
        dsimp only at hx
        exfalso
        push_cast at hx
        omega
      · intro j hj1 hj2
        refine ⟨?_, ?_, ?_, ?_⟩
        · rintro ⟨hx, hy⟩
          rw [urN_x, dgN_x] at hx
          rw [urN_y, dgN_y] at hy
          dsimp only at hx hy
          exfalso
          push_cast at hx hy
          omega
        · rintro ⟨hx, -⟩
          rw [rtN_x, dgN_x] at hx
          dsimp only at hx
          have hj : (j : ℤ) = (t : ℤ) + 1 := by push_cast at hx; omega
          rw [rtN_g, dgN_g, hj]
          rw [show ((⟨0, ((t+2 : ℕ) : ℤ)⟩ : Q2) + ⟨1, 0⟩) = ⟨1, ((t+2 : ℕ) : ℤ)⟩ from by
            rw [Q2.add_mk]
            rw [Q2.mk.injEq]
            constructor <;> ring]
          rw [bltShift 1 ((t+2 : ℕ) : ℤ) 1 ((t : ℤ) + 1) 0 (-1) (by ring) (by push_cast; ring)]
          decide
        · rintro ⟨hx, hy⟩
          rw [dnN_x, dgN_x] at hx
          rw [dnN_y, dgN_y] at hy
          dsimp only at hx hy
          exfalso
          push_cast at hx hy
          omega
        · rintro ⟨hx, hy⟩
          rw [dlN_x, dgN_x] at hx
          rw [dlN_y, dgN_y] at hy
          dsimp only at hx hy
          exfalso
          push_cast at hx hy
          omega
  rw [s1]
  have s2 : processNeighbor (eGoal R) R (eObst R) (closedUpTo (t+2)) (dgN R (t+2))
      (rtN R 0 :: dnN R 0 :: blocks R (t+1)) (1, -1, ⟨0, 1⟩)
      = (rtN R 0 :: dnN R 0 :: blocks R (t+1)) ++ [urN R (t+2)] := by
    refine (pn_push (eGoal R) R (eObst R) (closedUpTo (t+2)) (dgN R (t+2))
        (rtN R 0 :: dnN R 0 :: blocks R (t+1)) (1, -1, ⟨0, 1⟩) hobs ?_ ?_ ?_).trans ?_
    · dsimp only
      rw [dgN_x, dgN_y]
      push_cast
      omega
    · dsimp only
      rw [dgN_x, dgN_y]
      intro hmem
      obtain ⟨i, hi, heq⟩ := (mem_closedUpTo _ _).mp hmem
      simp only [createPositionKey, Prod.mk.injEq] at heq
      omega
    · refine not_pos_in_E R (t+1) _ _ ?_ ?_ ?_
      · dsimp only
        rw [dgN_x, dgN_y]
        push_cast
        omega
      · dsimp only
        rw [dgN_x, dgN_y]
        push_cast
        omega
      · intro j hj1 hj2
        dsimp only
        rw [dgN_x, dgN_y]
        push_cast
        omega
    · refine congrArg (fun z => (rtN R 0 :: dnN R 0 :: blocks R (t+1)) ++ [z]) ?_
      rw [show urN R (t+2) = PathNode.child (((t+2 : ℕ) : ℤ) + 1) (((t+2 : ℕ) : ℤ) - 1)
        ⟨0, ((t+2 : ℕ) : ℤ) + 1⟩ ⟨2, R - 2 - ((t+2 : ℕ) : ℤ)⟩ ⟨2, R - 1⟩ (dgN R (t+2)) from rfl]
      refine child_congr _ _ _ _ _ _ _ _ _ _ _ ?_ ?_ ?_ ?_ ?_
      · dsimp only
        rw [dgN_x]
      · dsimp only
        rw [dgN_y]
        ring
      · dsimp only
        rw [dgN_g, Q2.add_mk, Q2.mk.injEq]
        constructor <;> ring
      · dsimp only
        rw [dgN_x, dgN_y, show (eGoal R).x = R - 1 from rfl, show (eGoal R).y = R - 1 from rfl,
          octD_ur R ((t+2 : ℕ) : ℤ) (by push_cast; omega) (by push_cast; omega)]
      · dsimp only
        rw [dgN_x, dgN_y, dgN_g, show (eGoal R).x = R - 1 from rfl,
          show (eGoal R).y = R - 1 from rfl,
          octD_ur R ((t+2 : ℕ) : ℤ) (by push_cast; omega) (by push_cast; omega),
          Q2.add_mk, Q2.add_mk, Q2.mk.injEq]
        constructor <;> ring
  rw [s2]
  have s3 : processNeighbor (eGoal R) R (eObst R) (closedUpTo (t+2)) (dgN R (t+2))
      ((rtN R 0 :: dnN R 0 :: blocks R (t+1)) ++ [urN R (t+2)]) (1, 0, ⟨1, 0⟩)
      = (rtN R 0 :: dnN R 0 :: blocks R (t+1)) ++ [urN R (t+2)] ++ [rtN R (t+2)] := by
    refine (pn_push (eGoal R) R (eObst R) (closedUpTo (t+2)) (dgN R (t+2))
        _ (1, 0, ⟨1, 0⟩) hobs ?_ ?_ ?_).trans ?_
    · dsimp only
      rw [dgN_x, dgN_y]
      push_cast
      omega
    · dsimp only
      rw [dgN_x, dgN_y]
      intro hmem
      obtain ⟨i, hi, heq⟩ := (mem_closedUpTo _ _).mp hmem
      simp only [createPositionKey, Prod.mk.injEq] at heq
      omega
    · intro n hn
      rcases List.mem_append.mp hn with hn | hn
      · refine not_pos_in_E R (t+1) _ _ ?_ ?_ ?_ n hn
        · dsimp only
          rw [dgN_x, dgN_y]
          push_cast
          omega
        · dsimp only
          rw [dgN_x, dgN_y]
          push_cast
          omega
        · intro j hj1 hj2
          dsimp only
          rw [dgN_x, dgN_y]
          push_cast
          omega
      · rw [List.mem_singleton.mp hn]
        rintro ⟨hx, hy⟩
        rw [urN_y, dgN_y] at hy
        dsimp only at hy
        push_cast at hy
        omega
    · refine congrArg (fun z => (rtN R 0 :: dnN R 0 :: blocks R (t+1)) ++ [urN R (t+2)] ++ [z]) ?_
      rw [show rtN R (t+2) = PathNode.child (((t+2 : ℕ) : ℤ) + 1) ((t+2 : ℕ) : ℤ)
        ⟨1, ((t+2 : ℕ) : ℤ)⟩ ⟨1, R - 2 - ((t+2 : ℕ) : ℤ)⟩ ⟨2, R - 2⟩ (dgN R (t+2)) from rfl]
      refine child_congr _ _ _ _ _ _ _ _ _ _ _ ?_ ?_ ?_ ?_ ?_
      · dsimp only
        rw [dgN_x]
      · dsimp only
        rw [dgN_y]
        ring
      · dsimp only
        rw [dgN_g, Q2.add_mk, Q2.mk.injEq]
        constructor <;> ring
      · dsimp only
        rw [dgN_x, dgN_y, show (eGoal R).x = R - 1 from rfl, show (eGoal R).y = R - 1 from rfl,
          octD_rt R ((t+2 : ℕ) : ℤ) (by push_cast; omega) (by push_cast; omega)]
      · dsimp only
        rw [dgN_x, dgN_y, dgN_g, show (eGoal R).x = R - 1 from rfl,
          show (eGoal R).y = R - 1 from rfl,
          octD_rt R ((t+2 : ℕ) : ℤ) (by push_cast; omega) (by push_cast; omega),
          Q2.add_mk, Q2.add_mk, Q2.mk.injEq]
        constructor <;> ring
  rw [s3]
  have s4 : processNeighbor (eGoal R) R (eObst R) (closedUpTo (t+2)) (dgN R (t+2))
      ((rtN R 0 :: dnN R 0 :: blocks R (t+1)) ++ [urN R (t+2)] ++ [rtN R (t+2)]) (1, 1, ⟨0, 1⟩)
      = (rtN R 0 :: dnN R 0 :: blocks R (t+1)) ++ [urN R (t+2)] ++ [rtN R (t+2)]
          ++ [dgN R (t+3)] := by
    refine (pn_push (eGoal R) R (eObst R) (closedUpTo (t+2)) (dgN R (t+2))
        _ (1, 1, ⟨0, 1⟩) hobs ?_ ?_ ?_).trans ?_
    · dsimp only
      rw [dgN_x, dgN_y]
      push_cast
      omega
    · dsimp only
      rw [dgN_x, dgN_y]
      intro hmem
      obtain ⟨i, hi, heq⟩ := (mem_closedUpTo _ _).mp hmem
      simp only [createPositionKey, Prod.mk.injEq] at heq
      omega
    · intro n hn
      rcases List.mem_append.mp hn with hn | hn
      rcases List.mem_append.mp (by exact hn) with hn | hn
      · refine not_pos_in_E R (t+1) _ _ ?_ ?_ ?_ n hn
        · dsimp only
          rw [dgN_x, dgN_y]
          push_cast
          omega
        · dsimp only
          rw [dgN_x, dgN_y]
          push_cast
          omega
        · intro j hj1 hj2
          dsimp only
          rw [dgN_x, dgN_y]
          push_cast
          omega
      · rw [List.mem_singleton.mp hn]
        rintro ⟨hx, hy⟩
        rw [urN_y, dgN_y] at hy
        dsimp only at hy
        push_cast at hy
        omega
      · rw [List.mem_singleton.mp hn]
        rintro ⟨hx, hy⟩
        rw [rtN_y, dgN_y] at hy
        dsimp only at hy
        push_cast at hy
        omega
    · refine congrArg (fun z => (rtN R 0 :: dnN R 0 :: blocks R (t+1)) ++ [urN R (t+2)]
        ++ [rtN R (t+2)] ++ [z]) ?_
      rw [show dgN R (t+3) = PathNode.child (((t+2 : ℕ) : ℤ) + 1) (((t+2 : ℕ) : ℤ) + 1)
        ⟨0, ((t+2 : ℕ) : ℤ) + 1⟩ ⟨0, R - 2 - ((t+2 : ℕ) : ℤ)⟩ ⟨0, R - 1⟩ (dgN R (t+2)) from rfl]
      refine child_congr _ _ _ _ _ _ _ _ _ _ _ ?_ ?_ ?_ ?_ ?_
      · dsimp only
        rw [dgN_x]
      · dsimp only
        rw [dgN_y]
      · dsimp only
        rw [dgN_g, Q2.add_mk, Q2.mk.injEq]
        constructor <;> ring
      · dsimp only
        rw [dgN_x, dgN_y, show (eGoal R).x = R - 1 from rfl, show (eGoal R).y = R - 1 from rfl,
          octD_dg R ((t+2 : ℕ) : ℤ) (by push_cast; omega) (by push_cast; omega)]
      · dsimp only
        rw [dgN_x, dgN_y, dgN_g, show (eGoal R).x = R - 1 from rfl,
          show (eGoal R).y = R - 1 from rfl,
          octD_dg R ((t+2 : ℕ) : ℤ) (by push_cast; omega) (by push_cast; omega),
          Q2.add_mk, Q2.add_mk, Q2.mk.injEq]
        constructor <;> ring
  rw [s4]
  have s5 : processNeighbor (eGoal R) R (eObst R) (closedUpTo (t+2)) (dgN R (t+2))
      ((rtN R 0 :: dnN R 0 :: blocks R (t+1)) ++ [urN R (t+2)] ++ [rtN R (t+2)]
        ++ [dgN R (t+3)]) (0, 1, ⟨1, 0⟩)
      = (rtN R 0 :: dnN R 0 :: blocks R (t+1)) ++ [urN R (t+2)] ++ [rtN R (t+2)]
          ++ [dgN R (t+3)] ++ [dnN R (t+2)] := by
    refine (pn_push (eGoal R) R (eObst R) (closedUpTo (t+2)) (dgN R (t+2))
        _ (0, 1, ⟨1, 0⟩) hobs ?_ ?_ ?_).trans ?_
    · dsimp only
      rw [dgN_x, dgN_y]
      push_cast
      omega
    · dsimp only
      rw [dgN_x, dgN_y]
      intro hmem
      obtain ⟨i, hi, heq⟩ := (mem_closedUpTo _ _).mp hmem
      simp only [createPositionKey, Prod.mk.injEq] at heq
      omega
    · intro n hn
      rcases List.mem_append.mp hn with hn | hn
      rcases List.mem_append.mp (by exact hn) with hn | hn
      rcases List.mem_append.mp (by exact hn) with hn | hn
      · refine not_pos_in_E R (t+1) _ _ ?_ ?_ ?_ n hn
        · dsimp only
          rw [dgN_x, dgN_y]
          push_cast
          omega
        · dsimp only
          rw [dgN_x, dgN_y]
          push_cast
          omega
        · intro j hj1 hj2
          dsimp only
          rw [dgN_x, dgN_y]
          push_cast
          omega
      · rw [List.mem_singleton.mp hn]
        rintro ⟨hx, hy⟩
        rw [urN_x, dgN_x] at hx
        dsimp only at hx
        push_cast at hx
        omega
      · rw [List.mem_singleton.mp hn]
        rintro ⟨hx, hy⟩
        rw [rtN_x, dgN_x] at hx
        dsimp only at hx
        push_cast at hx
        omega
      · rw [List.mem_singleton.mp hn]
        rintro ⟨hx, hy⟩
        rw [dgN_x, dgN_x] at hx
        dsimp only at hx
        push_cast at hx
        omega
    · refine congrArg (fun z => (rtN R 0 :: dnN R 0 :: blocks R (t+1)) ++ [urN R (t+2)]
        ++ [rtN R (t+2)] ++ [dgN R (t+3)] ++ [z]) ?_
      rw [show dnN R (t+2) = PathNode.child ((t+2 : ℕ) : ℤ) (((t+2 : ℕ) : ℤ) + 1)
        ⟨1, ((t+2 : ℕ) : ℤ)⟩ ⟨1, R - 2 - ((t+2 : ℕ) : ℤ)⟩ ⟨2, R - 2⟩ (dgN R (t+2)) from rfl]
      refine child_congr _ _ _ _ _ _ _ _ _ _ _ ?_ ?_ ?_ ?_ ?_
      · dsimp only
        rw [dgN_x]
        ring
      · dsimp only
        rw [dgN_y]
      · dsimp only
        rw [dgN_g, Q2.add_mk, Q2.mk.injEq]
        constructor <;> ring
      · dsimp only
        rw [dgN_x, dgN_y, show (eGoal R).x = R - 1 from rfl, show (eGoal R).y = R - 1 from rfl,
          octD_dn R ((t+2 : ℕ) : ℤ) (by push_cast; omega) (by push_cast; omega)]
      · dsimp only
        rw [dgN_x, dgN_y, dgN_g, show (eGoal R).x = R - 1 from rfl,
          show (eGoal R).y = R - 1 from rfl,
          octD_dn R ((t+2 : ℕ) : ℤ) (by push_cast; omega) (by push_cast; omega),
          Q2.add_mk, Q2.add_mk, Q2.mk.injEq]
        constructor <;> ring
  rw [s5]
  have s6 : processNeighbor (eGoal R) R (eObst R) (closedUpTo (t+2)) (dgN R (t+2))
      ((rtN R 0 :: dnN R 0 :: blocks R (t+1)) ++ [urN R (t+2)] ++ [rtN R (t+2)]
        ++ [dgN R (t+3)] ++ [dnN R (t+2)]) (-1, 1, ⟨0, 1⟩)
      = (rtN R 0 :: dnN R 0 :: blocks R (t+1)) ++ [urN R (t+2)] ++ [rtN R (t+2)]
          ++ [dgN R (t+3)] ++ [dnN R (t+2)] ++ [dlN R (t+2)] := by
    refine (pn_push (eGoal R) R (eObst R) (closedUpTo (t+2)) (dgN R (t+2))
        _ (-1, 1, ⟨0, 1⟩) hobs ?_ ?_ ?_).trans ?_
    · dsimp only
      rw [dgN_x, dgN_y]
      push_cast
      omega
    · dsimp only
      rw [dgN_x, dgN_y]
      intro hmem
      obtain ⟨i, hi, heq⟩ := (mem_closedUpTo _ _).mp hmem
      simp only [createPositionKey, Prod.mk.injEq] at heq
      omega
    · intro n hn
      rcases List.mem_append.mp hn with hn | hn
      rcases List.mem_append.mp (by exact hn) with hn | hn
      rcases List.mem_append.mp (by exact hn) with hn | hn
      rcases List.mem_append.mp (by exact hn) with hn | hn
      · refine not_pos_in_E R (t+1) _ _ ?_ ?_ ?_ n hn
        · dsimp only
          rw [dgN_x, dgN_y]
          push_cast
          omega
        · dsimp only
          rw [dgN_x, dgN_y]
          push_cast
          omega
        · intro j hj1 hj2
          dsimp only
          rw [dgN_x, dgN_y]
          push_cast
          omega
      · rw [List.mem_singleton.mp hn]
        rintro ⟨hx, hy⟩
        rw [urN_y, dgN_y] at hy
        dsimp only at hy
        push_cast at hy
        omega
      · rw [List.mem_singleton.mp hn]
        rintro ⟨hx, hy⟩
        rw [rtN_x, dgN_x] at hx
        dsimp only at hx
        push_cast at hx
        omega
      · rw [List.mem_singleton.mp hn]
        rintro ⟨hx, hy⟩
        rw [dgN_x, dgN_x] at hx
        dsimp only at hx
        push_cast at hx
        omega
      · rw [List.mem_singleton.mp hn]
        rintro ⟨hx, hy⟩
        rw [dnN_x, dgN_x] at hx
        dsimp only at hx
        push_cast at hx
        omega
    · refine congrArg (fun z => (rtN R 0 :: dnN R 0 :: blocks R (t+1)) ++ [urN R (t+2)]
        ++ [rtN R (t+2)] ++ [dgN R (t+3)] ++ [dnN R (t+2)] ++ [z]) ?_
      rw [show dlN R (t+2) = PathNode.child (((t+2 : ℕ) : ℤ) - 1) (((t+2 : ℕ) : ℤ) + 1)
        ⟨0, ((t+2 : ℕ) : ℤ) + 1⟩ ⟨2, R - 2 - ((t+2 : ℕ) : ℤ)⟩ ⟨2, R - 1⟩ (dgN R (t+2)) from rfl]
      refine child_congr _ _ _ _ _ _ _ _ _ _ _ ?_ ?_ ?_ ?_ ?_
      · dsimp only
        rw [dgN_x]
        ring
      · dsimp only
        rw [dgN_y]
      · dsimp only
        rw [dgN_g, Q2.add_mk, Q2.mk.injEq]
        constructor <;> ring
      · dsimp only
        rw [dgN_x, dgN_y, show (eGoal R).x = R - 1 from rfl, show (eGoal R).y = R - 1 from rfl,
          octD_dl R ((t+2 : ℕ) : ℤ) (by push_cast; omega) (by push_cast; omega)]
      · dsimp only
        rw [dgN_x, dgN_y, dgN_g, show (eGoal R).x = R - 1 from rfl,
          show (eGoal R).y = R - 1 from rfl,
          octD_dl R ((t+2 : ℕ) : ℤ) (by push_cast; omega) (by push_cast; omega),
          Q2.add_mk, Q2.add_mk, Q2.mk.injEq]
        constructor <;> ring
  rw [s6]
  have s7 : processNeighbor (eGoal R) R (eObst R) (closedUpTo (t+2)) (dgN R (t+2))
      ((rtN R 0 :: dnN R 0 :: blocks R (t+1)) ++ [urN R (t+2)] ++ [rtN R (t+2)]
        ++ [dgN R (t+3)] ++ [dnN R (t+2)] ++ [dlN R (t+2)]) (-1, 0, ⟨1, 0⟩)
      = (rtN R 0 :: dnN R 0 :: blocks R (t+1)) ++ [urN R (t+2)] ++ [rtN R (t+2)]
          ++ [dgN R (t+3)] ++ [dnN R (t+2)] ++ [dlN R (t+2)] := by
    refine pn_no_update _ _ _ _ _ _ _ hobs ?_ ?_ ?_ ?_
    · dsimp only
      rw [dgN_x, dgN_y]
      push_cast
      omega
    · dsimp only
      rw [dgN_x, dgN_y]
      intro hmem
      obtain ⟨i, hi, heq⟩ := (mem_closedUpTo _ _).mp hmem
      simp only [createPositionKey, Prod.mk.injEq] at heq
      omega
    · refine ⟨dnN R (t+1), ?_, ?_, ?_⟩
      · refine List.mem_append.mpr (Or.inl (List.mem_append.mpr (Or.inl
          (List.mem_append.mpr (Or.inl (List.mem_append.mpr (Or.inl
            (List.mem_append.mpr (Or.inl ?_)))))))))
        exact List.mem_cons_of_mem _ (List.mem_cons_of_mem _
          (mem_blocks_of R (t+1) (t+1) (by omega) le_rfl).2.2.1)
      · dsimp only
        rw [dnN_x, dgN_x]
        push_cast
        ring
      · dsimp only
        rw [dnN_y, dgN_y]
        push_cast
        ring
    · intro n hn
      rcases List.mem_append.mp hn with hn | hn
      rcases List.mem_append.mp (by exact hn) with hn | hn
      rcases List.mem_append.mp (by exact hn) with hn | hn
      rcases List.mem_append.mp (by exact hn) with hn | hn
      rcases List.mem_append.mp (by exact hn) with hn | hn
      · revert hn
        refine forall_mem_E R (t+1) (fun m =>
          (m.x = (dgN R (t+2)).x + ((-1 : ℤ), (0 : ℤ), (⟨1, 0⟩ : Q2)).1 ∧
            m.y = (dgN R (t+2)).y + ((-1 : ℤ), (0 : ℤ), (⟨1, 0⟩ : Q2)).2.1) →
          Q2.blt ((dgN R (t+2)).g + ((-1 : ℤ), (0 : ℤ), (⟨1, 0⟩ : Q2)).2.2) m.g = false)
          ?_ ?_ ?_ n
        · rintro ⟨hx, hy⟩
          rw [rtN_y, dgN_y] at hy
          dsimp only at hy
          exfalso
          push_cast at hy
          omega
        · rintro ⟨hx, -⟩
          rw [dnN_x, dgN_x] at hx
          dsimp only at hx
          exfalso
          push_cast at hx
          omega
        · intro j hj1 hj2
          refine ⟨?_, ?_, ?_, ?_⟩
          · rintro ⟨hx, hy⟩
            rw [urN_x, dgN_x] at hx
            rw [urN_y, dgN_y] at hy
            dsimp only at hx hy
            exfalso
            push_cast at hx hy
            omega
          · rintro ⟨hx, hy⟩
            rw [rtN_x, dgN_x] at hx
            rw [rtN_y, dgN_y] at hy
            dsimp only at hx hy
            exfalso
            push_cast at hx hy
            omega
          · rintro ⟨hx, -⟩
            rw [dnN_x, dgN_x] at hx
            dsimp only at hx
            have hj : (j : ℤ) = (t : ℤ) + 1 := by push_cast at hx; omega
            rw [dnN_g, dgN_g, hj]
            rw [show ((⟨0, ((t+2 : ℕ) : ℤ)⟩ : Q2) + ⟨1, 0⟩) = ⟨1, ((t+2 : ℕ) : ℤ)⟩ from by
              rw [Q2.add_mk]
              rw [Q2.mk.injEq]
              constructor <;> ring]
            rw [bltShift 1 ((t+2 : ℕ) : ℤ) 1 ((t : ℤ) + 1) 0 (-1) (by ring) (by push_cast; ring)]
            decide
          · rintro ⟨hx, hy⟩
            rw [dlN_x, dgN_x] at hx
            rw [dlN_y, dgN_y] at hy
            dsimp only at hx hy
            exfalso
            push_cast at hx hy
            omega
      · rw [List.mem_singleton.mp hn]
        rintro ⟨hx, hy⟩
        rw [urN_x, dgN_x] at hx
        dsimp only at hx
        exfalso
        push_cast at hx
        omega
      · rw [List.mem_singleton.mp hn]
        rintro ⟨hx, hy⟩
        rw [rtN_x, dgN_x] at hx
        dsimp only at hx
        exfalso
        push_cast at hx
        omega
      · rw [List.mem_singleton.mp hn]
        rintro ⟨hx, hy⟩
        rw [dgN_x, dgN_x] at hx
        dsimp only at hx
        exfalso
        push_cast at hx
        omega
      · rw [List.mem_singleton.mp hn]
        rintro ⟨hx, hy⟩
        rw [dnN_x, dgN_x] at hx
        dsimp only at hx
        exfalso
        push_cast at hx
        omega
      · rw [List.mem_singleton.mp hn]
        rintro ⟨hx, hy⟩
        rw [dlN_y, dgN_y] at hy
        dsimp only at hy
        exfalso
        push_cast at hy
        omega
  rw [s7]
  have s8 : processNeighbor (eGoal R) R (eObst R) (closedUpTo (t+2)) (dgN R (t+2))
      ((rtN R 0 :: dnN R 0 :: blocks R (t+1)) ++ [urN R (t+2)] ++ [rtN R (t+2)]
        ++ [dgN R (t+3)] ++ [dnN R (t+2)] ++ [dlN R (t+2)]) (-1, -1, ⟨0, 1⟩)
      = (rtN R 0 :: dnN R 0 :: blocks R (t+1)) ++ [urN R (t+2)] ++ [rtN R (t+2)]
          ++ [dgN R (t+3)] ++ [dnN R (t+2)] ++ [dlN R (t+2)] := by
    refine pn_closed _ _ _ _ _ _ _ ?_ ?_
    · dsimp only
      rw [dgN_x, dgN_y]
      push_cast
      omega
    · refine (mem_closedUpTo (t+2) _).mpr ⟨t+1, by omega, ?_⟩
      dsimp only
      simp only [createPositionKey]
      rw [dgN_x, dgN_y, Prod.mk.injEq]
      constructor <;> (push_cast; ring)
  rw [s8]
  rw [show openState R (t+1) = rtN R 0 :: dnN R 0 :: (blocks R (t+1) ++
    urN R (t+2) :: rtN R (t+2) :: dgN R (t+3) :: dnN R (t+2) :: [dlN R (t+2)]) from rfl]
  simp

theorem emptyFinal (R : ℤ) (t : ℕ) (ht : ((t : ℤ) + 2) = R - 1) (fuel : ℕ) :
    aStarLoop (eGoal R) R (eObst R) (fuel + 1) (openState R t) (closedUpTo (t + 1))
      = some (diagCells 0 (t + 2)) := by
  show aStarLoop _ _ _ (fuel + 1)
    (rtN R 0 :: (dnN R 0 :: (blocks R t ++
      urN R (t+1) :: rtN R (t+1) :: dgN R (t+2) :: dnN R (t+1) :: [dlN R (t+1)]))) _ = _
  rw [aStarLoop]
  simp only
  rw [scan_openState R t]
  simp only
  rw [if_pos ⟨by rw [dgN_x]; show ((t+2 : ℕ) : ℤ) = R - 1; push_cast; omega,
    by rw [dgN_y]; show ((t+2 : ℕ) : ℤ) = R - 1; push_cast; omega⟩]
  rw [reconstruct_dgN]

/-- First iteration of the empty-grid run: expanding the start cell `(0,0)`
pushes the right, down-right and down neighbors (the other five directions
are out of bounds). -/
theorem emptyStart (R : ℤ) (hR : 2 ≤ R) (fuel : ℕ) :
    aStarLoop (eGoal R) R (eObst R) (fuel + 1) [dgN R 0] []
      = aStarLoop (eGoal R) R (eObst R) fuel [rtN R 0, dgN R 1, dnN R 0] (closedUpTo 0) := by
  have hobs := eObst_false R
  rw [aStarLoop]
  simp only
  rw [show scanLowest [] 1 0 (dgN R 0) = (0, dgN R 0) from rfl]
  simp only
  rw [if_neg (by
    rintro ⟨h1, -⟩
    rw [dgN_x] at h1
    have h2 : ((0 : ℕ) : ℤ) = R - 1 := h1
    omega)]
  rw [show ([dgN R 0] : List PathNode).eraseIdx 0 = ([] : List PathNode) from rfl]
  rw [show createPositionKey (dgN R 0).x (dgN R 0).y :: ([] : List (ℤ × ℤ))
    = closedUpTo 0 from rfl]
  congr 1
  simp only [DIRECTIONS, List.foldl_cons, List.foldl_nil]
  have q1 : processNeighbor (eGoal R) R (eObst R) (closedUpTo 0) (dgN R 0)
      ([] : List PathNode) (0, -1, ⟨1, 0⟩) = [] := by
    refine pn_oob _ _ _ _ _ _ _ ?_
    dsimp only
    rw [dgN_x, dgN_y]
    omega
  rw [q1]
  have q2 : processNeighbor (eGoal R) R (eObst R) (closedUpTo 0) (dgN R 0)
      ([] : List PathNode) (1, -1, ⟨0, 1⟩) = [] := by
    refine pn_oob _ _ _ _ _ _ _ ?_
    dsimp only
    rw [dgN_x, dgN_y]
    omega
  rw [q2]
  have q3 : processNeighbor (eGoal R) R (eObst R) (closedUpTo 0) (dgN R 0)
      ([] : List PathNode) (1, 0, ⟨1, 0⟩) = [rtN R 0] := by
    refine (pn_push (eGoal R) R (eObst R) (closedUpTo 0) (dgN R 0)
        [] (1, 0, ⟨1, 0⟩) hobs ?_ ?_ ?_).trans ?_
    · dsimp only
      rw [dgN_x, dgN_y]
      omega
    · dsimp only
      rw [dgN_x, dgN_y]
      intro hmem
      obtain ⟨i, hi, heq⟩ := (mem_closedUpTo _ _).mp hmem
      simp only [createPositionKey, Prod.mk.injEq] at heq
      omega
    · intro n hn
      exact absurd hn (List.not_mem_nil _)
    · show [_] = [rtN R 0]
      refine congrArg (fun z => [z]) ?_
      rw [show rtN R 0 = PathNode.child (((0 : ℕ) : ℤ) + 1) ((0 : ℕ) : ℤ)
        ⟨1, ((0 : ℕ) : ℤ)⟩ ⟨1, R - 2 - ((0 : ℕ) : ℤ)⟩ ⟨2, R - 2⟩ (dgN R 0) from rfl]
      refine child_congr _ _ _ _ _ _ _ _ _ _ _ ?_ ?_ ?_ ?_ ?_
      · dsimp only
        rw [dgN_x]
      · dsimp only
        rw [dgN_y]
        ring
      · dsimp only
        rw [dgN_g, Q2.add_mk, Q2.mk.injEq]
        constructor <;> ring
      · dsimp only
        rw [dgN_x, dgN_y, show (eGoal R).x = R - 1 from rfl, show (eGoal R).y = R - 1 from rfl,
          octD_rt R ((0 : ℕ) : ℤ) (by omega) (by omega)]
      · dsimp only
        rw [dgN_x, dgN_y, dgN_g, show (eGoal R).x = R - 1 from rfl,
          show (eGoal R).y = R - 1 from rfl,
          octD_rt R ((0 : ℕ) : ℤ) (by omega) (by omega),
          Q2.add_mk, Q2.add_mk, Q2.mk.injEq]
        constructor <;> ring
  rw [q3]
  have q4 : processNeighbor (eGoal R) R (eObst R) (closedUpTo 0) (dgN R 0)
      [rtN R 0] (1, 1, ⟨0, 1⟩) = [rtN R 0, dgN R 1] := by
    refine (pn_push (eGoal R) R (eObst R) (closedUpTo 0) (dgN R 0)
        [rtN R 0] (1, 1, ⟨0, 1⟩) hobs ?_ ?_ ?_).trans ?_
    · dsimp only
      rw [dgN_x, dgN_y]
      omega
    · dsimp only
      rw [dgN_x, dgN_y]
      intro hmem
      obtain ⟨i, hi, heq⟩ := (mem_closedUpTo _ _).mp hmem
      simp only [createPositionKey, Prod.mk.injEq] at heq
      omega
    · intro n hn
      rw [List.mem_singleton.mp hn]
      rintro ⟨hx, hy⟩
      rw [rtN_y, dgN_y] at hy
      dsimp only at hy
      omega
    · show [rtN R 0] ++ [_] = [rtN R 0, dgN R 1]
      refine congrArg (fun z => [rtN R 0] ++ [z]) ?_
      rw [show dgN R 1 = PathNode.child (((0 : ℕ) : ℤ) + 1) (((0 : ℕ) : ℤ) + 1)
        ⟨0, ((0 : ℕ) : ℤ) + 1⟩ ⟨0, R - 2 - ((0 : ℕ) : ℤ)⟩ ⟨0, R - 1⟩ (dgN R 0) from by
          show PathNode.child ((0 : ℤ) + 1) ((0 : ℤ) + 1) ⟨0, (0 : ℤ) + 1⟩ ⟨0, R - 2 - (0 : ℤ)⟩
            ⟨0, R - 1⟩ (dgN R 0) = _
          norm_num]
      refine child_congr _ _ _ _ _ _ _ _ _ _ _ ?_ ?_ ?_ ?_ ?_
      · dsimp only
        rw [dgN_x]
      · dsimp only
        rw [dgN_y]
      · dsimp only
        rw [dgN_g, Q2.add_mk, Q2.mk.injEq]
        constructor <;> ring
      · dsimp only
        rw [dgN_x, dgN_y, show (eGoal R).x = R - 1 from rfl, show (eGoal R).y = R - 1 from rfl,
          octD_dg R ((0 : ℕ) : ℤ) (by omega) (by omega)]
      · dsimp only
        rw [dgN_x, dgN_y, dgN_g, show (eGoal R).x = R - 1 from rfl,
          show (eGoal R).y = R - 1 from rfl,
          octD_dg R ((0 : ℕ) : ℤ) (by omega) (by omega),
          Q2.add_mk, Q2.add_mk, Q2.mk.injEq]
        constructor <;> ring
  rw [q4]
  have q5 : processNeighbor (eGoal R) R (eObst R) (closedUpTo 0) (dgN R 0)
      [rtN R 0, dgN R 1] (0, 1, ⟨1, 0⟩) = [rtN R 0, dgN R 1, dnN R 0] := by
    refine (pn_push (eGoal R) R (eObst R) (closedUpTo 0) (dgN R 0)
        [rtN R 0, dgN R 1] (0, 1, ⟨1, 0⟩) hobs ?_ ?_ ?_).trans ?_
    · dsimp only
      rw [dgN_x, dgN_y]
      omega
    · dsimp only
      rw [dgN_x, dgN_y]
      intro hmem
      obtain ⟨i, hi, heq⟩ := (mem_closedUpTo _ _).mp hmem
      simp only [createPositionKey, Prod.mk.injEq] at heq
      omega
    · intro n hn
      rcases List.mem_cons.mp hn with rfl | hn
      · rintro ⟨hx, -⟩
        rw [rtN_x, dgN_x] at hx
        dsimp only at hx
        omega
      · rw [List.mem_singleton.mp hn]
        rintro ⟨hx, -⟩
        rw [dgN_x, dgN_x] at hx
        dsimp only at hx
        omega
    · show [rtN R 0, dgN R 1] ++ [_] = [rtN R 0, dgN R 1, dnN R 0]
      refine congrArg (fun z => [rtN R 0, dgN R 1] ++ [z]) ?_
      rw [show dnN R 0 = PathNode.child ((0 : ℕ) : ℤ) (((0 : ℕ) : ℤ) + 1)
        ⟨1, ((0 : ℕ) : ℤ)⟩ ⟨1, R - 2 - ((0 : ℕ) : ℤ)⟩ ⟨2, R - 2⟩ (dgN R 0) from rfl]
      refine child_congr _ _ _ _ _ _ _ _ _ _ _ ?_ ?_ ?_ ?_ ?_
      · dsimp only
        rw [dgN_x]
        ring
      · dsimp only
        rw [dgN_y]
      · dsimp only
        rw [dgN_g, Q2.add_mk, Q2.mk.injEq]
        constructor <;> ring
      · dsimp only
        rw [dgN_x, dgN_y, show (eGoal R).x = R - 1 from rfl, show (eGoal R).y = R - 1 from rfl,
          octD_dn R ((0 : ℕ) : ℤ) (by omega) (by omega)]
      · dsimp only
        rw [dgN_x, dgN_y, dgN_g, show (eGoal R).x = R - 1 from rfl,
          show (eGoal R).y = R - 1 from rfl,
          octD_dn R ((0 : ℕ) : ℤ) (by omega) (by omega),
          Q2.add_mk, Q2.add_mk, Q2.mk.injEq]
        constructor <;> ring
  rw [q5]
  have q6 : processNeighbor (eGoal R) R (eObst R) (closedUpTo 0) (dgN R 0)
      [rtN R 0, dgN R 1, dnN R 0] (-1, 1, ⟨0, 1⟩) = [rtN R 0, dgN R 1, dnN R 0] := by
    refine pn_oob _ _ _ _ _ _ _ ?_
    dsimp only
    rw [dgN_x, dgN_y]
    omega
  rw [q6]
  have q7 : processNeighbor (eGoal R) R (eObst R) (closedUpTo 0) (dgN R 0)
      [rtN R 0, dgN R 1, dnN R 0] (-1, 0, ⟨1, 0⟩) = [rtN R 0, dgN R 1, dnN R 0] := by
    refine pn_oob _ _ _ _ _ _ _ ?_
    dsimp only
    rw [dgN_x, dgN_y]
    omega
  rw [q7]
  have q8 : processNeighbor (eGoal R) R (eObst R) (closedUpTo 0) (dgN R 0)
      [rtN R 0, dgN R 1, dnN R 0] (-1, -1, ⟨0, 1⟩) = [rtN R 0, dgN R 1, dnN R 0] := by
    refine pn_oob _ _ _ _ _ _ _ ?_
    dsimp only
    rw [dgN_x, dgN_y]
    omega
  rw [q8]

/-- Second iteration of the empty-grid run: expanding `(1,1)` yields the
standing open-set shape `openState R 0` with `(0,0)` and `(1,1)` closed. -/
theorem emptySecond (R : ℤ) (hR : 3 ≤ R) (fuel : ℕ) :
    aStarLoop (eGoal R) R (eObst R) (fuel + 1) [rtN R 0, dgN R 1, dnN R 0] (closedUpTo 0)
      = aStarLoop (eGoal R) R (eObst R) fuel (openState R 0) (closedUpTo 1) := by
  have hobs := eObst_false R
  rw [aStarLoop]
  simp only
  have hscan : scanLowest [dgN R 1, dnN R 0] 1 0 (rtN R 0) = (1, dgN R 1) := by
    rw [show ([dgN R 1, dnN R 0] : List PathNode) = [] ++ dgN R 1 :: [dnN R 0] from rfl]
    refine (scanLowest_unique_min [] (dgN R 1) [dnN R 0] 1 0 (rtN R 0) ?_ ?_ ?_).trans ?_
    · intro n hn
      exact absurd hn (List.not_mem_nil _)
    · rw [show (dgN R 1).f = (⟨0, R - 1⟩ : Q2) from rfl, rtN_f,
        bltShift 0 (R-1) 2 (R-2) 2 (-1) (by ring) (by ring)]
      decide
    · intro n hn
      rw [List.mem_singleton.mp hn, dnN_f, show (dgN R 1).f = (⟨0, R - 1⟩ : Q2) from rfl,
        bltShift 2 (R-2) 0 (R-1) (-2) 1 (by ring) (by ring)]
      decide
    · rfl
  rw [hscan]
  simp only
  rw [if_neg (by
    rintro ⟨h1, -⟩
    rw [dgN_x] at h1
    have h2 : ((1 : ℕ) : ℤ) = R - 1 := h1
    omega)]
  rw [show ([rtN R 0, dgN R 1, dnN R 0] : List PathNode).eraseIdx 1
    = [rtN R 0, dnN R 0] from rfl]
  rw [show createPositionKey (dgN R 1).x (dgN R 1).y :: closedUpTo 0 = closedUpTo 1 from rfl]
  congr 1
  simp only [DIRECTIONS, List.foldl_cons, List.foldl_nil]
  have r1 : processNeighbor (eGoal R) R (eObst R) (closedUpTo 1) (dgN R 1)
      [rtN R 0, dnN R 0] (0, -1, ⟨1, 0⟩) = [rtN R 0, dnN R 0] := by
    refine pn_no_update _ _ _ _ _ _ _ hobs ?_ ?_ ?_ ?_
    · dsimp only
      rw [dgN_x, dgN_y]
      omega
    · dsimp only
      rw [dgN_x, dgN_y]
      intro hmem
      obtain ⟨i, hi, heq⟩ := (mem_closedUpTo _ _).mp hmem
      simp only [createPositionKey, Prod.mk.injEq] at heq
      omega
    · refine ⟨rtN R 0, List.mem_cons_self _ _, ?_, ?_⟩
      · dsimp only
        rw [rtN_x, dgN_x]
        omega
      · dsimp only
        rw [rtN_y, dgN_y]
        omega
    · intro n hn
      rcases List.mem_cons.mp hn with rfl | hn
      · intro h
        dsimp only
        rw [rtN_g, dgN_g]
        rw [show ((⟨0, ((1 : ℕ) : ℤ)⟩ : Q2) + ⟨1, 0⟩) = ⟨1, ((1 : ℕ) : ℤ)⟩ from by
          rw [Q2.add_mk, Q2.mk.injEq]
          constructor <;> ring]
        rw [bltShift 1 ((1 : ℕ) : ℤ) 1 ((0 : ℕ) : ℤ) 0 (-1) (by ring) (by omega)]
        decide
      · rw [List.mem_singleton.mp hn]
        rintro ⟨hx, -⟩
        rw [dnN_x, dgN_x] at hx
        dsimp only at hx
        omega
  rw [r1]
  have r2 : processNeighbor (eGoal R) R (eObst R) (closedUpTo 1) (dgN R 1)
      [rtN R 0, dnN R 0] (1, -1, ⟨0, 1⟩) = [rtN R 0, dnN R 0] ++ [urN R 1] := by
    refine (pn_push (eGoal R) R (eObst R) (closedUpTo 1) (dgN R 1)
        [rtN R 0, dnN R 0] (1, -1, ⟨0, 1⟩) hobs ?_ ?_ ?_).trans ?_
    · dsimp only
      rw [dgN_x, dgN_y]
      omega
    · dsimp only
      rw [dgN_x, dgN_y]
      intro hmem
      obtain ⟨i, hi, heq⟩ := (mem_closedUpTo _ _).mp hmem
      simp only [createPositionKey, Prod.mk.injEq] at heq
      omega
    · intro n hn
      rcases List.mem_cons.mp hn with rfl | hn
      · rintro ⟨hx, -⟩
        rw [rtN_x, dgN_x] at hx
        dsimp only at hx
        omega
      · rw [List.mem_singleton.mp hn]
        rintro ⟨hx, -⟩
        rw [dnN_x, dgN_x] at hx
        dsimp only at hx
        omega
    · refine congrArg (fun z => [rtN R 0, dnN R 0] ++ [z]) ?_
      rw [show urN R 1 = PathNode.child (((1 : ℕ) : ℤ) + 1) (((1 : ℕ) : ℤ) - 1)
        ⟨0, ((1 : ℕ) : ℤ) + 1⟩ ⟨2, R - 2 - ((1 : ℕ) : ℤ)⟩ ⟨2, R - 1⟩ (dgN R 1) from rfl]
      refine child_congr _ _ _ _ _ _ _ _ _ _ _ ?_ ?_ ?_ ?_ ?_
      · dsimp only
        rw [dgN_x]
      · dsimp only
        rw [dgN_y]
        ring
      · dsimp only
        rw [dgN_g, Q2.add_mk, Q2.mk.injEq]
        constructor <;> ring
      · dsimp only
        rw [dgN_x, dgN_y, show (eGoal R).x = R - 1 from rfl, show (eGoal R).y = R - 1 from rfl,
          octD_ur R ((1 : ℕ) : ℤ) (by omega) (by omega)]
      · dsimp only
        rw [dgN_x, dgN_y, dgN_g, show (eGoal R).x = R - 1 from rfl,
          show (eGoal R).y = R - 1 from rfl,
          octD_ur R ((1 : ℕ) : ℤ) (by omega) (by omega),
          Q2.add_mk, Q2.add_mk, Q2.mk.injEq]
        constructor <;> ring
  rw [r2]
  have r3 : processNeighbor (eGoal R) R (eObst R) (closedUpTo 1) (dgN R 1)
      ([rtN R 0, dnN R 0] ++ [urN R 1]) (1, 0, ⟨1, 0⟩)
      = [rtN R 0, dnN R 0] ++ [urN R 1] ++ [rtN R 1] := by
    refine (pn_push (eGoal R) R (eObst R) (closedUpTo 1) (dgN R 1)
        _ (1, 0, ⟨1, 0⟩) hobs ?_ ?_ ?_).trans ?_
    · dsimp only
      rw [dgN_x, dgN_y]
      omega
    · dsimp only
      rw [dgN_x, dgN_y]
      intro hmem
      obtain ⟨i, hi, heq⟩ := (mem_closedUpTo _ _).mp hmem
      simp only [createPositionKey, Prod.mk.injEq] at heq
      omega
    · intro n hn
      rcases List.mem_append.mp hn with hn | hn
      · rcases List.mem_cons.mp hn with rfl | hn
        · rintro ⟨hx, -⟩
          rw [rtN_x, dgN_x] at hx
          dsimp only at hx
          omega
        · rw [List.mem_singleton.mp hn]
          rintro ⟨hx, -⟩
          rw [dnN_x, dgN_x] at hx
          dsimp only at hx
          omega
      · rw [List.mem_singleton.mp hn]
        rintro ⟨-, hy⟩
        rw [urN_y, dgN_y] at hy
        dsimp only at hy
        omega
    · refine congrArg (fun z => [rtN R 0, dnN R 0] ++ [urN R 1] ++ [z]) ?_
      rw [show rtN R 1 = PathNode.child (((1 : ℕ) : ℤ) + 1) ((1 : ℕ) : ℤ)
        ⟨1, ((1 : ℕ) : ℤ)⟩ ⟨1, R - 2 - ((1 : ℕ) : ℤ)⟩ ⟨2, R - 2⟩ (dgN R 1) from rfl]
      refine child_congr _ _ _ _ _ _ _ _ _ _ _ ?_ ?_ ?_ ?_ ?_
      · dsimp only
        rw [dgN_x]
      · dsimp only
        rw [dgN_y]
        ring
      · dsimp only
        rw [dgN_g, Q2.add_mk, Q2.mk.injEq]
        constructor <;> ring
      · dsimp only
        rw [dgN_x, dgN_y, show (eGoal R).x = R - 1 from rfl, show (eGoal R).y = R - 1 from rfl,
          octD_rt R ((1 : ℕ) : ℤ) (by omega) (by omega)]
      · dsimp only
        rw [dgN_x, dgN_y, dgN_g, show (eGoal R).x = R - 1 from rfl,
          show (eGoal R).y = R - 1 from rfl,
          octD_rt R ((1 : ℕ) : ℤ) (by omega) (by omega),
          Q2.add_mk, Q2.add_mk, Q2.mk.injEq]
        constructor <;> ring
  rw [r3]
  have r4 : processNeighbor (eGoal R) R (eObst R) (closedUpTo 1) (dgN R 1)
      ([rtN R 0, dnN R 0] ++ [urN R 1] ++ [rtN R 1]) (1, 1, ⟨0, 1⟩)
      = [rtN R 0, dnN R 0] ++ [urN R 1] ++ [rtN R 1] ++ [dgN R 2] := by
    refine (pn_push (eGoal R) R (eObst R) (closedUpTo 1) (dgN R 1)
        _ (1, 1, ⟨0, 1⟩) hobs ?_ ?_ ?_).trans ?_
    · dsimp only
      rw [dgN_x, dgN_y]
      omega
    · dsimp only
      rw [dgN_x, dgN_y]
      intro hmem
      obtain ⟨i, hi, heq⟩ := (mem_closedUpTo _ _).mp hmem
      simp only [createPositionKey, Prod.mk.injEq] at heq
      omega
    · intro n hn
      rcases List.mem_append.mp hn with hn | hn
      rcases List.mem_append.mp (by exact hn) with hn | hn
      · rcases List.mem_cons.mp hn with rfl | hn
        · rintro ⟨-, hy⟩
          rw [rtN_y, dgN_y] at hy
          dsimp only at hy
          omega
        · rw [List.mem_singleton.mp hn]
          rintro ⟨hx, -⟩
          rw [dnN_x, dgN_x] at hx
          dsimp only at hx
          omega
      · rw [List.mem_singleton.mp hn]
        rintro ⟨-, hy⟩
        rw [urN_y, dgN_y] at hy
        dsimp only at hy
        omega
      · rw [List.mem_singleton.mp hn]
        rintro ⟨-, hy⟩
        rw [rtN_y, dgN_y] at hy
        dsimp only at hy
        omega
    · refine congrArg (fun z => [rtN R 0, dnN R 0] ++ [urN R 1] ++ [rtN R 1] ++ [z]) ?_
      rw [show dgN R 2 = PathNode.child (((1 : ℕ) : ℤ) + 1) (((1 : ℕ) : ℤ) + 1)
        ⟨0, ((1 : ℕ) : ℤ) + 1⟩ ⟨0, R - 2 - ((1 : ℕ) : ℤ)⟩ ⟨0, R - 1⟩ (dgN R 1) from rfl]
      refine child_congr _ _ _ _ _ _ _ _ _ _ _ ?_ ?_ ?_ ?_ ?_
      · dsimp only
        rw [dgN_x]
      · dsimp only
        rw [dgN_y]
      · dsimp only
        rw [dgN_g, Q2.add_mk, Q2.mk.injEq]
        constructor <;> ring
      · dsimp only
        rw [dgN_x, dgN_y, show (eGoal R).x = R - 1 from rfl, show (eGoal R).y = R - 1 from rfl,
          octD_dg R ((1 : ℕ) : ℤ) (by omega) (by omega)]
      · dsimp only
        rw [dgN_x, dgN_y, dgN_g, show (eGoal R).x = R - 1 from rfl,
          show (eGoal R).y = R - 1 from rfl,
          octD_dg R ((1 : ℕ) : ℤ) (by omega) (by omega),
          Q2.add_mk, Q2.add_mk, Q2.mk.injEq]
        constructor <;> ring
  rw [r4]
  have r5 : processNeighbor (eGoal R) R (eObst R) (closedUpTo 1) (dgN R 1)
      ([rtN R 0, dnN R 0] ++ [urN R 1] ++ [rtN R 1] ++ [dgN R 2]) (0, 1, ⟨1, 0⟩)
      = [rtN R 0, dnN R 0] ++ [urN R 1] ++ [rtN R 1] ++ [dgN R 2] ++ [dnN R 1] := by
    refine (pn_push (eGoal R) R (eObst R) (closedUpTo 1) (dgN R 1)
        _ (0, 1, ⟨1, 0⟩) hobs ?_ ?_ ?_).trans ?_
    · dsimp only
      rw [dgN_x, dgN_y]
      omega
    · dsimp only
      rw [dgN_x, dgN_y]
      intro hmem
      obtain ⟨i, hi, heq⟩ := (mem_closedUpTo _ _).mp hmem
      simp only [createPositionKey, Prod.mk.injEq] at heq
      omega
    · intro n hn
      rcases List.mem_append.mp hn with hn | hn
      rcases List.mem_append.mp (by exact hn) with hn | hn
      rcases List.mem_append.mp (by exact hn) with hn | hn
      · rcases List.mem_cons.mp hn with rfl | hn
        · rintro ⟨-, hy⟩
          rw [rtN_y, dgN_y] at hy
          dsimp only at hy
          omega
        · rw [List.mem_singleton.mp hn]
          rintro ⟨hx, -⟩
          rw [dnN_x, dgN_x] at hx
          dsimp only at hx
          omega
      · rw [List.mem_singleton.mp hn]
        rintro ⟨hx, -⟩
        rw [urN_x, dgN_x] at hx
        dsimp only at hx
        omega
      · rw [List.mem_singleton.mp hn]
        rintro ⟨hx, -⟩
        rw [rtN_x, dgN_x] at hx
        dsimp only at hx
        omega
      · rw [List.mem_singleton.mp hn]
        rintro ⟨hx, -⟩
        rw [dgN_x, dgN_x] at hx
        dsimp only at hx
        omega
    · refine congrArg
        (fun z => [rtN R 0, dnN R 0] ++ [urN R 1] ++ [rtN R 1] ++ [dgN R 2] ++ [z]) ?_
      rw [show dnN R 1 = PathNode.child ((1 : ℕ) : ℤ) (((1 : ℕ) : ℤ) + 1)
        ⟨1, ((1 : ℕ) : ℤ)⟩ ⟨1, R - 2 - ((1 : ℕ) : ℤ)⟩ ⟨2, R - 2⟩ (dgN R 1) from rfl]
      refine child_congr _ _ _ _ _ _ _ _ _ _ _ ?_ ?_ ?_ ?_ ?_
      · dsimp only
        rw [dgN_x]
        ring
      · dsimp only
        rw [dgN_y]
      · dsimp only
        rw [dgN_g, Q2.add_mk, Q2.mk.injEq]
        constructor <;> ring
      · dsimp only
        rw [dgN_x, dgN_y, show (eGoal R).x = R - 1 from rfl, show (eGoal R).y = R - 1 from rfl,
          octD_dn R ((1 : ℕ) : ℤ) (by omega) (by omega)]
      · dsimp only
        rw [dgN_x, dgN_y, dgN_g, show (eGoal R).x = R - 1 from rfl,
          show (eGoal R).y = R - 1 from rfl,
          octD_dn R ((1 : ℕ) : ℤ) (by omega) (by omega),
          Q2.add_mk, Q2.add_mk, Q2.mk.injEq]
        constructor <;> ring
  rw [r5]
  have r6 : processNeighbor (eGoal R) R (eObst R) (closedUpTo 1) (dgN R 1)
      ([rtN R 0, dnN R 0] ++ [urN R 1] ++ [rtN R 1] ++ [dgN R 2] ++ [dnN R 1]) (-1, 1, ⟨0, 1⟩)
      = [rtN R 0, dnN R 0] ++ [urN R 1] ++ [rtN R 1] ++ [dgN R 2] ++ [dnN R 1]
          ++ [dlN R 1] := by
    refine (pn_push (eGoal R) R (eObst R) (closedUpTo 1) (dgN R 1)
        _ (-1, 1, ⟨0, 1⟩) hobs ?_ ?_ ?_).trans ?_
    · dsimp only
      rw [dgN_x, dgN_y]
      omega
    · dsimp only
      rw [dgN_x, dgN_y]
      intro hmem
      obtain ⟨i, hi, heq⟩ := (mem_closedUpTo _ _).mp hmem
      simp only [createPositionKey, Prod.mk.injEq] at heq
      omega
    · intro n hn
      rcases List.mem_append.mp hn with hn | hn
      rcases List.mem_append.mp (by exact hn) with hn | hn
      rcases List.mem_append.mp (by exact hn) with hn | hn
      rcases List.mem_append.mp (by exact hn) with hn | hn
      · rcases List.mem_cons.mp hn with rfl | hn
        · rintro ⟨hx, -⟩
          rw [rtN_x, dgN_x] at hx
          dsimp only at hx
          omega
        · rw [List.mem_singleton.mp hn]
          rintro ⟨-, hy⟩
          rw [dnN_y, dgN_y] at hy
          dsimp only at hy
          omega
      · rw [List.mem_singleton.mp hn]
        rintro ⟨hx, -⟩
        rw [urN_x, dgN_x] at hx
        dsimp only at hx
        omega
      · rw [List.mem_singleton.mp hn]
        rintro ⟨hx, -⟩
        rw [rtN_x, dgN_x] at hx
        dsimp only at hx
        omega
      · rw [List.mem_singleton.mp hn]
        rintro ⟨hx, -⟩
        rw [dgN_x, dgN_x] at hx
        dsimp only at hx
        omega
      · rw [List.mem_singleton.mp hn]
        rintro ⟨hx, -⟩
        rw [dnN_x, dgN_x] at hx
        dsimp only at hx
        omega
    · refine congrArg
        (fun z => [rtN R 0, dnN R 0] ++ [urN R 1] ++ [rtN R 1] ++ [dgN R 2] ++ [dnN R 1]
          ++ [z]) ?_
      rw [show dlN R 1 = PathNode.child (((1 : ℕ) : ℤ) - 1) (((1 : ℕ) : ℤ) + 1)
        ⟨0, ((1 : ℕ) : ℤ) + 1⟩ ⟨2, R - 2 - ((1 : ℕ) : ℤ)⟩ ⟨2, R - 1⟩ (dgN R 1) from rfl]
      refine child_congr _ _ _ _ _ _ _ _ _ _ _ ?_ ?_ ?_ ?_ ?_
      · dsimp only
        rw [dgN_x]
        ring
      · dsimp only
        rw [dgN_y]
      · dsimp only
        rw [dgN_g, Q2.add_mk, Q2.mk.injEq]
        constructor <;> ring
      · dsimp only
        rw [dgN_x, dgN_y, show (eGoal R).x = R - 1 from rfl, show (eGoal R).y = R - 1 from rfl,
          octD_dl R ((1 : ℕ) : ℤ) (by omega) (by omega)]
      · dsimp only
        rw [dgN_x, dgN_y, dgN_g, show (eGoal R).x = R - 1 from rfl,
          show (eGoal R).y = R - 1 from rfl,
          octD_dl R ((1 : ℕ) : ℤ) (by omega) (by omega),
          Q2.add_mk, Q2.add_mk, Q2.mk.injEq]
        constructor <;> ring
  rw [r6]
  have r7 : processNeighbor (eGoal R) R (eObst R) (closedUpTo 1) (dgN R 1)
      ([rtN R 0, dnN R 0] ++ [urN R 1] ++ [rtN R 1] ++ [dgN R 2] ++ [dnN R 1] ++ [dlN R 1])
      (-1, 0, ⟨1, 0⟩)
      = [rtN R 0, dnN R 0] ++ [urN R 1] ++ [rtN R 1] ++ [dgN R 2] ++ [dnN R 1]
          ++ [dlN R 1] := by
    refine pn_no_update _ _ _ _ _ _ _ hobs ?_ ?_ ?_ ?_
    · dsimp only
      rw [dgN_x, dgN_y]
      omega
    · dsimp only
      rw [dgN_x, dgN_y]
      intro hmem
      obtain ⟨i, hi, heq⟩ := (mem_closedUpTo _ _).mp hmem
      simp only [createPositionKey, Prod.mk.injEq] at heq
      omega
    · refine ⟨dnN R 0, ?_, ?_, ?_⟩
      · refine List.mem_append.mpr (Or.inl (List.mem_append.mpr (Or.inl
          (List.mem_append.mpr (Or.inl (List.mem_append.mpr (Or.inl
            (List.mem_append.mpr (Or.inl ?_)))))))))
        exact List.mem_cons_of_mem _ (List.mem_cons_self _ _)
      · dsimp only
        rw [dnN_x, dgN_x]
        omega
      · dsimp only
        rw [dnN_y, dgN_y]
        omega
    · intro n hn
      rcases List.mem_append.mp hn with hn | hn
      rcases List.mem_append.mp (by exact hn) with hn | hn
      rcases List.mem_append.mp (by exact hn) with hn | hn
      rcases List.mem_append.mp (by exact hn) with hn | hn
      rcases List.mem_append.mp (by exact hn) with hn | hn
      · rcases List.mem_cons.mp hn with rfl | hn
        · rintro ⟨hx, -⟩
          rw [rtN_x, dgN_x] at hx
          dsimp only at hx
          omega
        · rw [List.mem_singleton.mp hn]
          intro h
          dsimp only
          rw [dnN_g, dgN_g]
          rw [show ((⟨0, ((1 : ℕ) : ℤ)⟩ : Q2) + ⟨1, 0⟩) = ⟨1, ((1 : ℕ) : ℤ)⟩ from by
            rw [Q2.add_mk, Q2.mk.injEq]
            constructor <;> ring]
          rw [bltShift 1 ((1 : ℕ) : ℤ) 1 ((0 : ℕ) : ℤ) 0 (-1) (by ring) (by omega)]
          decide
      · rw [List.mem_singleton.mp hn]
        rintro ⟨hx, -⟩
        rw [urN_x, dgN_x] at hx
        dsimp only at hx
        omega
      · rw [List.mem_singleton.mp hn]
        rintro ⟨hx, -⟩
        rw [rtN_x, dgN_x] at hx
        dsimp only at hx
        omega
      · rw [List.mem_singleton.mp hn]
        rintro ⟨hx, -⟩
        rw [dgN_x, dgN_x] at hx
        dsimp only at hx
        omega
      · rw [List.mem_singleton.mp hn]
        rintro ⟨hx, -⟩
        rw [dnN_x, dgN_x] at hx
        dsimp only at hx
        omega
      · rw [List.mem_singleton.mp hn]
        rintro ⟨-, hy⟩
        rw [dlN_y, dgN_y] at hy
        dsimp only at hy
        omega
  rw [r7]
  have r8 : processNeighbor (eGoal R) R (eObst R) (closedUpTo 1) (dgN R 1)
      ([rtN R 0, dnN R 0] ++ [urN R 1] ++ [rtN R 1] ++ [dgN R 2] ++ [dnN R 1] ++ [dlN R 1])
      (-1, -1, ⟨0, 1⟩)
      = [rtN R 0, dnN R 0] ++ [urN R 1] ++ [rtN R 1] ++ [dgN R 2] ++ [dnN R 1]
          ++ [dlN R 1] := by
    refine pn_closed _ _ _ _ _ _ _ ?_ ?_
    · dsimp only
      rw [dgN_x, dgN_y]
      omega
    · refine (mem_closedUpTo 1 _).mpr ⟨0, by omega, ?_⟩
      dsimp only
      simp only [createPositionKey]
      rw [dgN_x, dgN_y, Prod.mk.injEq]
      constructor <;> omega
  rw [r8]
  rw [show openState R 0 = rtN R 0 :: dnN R 0 :: (blocks R 0 ++
    urN R 1 :: rtN R 1 :: dgN R 2 :: dnN R 1 :: [dlN R 1]) from rfl,
    show blocks R 0 = ([] : List PathNode) from rfl]
  simp

/-- The steady-state phase of the empty-grid run: from the standing open-set
shape, the loop closes one diagonal cell per iteration until it pops the
goal corner and reconstructs the diagonal path. -/
theorem emptyRun (R : ℤ) : ∀ (m t fuel : ℕ), ((t : ℤ) + 2) + (m : ℤ) = R - 1 →
    aStarLoop (eGoal R) R (eObst R) (fuel + m + 1) (openState R t) (closedUpTo (t + 1))
      = some (diagCells 0 (t + 2 + m)) := by
  intro m
  induction m with
  | zero =>
    intro t fuel ht
    show aStarLoop _ _ _ (fuel + 1) _ _ = some (diagCells 0 (t + 2))
    exact emptyFinal R t (by omega) fuel
  | succ m ih =>
    intro t fuel ht
    show aStarLoop _ _ _ ((fuel + m + 1) + 1) _ _ = _
    rw [emptyStep R t (by omega) (fuel + m + 1)]
    rw [show t + 2 + (m + 1) = (t + 1) + 2 + m from by omega]
    exact ih (t + 1) fuel (by omega)

/-- C2: on an empty `R×R` grid (`R ≥ 2`, no obstacles), `findPath` from the
corner `(0,0)` to the opposite corner `(R-1,R-1)` returns a path, and the
total cost of that path — `1` per orthogonal step, `√2` per diagonal step —
equals the octile distance between the two corners, namely `(R-1)·√2`. -/
theorem findPath_empty_grid_optimal (n : ℕ) (hn : 2 ≤ n) :
    ∃ p, findPath ⟨0, 0⟩ ⟨(n : ℤ) - 1, (n : ℤ) - 1⟩ (n : ℤ) [] = some p ∧
      (pathCost p).toReal
        = (octileDistance 0 0 ((n : ℤ) - 1) ((n : ℤ) - 1)).toReal ∧
      (pathCost p).toReal = ((n : ℝ) - 1) * Real.sqrt 2 := by
  have hoct : octileDistance 0 0 ((n : ℤ) - 1) ((n : ℤ) - 1) = ⟨0, (n : ℤ) - 1⟩ := by
    rw [octD_eval 0 0 (n : ℤ) (by omega) (by omega)]
    rw [Q2.mk.injEq]
    constructor
    · norm_num
    · rw [max_self]
      ring
  have hcost : pathCost (diagCells 0 (n - 1)) = ⟨0, (n : ℤ) - 1⟩ := by
    rw [pathCost_diagCells, Q2.mk.injEq]
    exact ⟨rfl, by omega⟩
  have hreal : ((⟨0, (n : ℤ) - 1⟩ : Q2)).toReal = ((n : ℝ) - 1) * Real.sqrt 2 := by
    unfold Q2.toReal
    push_cast
    ring
  have hpath : findPath ⟨0, 0⟩ ⟨(n : ℤ) - 1, (n : ℤ) - 1⟩ (n : ℤ) [] 
      = some (diagCells 0 (n - 1)) := by
    by_cases h2 : n = 2
    · subst h2
      decide
    · have h3 : 3 ≤ n := by omega
      unfold findPath
      rw [if_neg (by rintro ⟨h1, -⟩; dsimp only at h1; omega)]
      simp only
      rw [hoct]
      show aStarLoop (eGoal (n : ℤ)) (n : ℤ) (eObst (n : ℤ))
        ((n : ℤ).toNat * (n : ℤ).toNat + 2) [dgN (n : ℤ) 0] []
        = some (diagCells 0 (n - 1))
      rw [Int.toNat_natCast]
      have hnn : n ≤ n * n := Nat.le_mul_of_pos_left n (by omega)
      obtain ⟨K, hK⟩ : ∃ K, n * n = K := ⟨_, rfl⟩
      rw [hK] at hnn
      rw [hK]
      rw [show K + 2 = (((K - n + 2) + (n - 3) + 1) + 1) + 1 from by omega]
      rw [emptyStart (n : ℤ) (by omega) (((K - n + 2) + (n - 3) + 1) + 1)]
      rw [emptySecond (n : ℤ) (by omega) ((K - n + 2) + (n - 3) + 1)]
      have hrun := emptyRun (n : ℤ) (n - 3) 0 (K - n + 2) (by omega)
      rw [show (0 : ℕ) + 2 + (n - 3) = n - 1 from by omega] at hrun
      exact hrun
  refine ⟨diagCells 0 (n - 1), hpath, ?_, ?_⟩
  · rw [hcost, hoct]
  · rw [hcost, hreal]

/-- Witness for `findPath_empty_grid_optimal` at `n = 5`: the returned path
is the main diagonal and its cost denotes `4·√2`. -/
theorem findPath_empty_grid_optimal_witness :
    2 ≤ 5 ∧ ∃ p, findPath ⟨0, 0⟩ ⟨((5 : ℕ) : ℤ) - 1, ((5 : ℕ) : ℤ) - 1⟩ ((5 : ℕ) : ℤ) []
        = some p ∧
      (pathCost p).toReal
        = (octileDistance 0 0 (((5 : ℕ) : ℤ) - 1) (((5 : ℕ) : ℤ) - 1)).toReal ∧
      (pathCost p).toReal = (((5 : ℕ) : ℝ) - 1) * Real.sqrt 2 :=
  ⟨by decide, findPath_empty_grid_optimal 5 (by decide)⟩

end Pathfinding

/-!
## Player / renderer model (`src/player/utils.ts`, `src/unnamed/part_000`,
`src/unnamed/part_003`)

JavaScript numbers are modelled as rationals.  The few places where the
code leaves rational arithmetic are abstracted into a `JsEnv` record of
numeric primitives supplied by the runtime: `numStr` (number-to-string
conversion used in template literals), `jsNum` (the `Number()` string
parser, `none` meaning NaN/non-finite), `hypot` (`Math.hypot`) and
`sqrt` (`Math.sqrt`).  Every theorem below is proved for an arbitrary
environment, so nothing depends on the concrete float behaviour of these
four primitives.  Canvas drawing is modelled by emitting a list of `Prim`
values in draw order; the global `translate(gridOffset)` is dropped since
it shifts every primitive by the same constant.
-/

namespace Player

/-- Abstracted JavaScript numeric primitives. -/
structure JsEnv where
  numStr : ℚ → String
  jsNum : String → Option ℚ
  hypot : ℚ → ℚ → ℚ
  sqrt : ℚ → ℚ

/-- `RgbaColor` from `src/player/types.ts`. -/
structure RgbaColor where
  r : ℚ
  g : ℚ
  b : ℚ
  a : ℚ
deriving DecidableEq, Repr

/-- `DotPlayerDot`; `color` is a `ColorRef` palette index. -/
structure DotPlayerDot where
  id : String
  x : ℚ
  y : ℚ
  color : ℤ
  fadeInDuration : Option ℚ := none
  fadeOutDuration : Option ℚ := none
deriving DecidableEq, Repr

/-- `DotPlayerConnection` (`from`/`to` are Lean keywords, hence
`fromId`/`toId`). -/
structure DotPlayerConnection where
  id : String
  fromId : String
  toId : String
  color : ℤ
  order : ℚ
  revealDuration : Option ℚ := none
deriving DecidableEq, Repr

/-- `AutoConnection`.  The endpoint coordinates are integral grid cells
(the editor and `validatePlayerData` only produce in-grid values; a
fractional coordinate would make every generated position key miss the
integer keys used inside `findPath`). -/
structure AutoConnection where
  id : String
  fromX : ℤ
  fromY : ℤ
  toX : ℤ
  toY : ℤ
  color : ℤ
  traceInDuration : ℚ
  traceOutDuration : Option ℚ := none
  traceInReverse : Bool := false
  traceOutReverse : Bool := false
  stayDuration : Option ℚ := none
  startTime : ℚ
deriving DecidableEq, Repr

/-- `DotPlayerGroupAnimationOverrides`. -/
structure GroupAnimationOverrides where
  fadeInDuration : Option ℚ := none
  fadeOutDuration : Option ℚ := none
  connectionAnimationDuration : Option ℚ := none
  connectionStagger : Option ℚ := none
deriving DecidableEq, Repr

/-- `DotPlayerGroup`. -/
structure DotPlayerGroup where
  id : String
  name : String
  color : String
  dotIds : List String
  connectionIds : List String
  visible : Bool
  locked : Bool
  animationOverrides : Option GroupAnimationOverrides := none
deriving DecidableEq, Repr

/-- The easing names of `src/lib/easing.ts`. -/
inductive EasingName
  | linear | easeIn | easeOut | easeInOut | cubic | backIn | backOut | backInOut
deriving DecidableEq, Repr

/-- `DotPlayerFrame`. -/
structure DotPlayerFrame where
  id : String
  name : String
  dots : List DotPlayerDot
  connections : List DotPlayerConnection
  groups : List DotPlayerGroup
  duration : ℚ
  easing : EasingName
  dotFadeInDuration : ℚ
  dotFadeOutDuration : ℚ
  dotColorTransitionDuration : ℚ
  dotColorTransitionEasing : EasingName
  connectionAnimationDuration : ℚ
  connectionStagger : ℚ
  dotStagger : ℚ
  animateDots : Bool := true
  animateConnections : Bool := true
deriving DecidableEq, Repr

/-- `DotPlayerSettings`. -/
structure DotPlayerSettings where
  loopPlayback : Bool
  fadeInOnStart : Bool
  fadeOutOnEnd : Bool
  connectionFadeInOnStart : Bool
  connectionFadeOutOnEnd : Bool
deriving DecidableEq, Repr

/-- `RenderContext` (canvas handle dropped; only the numeric and color
parameters the renderer reads). -/
structure RenderContext where
  canvasSize : ℚ
  gridOffset : ℚ
  dotGap : ℚ
  dotRadius : ℚ
  gridSize : ℤ
  gridColor : String
  gridDotSize : ℚ
  showGrid : Bool
  colors : List String
  connectionStrokeScale : ℚ
  penTipRadiusOffset : ℚ
  penTipShadowBlur : ℚ
  penTipColor : String
deriving DecidableEq, Repr

/-- `FrameRenderState`. -/
structure FrameRenderState where
  frame : DotPlayerFrame
  frameIndex : ℤ
  totalFrames : ℤ
  playhead : ℚ
  settings : DotPlayerSettings
  frames : List DotPlayerFrame
deriving DecidableEq, Repr

/-- A draw primitive, in the order the canvas receives it. -/
inductive Prim
  | rect (x y w h : ℚ) (color : String)
  | line (x1 y1 x2 y2 : ℚ) (alpha : ℚ) (color : String)
  | tip (x y r : ℚ) (color : String) (shadow : String)
  | disk (x y r alpha : ℚ) (color : String)
  | stroke (pts : List (ℚ × ℚ)) (color : String)
deriving DecidableEq, Repr

/-- `DEFAULT_DOT_COLOR = PRESET_COLORS[0]`. -/
def DEFAULT_DOT_COLOR : String := "#0f1f1c"

/-- `DEFAULT_CONNECTION_COLOR = PRESET_COLORS[2]`. -/
def DEFAULT_CONNECTION_COLOR : String := "#f97316"

/-- `DEFAULT_DOT_COLOR_TRANSITION = 240`. -/
def DEFAULT_DOT_COLOR_TRANSITION : ℚ := 240

/-- `clamp` from `src/player/utils.ts`. -/
def clamp (value lo hi : ℚ) : ℚ := min hi (max lo value)

/-- The one-argument clamp of `src/lib/easing.ts`. -/
def clamp01 (t : ℚ) : ℚ := min 1 (max 0 t)

/-- The back-easing overshoot constant `1.70158`. -/
def easingS : ℚ := 170158 / 100000

/-- `easingFunctions` from `src/lib/easing.ts`. -/
def easingFun : EasingName → ℚ → ℚ
  | .linear, t => clamp01 t
  | .easeIn, t => clamp01 (t * t)
  | .easeOut, t => clamp01 (1 - (1 - t) ^ 2)
  | .easeInOut, t =>
    let c := clamp01 t
    if c < 1 / 2 then 2 * c * c else 1 - (-2 * c + 2) ^ 2 / 2
  | .cubic, t => clamp01 (t * t * t)
  | .backIn, t =>
    let c := clamp01 t
    c * c * ((easingS + 1) * c - easingS)
  | .backOut, t =>
    let c := clamp01 t - 1
    clamp01 (1 + c * c * ((easingS + 1) * c + easingS))
  | .backInOut, t =>
    let s := easingS * (1525 / 1000)
    let c := clamp01 t * 2
    if c < 1 then clamp01 (1 / 2 * (c * c * ((s + 1) * c - s)))
    else
      let sh := c - 2
      clamp01 (1 / 2 * (sh * sh * ((s + 1) * sh + s) + 2))

/-- JS `Math.round`: round half toward positive infinity. -/
def jsRound (q : ℚ) : ℤ := ⌊q + 1 / 2⌋

/-- JS array indexing `l[i]` with a (possibly negative) index. -/
def listGetI {α : Type} (l : List α) (i : ℤ) : Option α :=
  if h : 0 ≤ i ∧ i.toNat < l.length then some (l.get ⟨i.toNat, h.2⟩) else none

/-- JS `Map.get`. -/
def jsMapGet {α : Type} (m : List (String × α)) (k : String) : Option α :=
  match m with
  | [] => none
  | (k1, v) :: rest => if k1 = k then some v else jsMapGet rest k

/-- JS `Map.set`: overwrite in place, else append. -/
def jsMapSet {α : Type} (m : List (String × α)) (k : String) (v : α) :
    List (String × α) :=
  match m with
  | [] => [(k, v)]
  | (k1, v1) :: rest =>
    if k1 = k then (k, v) :: rest else (k1, v1) :: jsMapSet rest k v

/-- `createPositionKey` — the template literal stringifies both numbers. -/
def createPositionKey (env : JsEnv) (x y : ℚ) : String :=
  env.numStr x ++ ":" ++ env.numStr y

/-- `deriveDotMap`. -/
def deriveDotMap (dots : List DotPlayerDot) : List (String × DotPlayerDot) :=
  dots.foldl (fun m dot => jsMapSet m dot.id dot) []

/-- `deriveDotPositionSet` (a JS `Set`, queried only through `has`). -/
def deriveDotPositionSet (env : JsEnv) (dots : List DotPlayerDot) : List String :=
  dots.map (fun dot => createPositionKey env dot.x dot.y)

/-- `deriveDotColorMap`. -/
def deriveDotColorMap (env : JsEnv) (frame : Option DotPlayerFrame) :
    List (String × ℤ) :=
  match frame with
  | none => []
  | some f => f.dots.foldl (fun m dot =>
      jsMapSet m (createPositionKey env dot.x dot.y) dot.color) []

/-- `isSamePoint`. -/
def isSamePoint (a b : DotPlayerDot) : Prop := a.x = b.x ∧ a.y = b.y

instance (a b : DotPlayerDot) : Decidable (isSamePoint a b) :=
  inferInstanceAs (Decidable (_ ∧ _))

/-- `deriveConnectionKey`: sorted pair of position keys. -/
def deriveConnectionKey (env : JsEnv) (fromDot toDot : DotPlayerDot) : String :=
  let a := createPositionKey env fromDot.x fromDot.y
  let b := createPositionKey env toDot.x toDot.y
  if a < b then a ++ "-" ++ b else b ++ "-" ++ a

/-- `deriveConnectionKeySet` (dangling connections are skipped). -/
def deriveConnectionKeySet (env : JsEnv) (frame : Option DotPlayerFrame) :
    List String :=
  match frame with
  | none => []
  | some f =>
    let dotMap := deriveDotMap f.dots
    f.connections.foldr (fun connection keys =>
      match jsMapGet dotMap connection.fromId, jsMapGet dotMap connection.toId with
      | some f1, some t1 => deriveConnectionKey env f1 t1 :: keys
      | _, _ => keys) []

/-- Stable insertion used by `sortByOrder`: the new element goes after
every element whose `order` is not greater. -/
def insertConn (c : DotPlayerConnection) :
    List DotPlayerConnection → List DotPlayerConnection
  | [] => [c]
  | d :: rest => if c.order < d.order then c :: d :: rest else d :: insertConn c rest

/-- The stable `sort((a, b) => a.order - b.order)` of `ensureFrameOrder`. -/
def sortByOrder (l : List DotPlayerConnection) : List DotPlayerConnection :=
  l.foldl (fun acc c => insertConn c acc) []

/-- `ensureFrameOrder`: stable sort by `order`, then renumber sequentially. -/
def ensureFrameOrder (connections : List DotPlayerConnection) :
    List DotPlayerConnection :=
  (sortByOrder connections).enum.map (fun p => { p.2 with order := (p.1 : ℚ) })

/-- `ConnectionSegment`. -/
structure ConnectionSegment where
  connection : DotPlayerConnection
  fromDot : DotPlayerDot
  toDot : DotPlayerDot
  key : String
  length : ℚ
deriving DecidableEq, Repr

/-- Build the segment for one connection, `none` when an endpoint id is
missing from the dot map. -/
def segmentOf (env : JsEnv) (dotMap : List (String × DotPlayerDot))
    (c : DotPlayerConnection) : Option ConnectionSegment :=
  match jsMapGet dotMap c.fromId, jsMapGet dotMap c.toId with
  | some f, some t =>
    some ⟨c, f, t, deriveConnectionKey env f t, env.hypot (t.x - f.x) (t.y - f.y)⟩
  | _, _ => none

/-- The `sharesEndpoint` test of `buildConnectionPaths`. -/
def sharesEndpoint (last seg : ConnectionSegment) : Prop :=
  isSamePoint last.fromDot seg.fromDot ∨ isSamePoint last.fromDot seg.toDot ∨
    isSamePoint last.toDot seg.fromDot ∨ isSamePoint last.toDot seg.toDot

instance (last seg : ConnectionSegment) : Decidable (sharesEndpoint last seg) :=
  inferInstanceAs (Decidable (_ ∨ _))

/-- The main loop of `buildConnectionPaths` over the ordered connections. -/
def buildPathsLoop (env : JsEnv) (dotMap : List (String × DotPlayerDot)) :
    List DotPlayerConnection → List ConnectionSegment →
      List (List ConnectionSegment) → List (List ConnectionSegment)
  | [], current, paths => paths ++ (if current = [] then [] else [current])
  | c :: rest, current, paths =>
    match segmentOf env dotMap c with
    | none => buildPathsLoop env dotMap rest current paths
    | some seg =>
      match current.getLast? with
      | none => buildPathsLoop env dotMap rest [seg] paths
      | some last =>
        if sharesEndpoint last seg then
          buildPathsLoop env dotMap rest (current ++ [seg]) paths
        else
          buildPathsLoop env dotMap rest [seg] (paths ++ [current])

/-- `buildConnectionPaths`. -/
def buildConnectionPaths (env : JsEnv) (connections : List DotPlayerConnection)
    (dotMap : List (String × DotPlayerDot)) : List (List ConnectionSegment) :=
  buildPathsLoop env dotMap (ensureFrameOrder connections) [] []

/-- `resolveColor` (a `ColorRef` is always a number here). -/
def resolveColor (colors : List String) (ref : ℤ) (fallback : String) : String :=
  if h : 0 ≤ ref ∧ ref.toNat < colors.length then colors.get ⟨ref.toNat, h.2⟩
  else fallback

/-- Value of a hexadecimal digit. -/
def hexVal (c : Char) : Option ℕ :=
  if ('0' : Char) ≤ c ∧ c ≤ '9' then some (c.toNat - ('0' : Char).toNat)
  else if ('a' : Char) ≤ c ∧ c ≤ 'f' then some (c.toNat - ('a' : Char).toNat + 10)
  else if ('A' : Char) ≤ c ∧ c ≤ 'F' then some (c.toNat - ('A' : Char).toNat + 10)
  else none

/-- Longest-hex-digit-prefix accumulation of `Number.parseInt(s, 16)`. -/
def parseInt16Aux (acc : ℕ) : List Char → ℕ
  | [] => acc
  | c :: rest =>
    match hexVal c with
    | some v => parseInt16Aux (acc * 16 + v) rest
    | none => acc

/-- `Number.parseInt(s, 16)`: NaN (`none`) when the first character is not
a hex digit, otherwise the value of the maximal hex-digit prefix. -/
def parseInt16 (cs : List Char) : Option ℕ :=
  match cs with
  | [] => none
  | c :: rest =>
    match hexVal c with
    | some v => some (parseInt16Aux v rest)
    | none => none

/-- The `read(start, length)` helper of `parseHexColor`. -/
def hexRead (hex : List Char) (start len : ℕ) : Option ℕ :=
  parseInt16 ((hex.drop start).take len)

/-- `parseHexColor`. -/
def parseHexColor (value : String) : Option RgbaColor :=
  let hex := (value.trim.drop 1).data
  if hex.length = 3 ∨ hex.length = 4 then
    match hexRead hex 0 1, hexRead hex 1 1, hexRead hex 2 1 with
    | some r, some g, some b =>
      match (if hex.length = 4 then (hexRead hex 3 1).map (fun a => (a : ℚ) / 255)
             else some 1) with
      | some a => some ⟨r * 17, g * 17, b * 17, clamp a 0 1⟩
      | none => none
    | _, _, _ => none
  else if hex.length = 6 ∨ hex.length = 8 then
    match hexRead hex 0 2, hexRead hex 2 2, hexRead hex 4 2 with
    | some r, some g, some b =>
      match (if hex.length = 8 then (hexRead hex 6 2).map (fun a => (a : ℚ) / 255)
             else some 1) with
      | some a => some ⟨r, g, b, clamp a 0 1⟩
      | none => none
    | _, _, _ => none
  else none

/-- `parseRgbColor`: the regex `^rgba?\((.+)\)$/i` followed by `Number()`
on each comma-separated part. -/
def parseRgbColor (env : JsEnv) (value : String) : Option RgbaColor :=
  let t := value.trim
  let lower := t.toLower
  let inner? : Option String :=
    if lower.startsWith "rgba(" ∧ lower.endsWith ")" ∧ 5 + 1 < t.length then
      some ((t.drop 5).dropRight 1)
    else if lower.startsWith "rgb(" ∧ lower.endsWith ")" ∧ 4 + 1 < t.length then
      some ((t.drop 4).dropRight 1)
    else none
  match inner? with
  | none => none
  | some inner =>
    let parts := (inner.splitOn ",").map String.trim
    if parts.length < 3 then none
    else
      match env.jsNum (parts.getD 0 ""), env.jsNum (parts.getD 1 ""),
          env.jsNum (parts.getD 2 ""),
          (if 3 < parts.length then env.jsNum (parts.getD 3 "") else some 1) with
      | some r, some g, some b, some a =>
        some ⟨(jsRound (clamp r 0 255) : ℚ), (jsRound (clamp g 0 255) : ℚ),
          (jsRound (clamp b 0 255) : ℚ), clamp a 0 1⟩
      | _, _, _, _ => none

/-- The module-level color cache, as an association list keyed by trimmed
color strings. -/
abbrev Cache : Type := List (String × RgbaColor)

/-- Dispatch of `parseColor` on the already-trimmed string. -/
def parseColorDispatch (env : JsEnv) (trimmed : String) : Option RgbaColor :=
  if trimmed.startsWith "#" then parseHexColor trimmed else parseRgbColor env trimmed

/-- The cache-free meaning of `parseColor`. -/
def parseColorPure (env : JsEnv) (value : String) : Option RgbaColor :=
  parseColorDispatch env value.trim

/-- `parseColor`, threading the module-level cache explicitly. -/
def parseColor (env : JsEnv) (cache : Cache) (value : String) :
    Option RgbaColor × Cache :=
  let trimmed := value.trim
  match jsMapGet cache trimmed with
  | some c => (some c, cache)
  | none =>
    match parseColorDispatch env trimmed with
    | some parsed => (some parsed, jsMapSet cache trimmed parsed)
    | none => (none, cache)

/-- A cache is valid when every entry really is the parse of its key;
this is exactly the invariant `parseColor` maintains. -/
def cacheValid (env : JsEnv) (cache : Cache) : Prop :=
  ∀ kv ∈ cache, parseColorDispatch env kv.1 = some kv.2

/-- `mixColors`, threading the cache through its two `parseColor` calls. -/
def mixColors (env : JsEnv) (cache : Cache) (fromC toC : String) (amount : ℚ) :
    Option String × Cache :=
  let p1 := parseColor env cache fromC
  let p2 := parseColor env p1.2 toC
  match p1.1, p2.1 with
  | some fromColor, some toColor =>
    let t := clamp amount 0 1
    let r := jsRound (fromColor.r + (toColor.r - fromColor.r) * t)
    let g := jsRound (fromColor.g + (toColor.g - fromColor.g) * t)
    let b := jsRound (fromColor.b + (toColor.b - fromColor.b) * t)
    let a := (jsRound ((fromColor.a + (toColor.a - fromColor.a) * t) * 1000) : ℚ) / 1000
    (some ("rgba(" ++ env.numStr r ++ ", " ++ env.numStr g ++ ", " ++
      env.numStr b ++ ", " ++ env.numStr a ++ ")"), p2.2)
  | _, _ => (none, p2.2)

end Player

namespace Player

/-- `buildDotToGroupMap` (invisible groups skipped, later groups win). -/
def buildDotToGroupMap (groups : List DotPlayerGroup) :
    List (String × DotPlayerGroup) :=
  groups.foldl (fun m g =>
    if g.visible then g.dotIds.foldl (fun m2 did => jsMapSet m2 did g) m else m) []

/-- `buildConnectionToGroupMap`. -/
def buildConnectionToGroupMap (groups : List DotPlayerGroup) :
    List (String × DotPlayerGroup) :=
  groups.foldl (fun m g =>
    if g.visible then g.connectionIds.foldl (fun m2 cid => jsMapSet m2 cid g) m else m) []

/-- `renderGrid`: one filled square per grid cell, column-major as in the
nested `for` loops. -/
def renderGrid (ctx : RenderContext) : List Prim :=
  ((List.range ctx.gridSize.toNat).map (fun x =>
    (List.range ctx.gridSize.toNat).map (fun y =>
      Prim.rect ((x : ℚ) * ctx.dotGap - ctx.gridDotSize / 2)
        ((y : ℚ) * ctx.dotGap - ctx.gridDotSize / 2)
        ctx.gridDotSize ctx.gridDotSize ctx.gridColor))).flatten

/-- `dotCount = Math.max(frame.dots.length, 1)`. -/
def dotCountOf (frame : DotPlayerFrame) : ℚ := max ((frame.dots.length : ℚ)) 1

/-- The effective dot stagger computed by `renderFrame`: `0` when the
configured stagger is exactly `0`, otherwise the minimum of the configured
stagger, a quarter of the fade-in duration, and `duration*0.4/dotCount`. -/
def dotStaggerOf (frame : DotPlayerFrame) : ℚ :=
  if frame.dotStagger = 0 then 0
  else min frame.dotStagger
    (min (frame.dotFadeInDuration / 4) (frame.duration * (2 / 5) / dotCountOf frame))

/-- `fadeOutDefault = Math.max(frame.dotFadeOutDuration, 1)`. -/
def fadeOutDefaultOf (frame : DotPlayerFrame) : ℚ := max frame.dotFadeOutDuration 1

/-- `colorTransitionDuration = Math.max(frame.dotColorTransitionDuration, 0)`
(the `?? DEFAULT_DOT_COLOR_TRANSITION` fallback never fires: the field is
non-optional). -/
def colorTransitionDurationOf (frame : DotPlayerFrame) : ℚ :=
  max frame.dotColorTransitionDuration 0

/-- `colorTransitionProgress`: `1` when the clamped duration is `≤ 0`,
otherwise the eased clamped ratio `playhead / colorTransitionDuration`. -/
def colorTransitionProgressOf (frame : DotPlayerFrame) (playhead : ℚ) : ℚ :=
  if colorTransitionDurationOf frame ≤ 0 then 1
  else easingFun frame.dotColorTransitionEasing
    (clamp (playhead / colorTransitionDurationOf frame) 0 1)

/-- `baseProgress`, guarded by `frame.duration > 0`. -/
def baseProgressOf (frame : DotPlayerFrame) (playhead : ℚ) : ℚ :=
  if 0 < frame.duration then clamp (playhead / frame.duration) 0 1 else 0

/-- `easedTime = frame.duration * ease(baseProgress)`. -/
def easedTimeOf (frame : DotPlayerFrame) (playhead : ℚ) : ℚ :=
  frame.duration * easingFun frame.easing (baseProgressOf frame playhead)

/-- The cumulative-clock prefix sum `Σ frames[i].duration` for `i <
frameIndex`. -/
def sumDurations (frames : List DotPlayerFrame) (k : ℤ) : ℚ :=
  ((frames.take k.toNat).map (fun f => f.duration)).sum

/-- `renderExistingConnections`, per connection (`frameDuration` is the
only frame field the body reads). -/
def renderExistingOne (env : JsEnv) (ctx : RenderContext) (frameDuration : ℚ)
    (dotById : List (String × DotPlayerDot)) (prevKeys nextKeys : List String)
    (easedTime fadeOutDefault : ℚ)
    (connectionToGroup : List (String × DotPlayerGroup))
    (connection : DotPlayerConnection) : List Prim :=
  match jsMapGet dotById connection.fromId, jsMapGet dotById connection.toId with
  | some f, some t =>
    let key := deriveConnectionKey env f t
    if prevKeys.contains key then
      let group := jsMapGet connectionToGroup connection.id
      let groupFadeOut := (group.bind (fun g => g.animationOverrides)).bind
        (fun o => o.fadeOutDuration)
      let effectiveFadeOut := groupFadeOut.getD fadeOutDefault
      let isLeaving := ! nextKeys.contains key
      let fadeOut := if isLeaving then
          clamp ((frameDuration - easedTime) / effectiveFadeOut) 0 1
        else 1
      [Prim.line (f.x * ctx.dotGap) (f.y * ctx.dotGap) (t.x * ctx.dotGap)
        (t.y * ctx.dotGap) fadeOut
        (resolveColor ctx.colors connection.color DEFAULT_CONNECTION_COLOR)]
    else []
  | _, _ => []

/-- `renderExistingConnections`. -/
def renderExistingConnections (env : JsEnv) (ctx : RenderContext)
    (connections : List DotPlayerConnection) (frameDuration : ℚ)
    (dotById : List (String × DotPlayerDot)) (prevKeys nextKeys : List String)
    (easedTime fadeOutDefault : ℚ)
    (connectionToGroup : List (String × DotPlayerGroup)) : List Prim :=
  (connections.map (renderExistingOne env ctx frameDuration dotById prevKeys
    nextKeys easedTime fadeOutDefault connectionToGroup)).flatten

/-- JS `segment.length || 1`: zero (the only falsy rational) becomes one. -/
def lengthOr1 (q : ℚ) : ℚ := if q = 0 then 1 else q

/-- The divisor of the per-segment reveal progress:
`Math.max(segmentDuration, 1)`. -/
def segProgressDivisor (segmentDuration : ℚ) : ℚ := max segmentDuration 1

/-- The per-segment loop of `renderAnimatingConnections`. -/
def renderSegs (env : JsEnv) (ctx : RenderContext) (frameDuration : ℚ)
    (nextKeys : List String) (easedTime fadeOutDefault : ℚ)
    (connectionToGroup : List (String × DotPlayerGroup))
    (elapsed pathDuration totalLength : ℚ) :
    List ConnectionSegment → ℚ → List Prim
  | [], _ => []
  | seg :: rest, accumulated =>
    let segmentDuration := pathDuration * (lengthOr1 seg.length / totalLength)
    let localT := elapsed - accumulated
    let acc2 := accumulated + segmentDuration
    if localT ≤ 0 then
      renderSegs env ctx frameDuration nextKeys easedTime fadeOutDefault
        connectionToGroup elapsed pathDuration totalLength rest acc2
    else
      let groupFadeOut := ((jsMapGet connectionToGroup seg.connection.id).bind
        (fun g => g.animationOverrides)).bind (fun o => o.fadeOutDuration)
      let effectiveFadeOut := groupFadeOut.getD fadeOutDefault
      let progress := clamp (localT / segProgressDivisor segmentDuration) 0 1
      let isLeaving := ! nextKeys.contains seg.key
      let fadeOut := if isLeaving then
          clamp ((frameDuration - easedTime) / effectiveFadeOut) 0 1
        else 1
      let x1 := seg.fromDot.x * ctx.dotGap
      let y1 := seg.fromDot.y * ctx.dotGap
      let x2 := seg.toDot.x * ctx.dotGap
      let y2 := seg.toDot.y * ctx.dotGap
      let x := x1 + (x2 - x1) * progress
      let y := y1 + (y2 - y1) * progress
      let col := resolveColor ctx.colors seg.connection.color DEFAULT_CONNECTION_COLOR
      (Prim.line x1 y1 x y fadeOut col ::
        (if progress < 1 then
          [Prim.tip x y (ctx.dotRadius + ctx.penTipRadiusOffset) ctx.penTipColor col]
        else [])) ++
        renderSegs env ctx frameDuration nextKeys easedTime fadeOutDefault
          connectionToGroup elapsed pathDuration totalLength rest acc2

/-- The per-path loop of `renderAnimatingConnections` (an empty path is
skipped without advancing `pathIndex`, exactly as the `continue` does). -/
def renderPathsLoop (env : JsEnv) (ctx : RenderContext)
    (frameDuration frameConnDuration frameConnStagger : ℚ)
    (nextKeys : List String) (easedTime fadeOutDefault : ℚ)
    (connectionToGroup : List (String × DotPlayerGroup)) :
    List (List ConnectionSegment) → ℕ → List Prim
  | [], _ => []
  | path :: more, pathIndex =>
    match path with
    | [] => renderPathsLoop env ctx frameDuration frameConnDuration frameConnStagger
        nextKeys easedTime fadeOutDefault connectionToGroup more pathIndex
    | first :: _ =>
      let group := jsMapGet connectionToGroup first.connection.id
      let groupDuration := (group.bind (fun g => g.animationOverrides)).bind
        (fun o => o.connectionAnimationDuration)
      let groupStagger := (group.bind (fun g => g.animationOverrides)).bind
        (fun o => o.connectionStagger)
      let override := path.find? (fun s => s.connection.revealDuration.isSome)
      let pathDuration := max
        (((override.bind (fun s => s.connection.revealDuration)).orElse
          (fun _ => groupDuration)).getD frameConnDuration) 1
      let effectiveStagger := groupStagger.getD frameConnStagger
      let totalLength := path.foldl (fun s seg => s + lengthOr1 seg.length) 0
      let pathStart := (pathIndex : ℚ) * effectiveStagger
      let elapsed := easedTime - pathStart
      if elapsed ≤ 0 then
        renderPathsLoop env ctx frameDuration frameConnDuration frameConnStagger
          nextKeys easedTime fadeOutDefault connectionToGroup more (pathIndex + 1)
      else
        renderSegs env ctx frameDuration nextKeys easedTime fadeOutDefault
          connectionToGroup elapsed pathDuration totalLength path 0 ++
          renderPathsLoop env ctx frameDuration frameConnDuration frameConnStagger
            nextKeys easedTime fadeOutDefault connectionToGroup more (pathIndex + 1)

/-- `renderAnimatingConnections`. -/
def renderAnimatingConnections (env : JsEnv) (ctx : RenderContext)
    (connections : List DotPlayerConnection)
    (frameDuration frameConnDuration frameConnStagger : ℚ)
    (dotById : List (String × DotPlayerDot))
    (prevKeys nextKeys : List String) (easedTime fadeOutDefault : ℚ)
    (connectionToGroup : List (String × DotPlayerGroup)) : List Prim :=
  let newConnections := connections.filter (fun c =>
    match jsMapGet dotById c.fromId, jsMapGet dotById c.toId with
    | some f, some t => ! prevKeys.contains (deriveConnectionKey env f t)
    | _, _ => false)
  let connectionPaths := buildConnectionPaths env newConnections dotById
  renderPathsLoop env ctx frameDuration frameConnDuration frameConnStagger nextKeys
    easedTime fadeOutDefault connectionToGroup connectionPaths 0

/-- The fade-in / fade-out divisor used for one dot:
`Math.max(dot override ?? group override ?? frame default, 1)`. -/
def dotFadeDivisor (dotValue groupValue : Option ℚ) (frameValue : ℚ) : ℚ :=
  max ((dotValue.orElse (fun _ => groupValue)).getD frameValue) 1

/-- `delay = isNew ? index * dotStagger : 0`. -/
def dotDelay (isNew : Bool) (index : ℕ) (stagger : ℚ) : ℚ :=
  if isNew then (index : ℚ) * stagger else 0

/-- `fadeIn = isNew ? clamp(local / fadeInDuration, 0, 1) : 1`. -/
def dotFadeIn (isNew : Bool) (localT fadeInDuration : ℚ) : ℚ :=
  if isNew then clamp (localT / fadeInDuration) 0 1 else 1

/-- `fadeOut = isLeaving ? clamp((duration - easedTime) / fadeOutDuration, 0, 1) : 1`. -/
def dotFadeOut (isLeaving : Bool) (duration easedTime fadeOutDuration : ℚ) : ℚ :=
  if isLeaving then clamp ((duration - easedTime) / fadeOutDuration) 0 1 else 1

/-- `alpha = Math.min(fadeIn, fadeOut)` for one dot, with all the
intermediate values of `renderDots`. -/
def dotAlphaOf (env : JsEnv) (frameDuration dotFadeInDefault dotFadeOutDefault : ℚ)
    (prevPos nextPos : List String) (easedTime dotStagger : ℚ)
    (dotToGroup : List (String × DotPlayerGroup)) (index : ℕ)
    (dot : DotPlayerDot) : ℚ :=
  let key := createPositionKey env dot.x dot.y
  let isNew := ! prevPos.contains key
  let isLeaving := ! nextPos.contains key
  let group := jsMapGet dotToGroup dot.id
  let groupFadeIn := (group.bind (fun g => g.animationOverrides)).bind
    (fun o => o.fadeInDuration)
  let groupFadeOut := (group.bind (fun g => g.animationOverrides)).bind
    (fun o => o.fadeOutDuration)
  let fadeInDuration := dotFadeDivisor dot.fadeInDuration groupFadeIn dotFadeInDefault
  let fadeOutDuration := dotFadeDivisor dot.fadeOutDuration groupFadeOut
    dotFadeOutDefault
  let delay := dotDelay isNew index dotStagger
  let localT := easedTime - delay
  min (dotFadeIn isNew localT fadeInDuration)
    (dotFadeOut isLeaving frameDuration easedTime fadeOutDuration)

/-- The fill-color computation of `renderDots` for one dot: the resolved
current color, or the cached color-transition blend for a surviving dot
whose palette index changed. -/
def dotFill (env : JsEnv) (ctx : RenderContext) (isNew : Bool) (key : String)
    (prevColors : List (String × ℤ)) (dotColor : ℤ)
    (colorTransitionProgress : ℚ) (cache : Cache) : String × Cache :=
  let currentColor := resolveColor ctx.colors dotColor DEFAULT_DOT_COLOR
  if isNew then (currentColor, cache)
  else
    match jsMapGet prevColors key with
    | some prevColorRef =>
      if prevColorRef ≠ dotColor then
        let prevColor := resolveColor ctx.colors prevColorRef DEFAULT_DOT_COLOR
        let m := mixColors env cache prevColor currentColor colorTransitionProgress
        (match m.1 with
         | some blended => blended
         | none => currentColor, m.2)
      else (currentColor, cache)
    | none => (currentColor, cache)

/-- The body of `renderDots` for a single dot: the emitted disk (if any)
and the updated color cache. -/
def renderOneDot (env : JsEnv) (ctx : RenderContext)
    (frameDuration dotFadeInDefault dotFadeOutDefault : ℚ)
    (prevPos nextPos : List String) (prevColors : List (String × ℤ))
    (easedTime dotStagger colorTransitionProgress : ℚ)
    (dotToGroup : List (String × DotPlayerGroup)) (cache : Cache)
    (index : ℕ) (dot : DotPlayerDot) : Option Prim × Cache :=
  let alpha := dotAlphaOf env frameDuration dotFadeInDefault dotFadeOutDefault
    prevPos nextPos easedTime dotStagger dotToGroup index dot
  if alpha ≤ 0 then (none, cache)
  else
    let key := createPositionKey env dot.x dot.y
    let isNew := ! prevPos.contains key
    let scale := 3 / 5 + 2 / 5 * alpha
    let fill := dotFill env ctx isNew key prevColors dot.color
      colorTransitionProgress cache
    (some (Prim.disk (dot.x * ctx.dotGap) (dot.y * ctx.dotGap)
      (ctx.dotRadius * scale) alpha fill.1), fill.2)

/-- The indexed loop of `renderDots`. -/
def renderDotsAux (env : JsEnv) (ctx : RenderContext)
    (frameDuration dotFadeInDefault dotFadeOutDefault : ℚ)
    (prevPos nextPos : List String) (prevColors : List (String × ℤ))
    (easedTime dotStagger colorTransitionProgress : ℚ)
    (dotToGroup : List (String × DotPlayerGroup)) :
    Cache → ℕ → List DotPlayerDot → List Prim × Cache
  | cache, _, [] => ([], cache)
  | cache, index, dot :: rest =>
    let r1 := renderOneDot env ctx frameDuration dotFadeInDefault dotFadeOutDefault
      prevPos nextPos prevColors easedTime dotStagger colorTransitionProgress
      dotToGroup cache index dot
    let r2 := renderDotsAux env ctx frameDuration dotFadeInDefault dotFadeOutDefault
      prevPos nextPos prevColors easedTime dotStagger colorTransitionProgress
      dotToGroup r1.2 (index + 1) rest
    ((match r1.1 with | some p => [p] | none => []) ++ r2.1, r2.2)

/-- `renderDots`. -/
def renderDots (env : JsEnv) (ctx : RenderContext) (dots : List DotPlayerDot)
    (frameDuration dotFadeInDefault dotFadeOutDefault : ℚ)
    (prevPos nextPos : List String) (prevColors : List (String × ℤ))
    (easedTime dotStagger colorTransitionProgress : ℚ)
    (dotToGroup : List (String × DotPlayerGroup)) (cache : Cache) :
    List Prim × Cache :=
  renderDotsAux env ctx frameDuration dotFadeInDefault dotFadeOutDefault prevPos
    nextPos prevColors easedTime dotStagger colorTransitionProgress dotToGroup
    cache 0 dots

/-- `x < o` where `o = none` encodes `Infinity`. -/
def ltOptB (x : ℚ) (o : Option ℚ) : Bool :=
  match o with
  | none => true
  | some v => decide (x < v)

/-- The phase block of `renderAutoConnections`: given the elapsed time
since `startTime`, the drawn portion `(progressStart, progressEnd)` of the
route and the `isTracing` flag; `none` when the connection is skipped
(not started yet, or finished tracing out). -/
def autoPhase (ac : AutoConnection) (elapsed : ℚ) : Option (ℚ × ℚ × Bool) :=
  if elapsed < 0 then none
  else
    let traceInEnd := ac.traceInDuration
    let stayEnd : Option ℚ := ac.stayDuration.map (fun s => traceInEnd + s)
    let traceOutEnd : Option ℚ :=
      match ac.traceOutDuration, stayEnd with
      | some d, some se => some (se + d)
      | _, _ => none
    if elapsed < traceInEnd then
      let p := clamp (elapsed / ac.traceInDuration) 0 1
      if ac.traceInReverse then some (1 - p, 1, true) else some (0, p, true)
    else if ltOptB elapsed stayEnd then some (0, 1, false)
    else if ltOptB elapsed traceOutEnd && ac.traceOutDuration.isSome then
      let p :=
        match stayEnd with
        | some se => clamp ((elapsed - se) / ac.traceOutDuration.getD 1) 0 1
        | none => 0
      if ac.traceOutReverse then some (0, 1 - p, true) else some (p, 1, true)
    else if ac.traceOutDuration.isSome then none
    else some (0, 1, false)

/-- The visible fraction `progressEnd - progressStart` of the route
(`0` when the connection is skipped or the range is empty). -/
def autoVisibleFraction (ac : AutoConnection) (elapsed : ℚ) : ℚ :=
  match autoPhase ac elapsed with
  | none => 0
  | some (ps, pe, _) => if pe ≤ ps then 0 else pe - ps

/-- `buildObstacleSet` from `src/lib/pathfinding.ts`: one `x:y` key per
dot.  A fractional coordinate can never collide with the integer keys
`findPath` queries, so only integral positions are kept. -/
def buildObstacleSet (dots : List DotPlayerDot) : List (ℤ × ℤ) :=
  dots.filterMap (fun d =>
    if d.x.den = 1 ∧ d.y.den = 1 then some (d.x.num, d.y.num) else none)

/-- Consecutive segments of a path. -/
def autoSegs : List Pathfinding.GridPosition →
    List (Pathfinding.GridPosition × Pathfinding.GridPosition)
  | [] => []
  | [_] => []
  | a :: b :: rest => (a, b) :: autoSegs (b :: rest)

/-- `Math.sqrt(dx*dx + dy*dy)` for one segment. -/
def segLen (env : JsEnv)
    (ab : Pathfinding.GridPosition × Pathfinding.GridPosition) : ℚ :=
  let dx := ab.2.x - ab.1.x
  let dy := ab.2.y - ab.1.y
  env.sqrt ((dx * dx + dy * dy : ℤ) : ℚ)

/-- The arc-clipping loop of `renderAutoConnections`: accumulates the
polyline points of the visible arc `[startLength, endLength]`, the last
pen position, and whether the pen tip should show. -/
def autoLoop (env : JsEnv) (dotGap startLength endLength totalLength : ℚ) :
    List (Pathfinding.GridPosition × Pathfinding.GridPosition) → ℚ → Bool →
      List (ℚ × ℚ) → ℚ × ℚ → Bool → List (ℚ × ℚ) × (ℚ × ℚ) × Bool
  | [], _, _, pts, tip, showTip => (pts, tip, showTip)
  | ab :: rest, acc, started, pts, tip, showTip =>
    let segmentLength := segLen env ab
    let segmentStart := acc
    let segmentEnd := acc + segmentLength
    if segmentEnd ≤ startLength then
      autoLoop env dotGap startLength endLength totalLength rest segmentEnd
        started pts tip showTip
    else if endLength ≤ segmentStart then (pts, tip, showTip)
    else
      let visibleStart := max segmentStart startLength
      let visibleEnd := min segmentEnd endLength
      let tStart := (visibleStart - segmentStart) / segmentLength
      let tEnd := (visibleEnd - segmentStart) / segmentLength
      let x0 := (ab.1.x : ℚ) + ((ab.2.x : ℚ) - (ab.1.x : ℚ)) * tStart
      let y0 := (ab.1.y : ℚ) + ((ab.2.y : ℚ) - (ab.1.y : ℚ)) * tStart
      let x1 := (ab.1.x : ℚ) + ((ab.2.x : ℚ) - (ab.1.x : ℚ)) * tEnd
      let y1 := (ab.1.y : ℚ) + ((ab.2.y : ℚ) - (ab.1.y : ℚ)) * tEnd
      let pts2 := (if started then pts else pts ++ [(x0 * dotGap, y0 * dotGap)]) ++
        [(x1 * dotGap, y1 * dotGap)]
      autoLoop env dotGap startLength endLength totalLength rest segmentEnd true
        pts2 (x1 * dotGap, y1 * dotGap) (showTip || decide (visibleEnd < totalLength))

/-- One auto-connection of `renderAutoConnections`. -/
def renderAutoOne (env : JsEnv) (ctx : RenderContext)
    (obstacles : List (ℤ × ℤ)) (cumulativeTime : ℚ) (ac : AutoConnection) :
    List Prim :=
  let elapsed := cumulativeTime - ac.startTime
  match autoPhase ac elapsed with
  | none => []
  | some (ps, pe, isTracing) =>
    if pe ≤ ps then []
    else
      match Pathfinding.findPath ⟨ac.fromX, ac.fromY⟩ ⟨ac.toX, ac.toY⟩
          ctx.gridSize obstacles with
      | none => []
      | some path =>
        if path.length < 2 then []
        else
          let segs := autoSegs path
          let totalLength := segs.foldl (fun s ab => s + segLen env ab) 0
          let startLength := totalLength * ps
          let endLength := totalLength * pe
          let color := resolveColor ctx.colors ac.color DEFAULT_CONNECTION_COLOR
          let r := autoLoop env ctx.dotGap startLength endLength totalLength segs
            0 false [] (0, 0) false
          Prim.stroke r.1 color ::
            (if isTracing && r.2.2 then
              [Prim.tip r.2.1.1 r.2.1.2 (ctx.dotRadius + ctx.penTipRadiusOffset)
                ctx.penTipColor color]
            else [])

/-- `renderAutoConnections` (the obstacle set is derived from the current
frame dots). -/
def renderAutoConnections (env : JsEnv) (ctx : RenderContext)
    (dots : List DotPlayerDot) (autoConnections : List AutoConnection)
    (cumulativeTime : ℚ) : List Prim :=
  let obstacles := buildObstacleSet dots
  (autoConnections.map (renderAutoOne env ctx obstacles cumulativeTime)).flatten

/-- `renderFrame`: the full per-call compute step, emitting the draw
primitives in canvas order and threading the module-level color cache. -/
def renderFrame (env : JsEnv) (context : RenderContext) (state : FrameRenderState)
    (autoConnections : Option (List AutoConnection)) (cache : Cache) :
    List Prim × Cache :=
  let frame := state.frame
  let animateDots := frame.animateDots
  let animateConnections := frame.animateConnections
  let gridPrims := if context.showGrid then renderGrid context else []
  let easedTime := easedTimeOf frame state.playhead
  let lastFrameIndex := state.totalFrames - 1
  let prevFrame : Option DotPlayerFrame :=
    if 0 ≤ state.frameIndex - 1 then listGetI state.frames (state.frameIndex - 1)
    else if state.settings.loopPlayback then listGetI state.frames lastFrameIndex
    else none
  let nextFrame : Option DotPlayerFrame :=
    if state.frameIndex + 1 ≤ lastFrameIndex then
      listGetI state.frames (state.frameIndex + 1)
    else if state.settings.loopPlayback then listGetI state.frames 0
    else none
  let forceStartFadeIn := (state.frameIndex == 0) && state.settings.fadeInOnStart
  let forceEndFadeOut :=
    (state.frameIndex == lastFrameIndex) && state.settings.fadeOutOnEnd
  let forceConnectionStartFadeIn :=
    (state.frameIndex == 0) && state.settings.connectionFadeInOnStart
  let forceConnectionEndFadeOut :=
    (state.frameIndex == lastFrameIndex) && state.settings.connectionFadeOutOnEnd
  let disableStartFadeIn := (state.frameIndex == 0) &&
    !state.settings.fadeInOnStart && !state.settings.loopPlayback
  let disableEndFadeOut := (state.frameIndex == lastFrameIndex) &&
    !state.settings.fadeOutOnEnd && !state.settings.loopPlayback
  let disableConnectionStartFadeIn := (state.frameIndex == 0) &&
    !state.settings.connectionFadeInOnStart && !state.settings.loopPlayback
  let disableConnectionEndFadeOut := (state.frameIndex == lastFrameIndex) &&
    !state.settings.connectionFadeOutOnEnd && !state.settings.loopPlayback
  let prevDotPositions :=
    if animateDots then
      if forceStartFadeIn then []
      else if disableStartFadeIn then deriveDotPositionSet env frame.dots
      else match prevFrame with
        | some pf => deriveDotPositionSet env pf.dots
        | none => []
    else deriveDotPositionSet env frame.dots
  let prevDotColors :=
    if disableStartFadeIn then deriveDotColorMap env (some frame)
    else deriveDotColorMap env prevFrame
  let nextDotPositions :=
    if animateDots then
      if forceEndFadeOut then []
      else if disableEndFadeOut then deriveDotPositionSet env frame.dots
      else match nextFrame with
        | some nf => deriveDotPositionSet env nf.dots
        | none => []
    else deriveDotPositionSet env frame.dots
  let prevConnectionKeys :=
    if animateConnections then
      if forceConnectionStartFadeIn then []
      else if disableConnectionStartFadeIn then deriveConnectionKeySet env (some frame)
      else deriveConnectionKeySet env prevFrame
    else deriveConnectionKeySet env (some frame)
  let nextConnectionKeys :=
    if animateConnections then
      if forceConnectionEndFadeOut then []
      else if disableConnectionEndFadeOut then deriveConnectionKeySet env (some frame)
      else deriveConnectionKeySet env nextFrame
    else deriveConnectionKeySet env (some frame)
  let dotById := deriveDotMap frame.dots
  let dotToGroup := buildDotToGroupMap frame.groups
  let connectionToGroup := buildConnectionToGroupMap frame.groups
  let dotStagger := dotStaggerOf frame
  let fadeOutDefault := fadeOutDefaultOf frame
  let colorTransitionProgress := colorTransitionProgressOf frame state.playhead
  let existingPrims := renderExistingConnections env context frame.connections
    frame.duration dotById prevConnectionKeys nextConnectionKeys easedTime
    fadeOutDefault connectionToGroup
  let animatingPrims :=
    if animateConnections then
      renderAnimatingConnections env context frame.connections frame.duration
        frame.connectionAnimationDuration frame.connectionStagger dotById
        prevConnectionKeys nextConnectionKeys easedTime fadeOutDefault
        connectionToGroup
    else []
  let autoPrims :=
    match autoConnections with
    | some acs =>
      if 0 < acs.length then
        renderAutoConnections env context frame.dots acs
          (sumDurations state.frames state.frameIndex + state.playhead)
      else []
    | none => []
  let dotsResult := renderDots env context frame.dots frame.duration
    frame.dotFadeInDuration frame.dotFadeOutDuration prevDotPositions
    nextDotPositions prevDotColors easedTime dotStagger colorTransitionProgress
    dotToGroup cache
  (gridPrims ++ existingPrims ++ animatingPrims ++ autoPrims ++ dotsResult.1,
    dotsResult.2)

end Player

namespace Player

theorem clamp_bounds (x lo hi : ℚ) (h : lo ≤ hi) :
    lo ≤ clamp x lo hi ∧ clamp x lo hi ≤ hi := by
  unfold clamp
  constructor
  · exact le_min h (le_max_left _ _)
  · exact min_le_left _ _

theorem clamp_of_mem (x lo hi : ℚ) (h1 : lo ≤ x) (h2 : x ≤ hi) :
    clamp x lo hi = x := by
  unfold clamp
  rw [max_eq_right h1, min_eq_right h2]

theorem dotFadeIn_bounds (isNew : Bool) (localT d : ℚ) :
    0 ≤ dotFadeIn isNew localT d ∧ dotFadeIn isNew localT d ≤ 1 := by
  unfold dotFadeIn
  split_ifs
  · exact clamp_bounds _ _ _ (by norm_num)
  · exact ⟨by norm_num, le_refl 1⟩

theorem dotFadeOut_bounds (isLeaving : Bool) (duration easedTime d : ℚ) :
    0 ≤ dotFadeOut isLeaving duration easedTime d ∧
      dotFadeOut isLeaving duration easedTime d ≤ 1 := by
  unfold dotFadeOut
  split_ifs
  · exact clamp_bounds _ _ _ (by norm_num)
  · exact ⟨by norm_num, le_refl 1⟩

theorem dotAlphaOf_bounds (env : JsEnv) (fd fi fo : ℚ) (prevPos nextPos : List String)
    (et st : ℚ) (g : List (String × DotPlayerGroup)) (i : ℕ) (dot : DotPlayerDot) :
    0 ≤ dotAlphaOf env fd fi fo prevPos nextPos et st g i dot ∧
      dotAlphaOf env fd fi fo prevPos nextPos et st g i dot ≤ 1 := by
  unfold dotAlphaOf
  constructor
  · exact le_min (dotFadeIn_bounds _ _ _).1 (dotFadeOut_bounds _ _ _ _).1
  · exact le_trans (min_le_left _ _) (dotFadeIn_bounds _ _ _).2

/-- C7: for every dot considered by `renderDots`, the alpha is
`min(fadeIn, fadeOut)` computed from the clamped fade formulas, it lies in
`[0, 1]`, a dot whose alpha is `≤ 0` emits nothing, and an emitted dot is a
disk of alpha `α` and radius scaled by `0.6 + 0.4·α`. -/
theorem renderDots_alpha_spec (env : JsEnv) (ctx : RenderContext)
    (fd fi fo : ℚ) (prevPos nextPos : List String) (prevColors : List (String × ℤ))
    (et st ctp : ℚ) (g : List (String × DotPlayerGroup)) (cache : Cache)
    (i : ℕ) (dot : DotPlayerDot) :
    (dotAlphaOf env fd fi fo prevPos nextPos et st g i dot =
      min
        (dotFadeIn (! prevPos.contains (createPositionKey env dot.x dot.y))
          (et - dotDelay (! prevPos.contains (createPositionKey env dot.x dot.y)) i st)
          (dotFadeDivisor dot.fadeInDuration
            (((jsMapGet g dot.id).bind (fun g2 => g2.animationOverrides)).bind
              (fun o => o.fadeInDuration)) fi))
        (dotFadeOut (! nextPos.contains (createPositionKey env dot.x dot.y)) fd et
          (dotFadeDivisor dot.fadeOutDuration
            (((jsMapGet g dot.id).bind (fun g2 => g2.animationOverrides)).bind
              (fun o => o.fadeOutDuration)) fo))) ∧
    0 ≤ dotAlphaOf env fd fi fo prevPos nextPos et st g i dot ∧
    dotAlphaOf env fd fi fo prevPos nextPos et st g i dot ≤ 1 ∧
    ((renderOneDot env ctx fd fi fo prevPos nextPos prevColors et st ctp g cache
        i dot).1 = none ↔
      dotAlphaOf env fd fi fo prevPos nextPos et st g i dot ≤ 0) ∧
    (∀ p, (renderOneDot env ctx fd fi fo prevPos nextPos prevColors et st ctp g cache
        i dot).1 = some p → ∃ fill, p = Prim.disk (dot.x * ctx.dotGap)
          (dot.y * ctx.dotGap)
          (ctx.dotRadius *
            (3 / 5 + 2 / 5 * dotAlphaOf env fd fi fo prevPos nextPos et st g i dot))
          (dotAlphaOf env fd fi fo prevPos nextPos et st g i dot) fill) := by
  refine ⟨rfl, (dotAlphaOf_bounds env fd fi fo prevPos nextPos et st g i dot).1,
    (dotAlphaOf_bounds env fd fi fo prevPos nextPos et st g i dot).2, ?_, ?_⟩
  · unfold renderOneDot
    by_cases h : dotAlphaOf env fd fi fo prevPos nextPos et st g i dot ≤ 0
    · rw [if_pos h]
      simpa using h
    · rw [if_neg h]
      simp only
      constructor
      · intro hc
        exact absurd hc (by simp)
      · intro hc
        exact absurd hc h
  · intro p hp
    unfold renderOneDot at hp
    by_cases h : dotAlphaOf env fd fi fo prevPos nextPos et st g i dot ≤ 0
    · rw [if_pos h] at hp
      exact absurd hp (by simp)
    · rw [if_neg h] at hp
      simp only [Option.some.injEq] at hp
      exact ⟨_, hp.symm⟩

/-- Witness data for the alpha specification. -/
def envW7 : JsEnv := ⟨fun _ => "k", fun _ => none, fun _ _ => 0, fun _ => 0⟩

def ctxW7 : RenderContext := ⟨100, 0, 10, 3, 5, "#fff", 1, true, [], 1, 1, 1, "#fff"⟩

def dotW7 : DotPlayerDot := ⟨"d", 0, 0, 0, none, none⟩

theorem renderDots_alpha_spec_witness :
    0 ≤ dotAlphaOf envW7 1000 240 240 ["k:k"] ["k:k"] 0 0 [] 0 dotW7 ∧
      dotAlphaOf envW7 1000 240 240 ["k:k"] ["k:k"] 0 0 [] 0 dotW7 ≤ 1 :=
  ⟨(renderDots_alpha_spec envW7 ctxW7 1000 240 240 ["k:k"] ["k:k"] [] 0 0 1 [] []
      0 dotW7).2.1,
    (renderDots_alpha_spec envW7 ctxW7 1000 240 240 ["k:k"] ["k:k"] [] 0 0 1 [] []
      0 dotW7).2.2.1⟩

/-- C6: the effective dot stagger is `0` exactly when configured so,
otherwise the stated three-way minimum (hence never above any of the three
bounds), and the per-dot entry delay is `index × stagger` for entering
dots and `0` otherwise. -/
theorem dotStagger_spec :
    (∀ frame : DotPlayerFrame, frame.dotStagger = 0 → dotStaggerOf frame = 0) ∧
    (∀ frame : DotPlayerFrame, frame.dotStagger ≠ 0 →
      dotStaggerOf frame = min frame.dotStagger (min (frame.dotFadeInDuration / 4)
        (frame.duration * (2 / 5) / dotCountOf frame)) ∧
      dotStaggerOf frame ≤ frame.dotStagger ∧
      dotStaggerOf frame ≤ frame.dotFadeInDuration / 4 ∧
      dotStaggerOf frame ≤ frame.duration * (2 / 5) / dotCountOf frame) ∧
    (∀ (i : ℕ) (st : ℚ), dotDelay true i st = (i : ℚ) * st ∧ dotDelay false i st = 0) := by
  refine ⟨?_, ?_, ?_⟩
  · intro f h
    unfold dotStaggerOf
    rw [if_pos h]
  · intro f h
    unfold dotStaggerOf
    rw [if_neg h]
    refine ⟨rfl, min_le_left _ _, ?_, ?_⟩
    · exact le_trans (min_le_right _ _) (min_le_left _ _)
    · exact le_trans (min_le_right _ _) (min_le_right _ _)
  · intro i st
    exact ⟨rfl, rfl⟩

/-- Witness frame for the stagger specification. -/
def frameW6 : DotPlayerFrame :=
  ⟨"f", "f", [⟨"d", 0, 0, 0, none, none⟩], [], [], 1600, .linear, 240, 240, 240,
    .easeInOut, 500, 50, 18, true, true⟩

theorem dotStagger_spec_witness :
    (18 : ℚ) ≠ 0 ∧
      dotStaggerOf frameW6 ≤ frameW6.dotStagger ∧
      dotDelay true 2 (dotStaggerOf frameW6) = (2 : ℚ) * dotStaggerOf frameW6 :=
  ⟨by norm_num, (dotStagger_spec.2.1 frameW6 (by norm_num [frameW6])).2.1,
    (dotStagger_spec.2.2 2 (dotStaggerOf frameW6)).1⟩

/-- The frame exhibiting the unclamped color-transition divisor. -/
def frameC4 : DotPlayerFrame :=
  ⟨"f", "f", [], [], [], 1600, .linear, 240, 240, 1 / 2, .linear, 500, 50, 18,
    true, true⟩

/-- C4 counterexample: the dot color-transition duration is clamped only to
`≥ 0` (renderer line `Math.max(frame.dotColorTransitionDuration ?? 240, 0)`),
so a configured value of `1/2` is used as a divisor smaller than `1`:
at playhead `1/4` the transition progress is `(1/4) / (1/2) = 1/2`. -/
theorem colorTransitionDivisor_not_clamped_to_one :
    0 < colorTransitionDurationOf frameC4 ∧
      ¬ 1 ≤ colorTransitionDurationOf frameC4 ∧
      colorTransitionProgressOf frameC4 (1 / 4) = 1 / 2 := by
  refine ⟨?_, ?_, ?_⟩
  · show (0 : ℚ) < max (1 / 2) 0
    norm_num
  · show ¬ (1 : ℚ) ≤ max (1 / 2) 0
    norm_num
  · show (if max (1 / 2 : ℚ) 0 ≤ 0 then 1
      else easingFun .linear (clamp ((1 / 4) / max (1 / 2 : ℚ) 0) 0 1)) = 1 / 2
    rw [if_neg (by norm_num)]
    rw [show ((1 / 4 : ℚ) / max (1 / 2 : ℚ) 0) = 1 / 2 from by norm_num]
    rw [clamp_of_mem _ _ _ (by norm_num) (by norm_num)]
    show clamp01 (1 / 2) = 1 / 2
    unfold clamp01
    norm_num

/-- C4 amended: the dot fade divisors, the connection fade-out default and
the per-segment reveal divisor are clamped to `≥ 1`; the color-transition
divisor is clamped only to `≥ 0`, with no division at all when it is not
positive; the auto-connection trace-in and trace-out durations are used
unclamped as divisors, the phase guards ensuring they are positive when the
division is reached. -/
theorem renderFrame_divisors_amended :
    (∀ (dv gv : Option ℚ) (fv : ℚ), 1 ≤ dotFadeDivisor dv gv fv) ∧
    (∀ frame : DotPlayerFrame, 1 ≤ fadeOutDefaultOf frame) ∧
    (∀ d : ℚ, 1 ≤ segProgressDivisor d) ∧
    (∀ (frame : DotPlayerFrame) (p : ℚ), colorTransitionDurationOf frame ≤ 0 →
      colorTransitionProgressOf frame p = 1) ∧
    (∀ (ac : AutoConnection) (elapsed : ℚ), 0 ≤ elapsed →
      elapsed < ac.traceInDuration →
      0 < ac.traceInDuration ∧ ∃ ps pe, autoPhase ac elapsed = some (ps, pe, true)) ∧
    (∀ (ac : AutoConnection) (elapsed s d : ℚ), ac.stayDuration = some s →
      ac.traceOutDuration = some d → 0 ≤ elapsed →
      ¬ elapsed < ac.traceInDuration → ac.traceInDuration + s ≤ elapsed →
      elapsed < ac.traceInDuration + s + d →
      0 < d ∧ ∃ ps pe, autoPhase ac elapsed = some (ps, pe, true)) := by
  refine ⟨?_, ?_, ?_, ?_, ?_, ?_⟩
  · intro dv gv fv
    exact le_max_right _ _
  · intro f
    exact le_max_right _ _
  · intro d
    exact le_max_right _ _
  · intro f p h
    unfold colorTransitionProgressOf
    rw [if_pos h]
  · intro ac elapsed h0 h1
    refine ⟨lt_of_le_of_lt h0 h1, ?_⟩
    unfold autoPhase
    rw [if_neg (not_lt.mpr h0), if_pos h1]
    cases hrev : ac.traceInReverse
    · rw [if_neg Bool.false_ne_true]
      exact ⟨_, _, rfl⟩
    · rw [if_pos rfl]
      exact ⟨_, _, rfl⟩
  · intro ac elapsed s d hs hd h0 h1 h2 h3
    refine ⟨by linarith, ?_⟩
    unfold autoPhase
    rw [if_neg (not_lt.mpr h0), if_neg h1, hs, hd]
    simp only [Option.map_some']
    rw [show ltOptB elapsed (some (ac.traceInDuration + s)) = false from by
      unfold ltOptB
      exact decide_eq_false (not_lt.mpr h2)]
    simp only [Bool.false_eq_true, if_false]
    rw [show ltOptB elapsed (some (ac.traceInDuration + s + d)) = true from by
      unfold ltOptB
      exact decide_eq_true h3]
    simp only [Option.isSome_some, Bool.and_self, if_true]
    cases hrev : ac.traceOutReverse
    · rw [if_neg Bool.false_ne_true]
      exact ⟨_, _, rfl⟩
    · rw [if_pos rfl]
      exact ⟨_, _, rfl⟩

/-- Witness auto-connection for the amended divisor bounds. -/
def acW4 : AutoConnection :=
  ⟨"a", 0, 0, 3, 0, 2, 500, some 200, false, false, some 300, 1000⟩

theorem renderFrame_divisors_amended_witness :
    1 ≤ dotFadeDivisor none none (1 / 2) ∧
      (0 < acW4.traceInDuration ∧
        ∃ ps pe, autoPhase acW4 100 = some (ps, pe, true)) ∧
      (0 < (200 : ℚ) ∧ ∃ ps pe, autoPhase acW4 900 = some (ps, pe, true)) :=
  ⟨renderFrame_divisors_amended.1 none none (1 / 2),
    renderFrame_divisors_amended.2.2.2.2.1 acW4 100 (by norm_num)
      (show (100 : ℚ) < 500 from by norm_num),
    renderFrame_divisors_amended.2.2.2.2.2 acW4 900 300 200 rfl rfl (by norm_num)
      (show ¬ (900 : ℚ) < 500 from by norm_num)
      (show (500 : ℚ) + 300 ≤ 900 from by norm_num)
      (show (900 : ℚ) < 500 + 300 + 200 from by norm_num)⟩

end Player

namespace Player

theorem deriveConnectionKey_symm (env : JsEnv) (a b : DotPlayerDot) :
    deriveConnectionKey env a b = deriveConnectionKey env b a := by
  unfold deriveConnectionKey
  rcases lt_trichotomy (createPositionKey env a.x a.y) (createPositionKey env b.x b.y)
    with h | h | h
  · rw [if_pos h, if_neg (fun hc => lt_asymm h hc)]
  · rw [h]
  · rw [if_neg (fun hc => lt_asymm h hc), if_pos h]

theorem mem_keySet_foldr (env : JsEnv) (dotMap : List (String × DotPlayerDot))
    (l : List DotPlayerConnection) (c : DotPlayerConnection) (f t : DotPlayerDot)
    (hc : c ∈ l) (hf : jsMapGet dotMap c.fromId = some f)
    (ht : jsMapGet dotMap c.toId = some t) :
    deriveConnectionKey env f t ∈ l.foldr (fun connection keys =>
      match jsMapGet dotMap connection.fromId, jsMapGet dotMap connection.toId with
      | some f1, some t1 => deriveConnectionKey env f1 t1 :: keys
      | _, _ => keys) [] := by
  induction l with
  | nil => cases hc
  | cons d rest ih =>
    rw [List.foldr_cons]
    rcases List.mem_cons.mp hc with rfl | hmem
    · rw [hf, ht]
      exact List.mem_cons_self _ _
    · have hin := ih hmem
      cases hA : jsMapGet dotMap d.fromId with
      | none => simpa using hin
      | some f1 =>
        cases hB : jsMapGet dotMap d.toId with
        | none => simpa using hin
        | some t1 => exact List.mem_cons_of_mem _ hin

/-- C10: the connection diff key is undirected — `deriveConnectionKey(a, b)
= deriveConnectionKey(b, a)` — and consequently, whenever a frame resolves
a connection to endpoint dots `f` and `t`, the key formed from the swapped
pair `t, f` is already in that frame's connection key set, so a connection
whose direction is merely reversed in an adjacent frame is classified as
neither entering nor leaving. -/
theorem deriveConnectionKey_undirected :
    (∀ (env : JsEnv) (a b : DotPlayerDot),
      deriveConnectionKey env a b = deriveConnectionKey env b a) ∧
    (∀ (env : JsEnv) (frame : DotPlayerFrame) (c : DotPlayerConnection)
      (f t : DotPlayerDot), c ∈ frame.connections →
      jsMapGet (deriveDotMap frame.dots) c.fromId = some f →
      jsMapGet (deriveDotMap frame.dots) c.toId = some t →
      deriveConnectionKey env t f ∈ deriveConnectionKeySet env (some frame)) := by
  constructor
  · exact deriveConnectionKey_symm
  · intro env frame c f t hc hf ht
    show deriveConnectionKey env t f ∈ frame.connections.foldr _ []
    rw [deriveConnectionKey_symm env t f]
    exact mem_keySet_foldr env (deriveDotMap frame.dots) frame.connections c f t
      hc hf ht

/-- Witness data for the undirected key property. -/
def envW10 : JsEnv := ⟨fun q => toString q.num, fun _ => none, fun _ _ => 0, fun _ => 0⟩

def dotA10 : DotPlayerDot := ⟨"a", 0, 0, 0, none, none⟩

def dotB10 : DotPlayerDot := ⟨"b", 1, 0, 0, none, none⟩

def frameW10 : DotPlayerFrame :=
  ⟨"f", "f", [dotA10, dotB10], [⟨"c1", "a", "b", 0, 0, none⟩], [], 1600, .linear,
    240, 240, 240, .easeInOut, 500, 50, 18, true, true⟩

theorem deriveConnectionKey_undirected_witness :
    deriveConnectionKey envW10 dotA10 dotB10 = deriveConnectionKey envW10 dotB10 dotA10 ∧
      deriveConnectionKey envW10 dotB10 dotA10 ∈
        deriveConnectionKeySet envW10 (some frameW10) :=
  ⟨deriveConnectionKey_undirected.1 envW10 dotA10 dotB10,
    deriveConnectionKey_undirected.2 envW10 frameW10 ⟨"c1", "a", "b", 0, 0, none⟩
      dotA10 dotB10 (by decide) (by decide) (by decide)⟩

end Player

namespace Player

/-- C3: for an auto-connection with traceInDuration 500, stayDuration 300,
traceOutDuration 200 and startTime 1000, driven by the continuous clock
(the renderer passes `cumulativeTime - startTime` as the elapsed time), the
visible fraction of the route is 0 before clock 1000, equals
`(clock-1000)/500` (strictly growing, in `[0,1)`) on `[1000,1500)`, is
exactly 1 on `[1500,1800)`, equals `1-(clock-1800)/200` (strictly
shrinking, in `(0,1]`) on `[1800,2000)`, and is 0 from clock 2000 on. -/
theorem autoConnection_phase_schedule (ac : AutoConnection)
    (h1 : ac.traceInDuration = 500) (h2 : ac.stayDuration = some 300)
    (h3 : ac.traceOutDuration = some 200) (h4 : ac.startTime = 1000) :
    (∀ clock : ℚ, clock < 1000 → autoVisibleFraction ac (clock - ac.startTime) = 0) ∧
    (∀ clock : ℚ, 1000 ≤ clock → clock < 1500 →
      autoVisibleFraction ac (clock - ac.startTime) = (clock - 1000) / 500) ∧
    (∀ c1 c2 : ℚ, 1000 ≤ c1 → c1 < c2 → c2 < 1500 →
      autoVisibleFraction ac (c1 - ac.startTime) <
        autoVisibleFraction ac (c2 - ac.startTime)) ∧
    (∀ clock : ℚ, 1500 ≤ clock → clock < 1800 →
      autoVisibleFraction ac (clock - ac.startTime) = 1) ∧
    (∀ clock : ℚ, 1800 ≤ clock → clock < 2000 →
      autoVisibleFraction ac (clock - ac.startTime) = 1 - (clock - 1800) / 200) ∧
    (∀ c1 c2 : ℚ, 1800 ≤ c1 → c1 < c2 → c2 < 2000 →
      autoVisibleFraction ac (c2 - ac.startTime) <
        autoVisibleFraction ac (c1 - ac.startTime)) ∧
    (∀ clock : ℚ, 2000 ≤ clock → autoVisibleFraction ac (clock - ac.startTime) = 0) ∧
    (∀ clock : ℚ, 1000 ≤ clock → clock < 1500 →
      0 ≤ autoVisibleFraction ac (clock - ac.startTime) ∧
        autoVisibleFraction ac (clock - ac.startTime) < 1) ∧
    (∀ clock : ℚ, 1800 ≤ clock → clock < 2000 →
      0 < autoVisibleFraction ac (clock - ac.startTime) ∧
        autoVisibleFraction ac (clock - ac.startTime) ≤ 1) := by
  have hstay : ac.stayDuration.map (fun s => ac.traceInDuration + s) = some 800 := by
    rw [h2, h1, Option.map_some']
    norm_num
  have f1 : ∀ e : ℚ, e < 0 → autoVisibleFraction ac e = 0 := by
    intro e he
    unfold autoVisibleFraction autoPhase
    rw [if_pos he]
  have f2 : ∀ e : ℚ, 0 ≤ e → e < 500 → autoVisibleFraction ac e = e / 500 := by
    intro e he0 he1
    have hc : clamp (e / ac.traceInDuration) 0 1 = e / 500 := by
      rw [h1]
      exact clamp_of_mem _ _ _ (div_nonneg he0 (by norm_num))
        (by rw [div_le_one (by norm_num)]; linarith)
    have hph : autoPhase ac e = (if ac.traceInReverse then some (1 - e / 500, 1, true)
        else some (0, e / 500, true)) := by
      unfold autoPhase
      rw [if_neg (not_lt.mpr he0), if_pos (by rw [h1]; exact he1), hc]
    unfold autoVisibleFraction
    rw [hph]
    cases hrev : ac.traceInReverse
    · rw [if_neg Bool.false_ne_true]
      show (if e / 500 ≤ 0 then 0 else e / 500 - 0) = e / 500
      split_ifs with h
      · have : e / 500 = 0 := le_antisymm h (div_nonneg he0 (by norm_num))
        rw [this]
      · ring
    · rw [if_pos rfl]
      show (if (1 : ℚ) ≤ 1 - e / 500 then 0 else 1 - (1 - e / 500)) = e / 500
      split_ifs with h
      · have h0 : e / 500 ≤ 0 := by linarith
        have : e / 500 = 0 := le_antisymm h0 (div_nonneg he0 (by norm_num))
        rw [this]
      · ring
  have f3 : ∀ e : ℚ, 500 ≤ e → e < 800 → autoVisibleFraction ac e = 1 := by
    intro e he0 he1
    have hph : autoPhase ac e = some (0, 1, false) := by
      unfold autoPhase
      rw [if_neg (not_lt.mpr (by linarith : (0 : ℚ) ≤ e)),
        if_neg (by rw [h1]; exact not_lt.mpr he0), hstay,
        if_pos (by unfold ltOptB; exact decide_eq_true he1)]
    unfold autoVisibleFraction
    rw [hph]
    norm_num
  have f4 : ∀ e : ℚ, 800 ≤ e → e < 1000 →
      autoVisibleFraction ac e = 1 - (e - 800) / 200 := by
    intro e he0 he1
    have hp : clamp ((e - 800) / (200 : ℚ)) 0 1 = (e - 800) / 200 :=
      clamp_of_mem _ _ _ (div_nonneg (by linarith) (by norm_num))
        (by rw [div_le_one (by norm_num)]; linarith)
    have hph : autoPhase ac e = (if ac.traceOutReverse then
        some (0, 1 - (e - 800) / 200, true) else some ((e - 800) / 200, 1, true)) := by
      unfold autoPhase
      rw [if_neg (not_lt.mpr (by linarith : (0 : ℚ) ≤ e)),
        if_neg (by rw [h1]; exact not_lt.mpr (by linarith)), hstay, h3]
      dsimp only
      rw [show ltOptB e (some 800) = false from decide_eq_false (not_lt.mpr he0)]
      simp only [Bool.false_eq_true, if_false]
      rw [show ltOptB e (some (800 + 200)) = true from decide_eq_true (by linarith)]
      simp only [Option.isSome_some, Bool.and_self, if_true, Option.getD_some]
      rw [hp]
    unfold autoVisibleFraction
    rw [hph]
    cases hrev : ac.traceOutReverse
    · rw [if_neg Bool.false_ne_true]
      show (if (1 : ℚ) ≤ (e - 800) / 200 then 0 else 1 - (e - 800) / 200) = _
      rw [if_neg (by rw [not_le, div_lt_one (by norm_num : (0:ℚ) < 200)]; linarith)]
    · rw [if_pos rfl]
      show (if 1 - (e - 800) / 200 ≤ 0 then 0 else 1 - (e - 800) / 200 - 0) = _
      rw [if_neg (by
        rw [not_le]
        have : (e - 800) / 200 < 1 := by
          rw [div_lt_one (by norm_num : (0:ℚ) < 200)]
          linarith
        linarith)]
      ring
  have f5 : ∀ e : ℚ, 1000 ≤ e → autoVisibleFraction ac e = 0 := by
    intro e he
    have hph : autoPhase ac e = none := by
      unfold autoPhase
      rw [if_neg (not_lt.mpr (by linarith : (0 : ℚ) ≤ e)),
        if_neg (by rw [h1]; exact not_lt.mpr (by linarith)), hstay, h3]
      dsimp only
      rw [show ltOptB e (some 800) = false from decide_eq_false (not_lt.mpr (by linarith))]
      simp only [Bool.false_eq_true, if_false]
      rw [show ltOptB e (some (800 + 200)) = false from
        decide_eq_false (not_lt.mpr (by linarith))]
      simp only [Bool.false_and, Bool.false_eq_true, if_false, Option.isSome_some,
        if_true]
    unfold autoVisibleFraction
    rw [hph]
  rw [h4]
  refine ⟨?_, ?_, ?_, ?_, ?_, ?_, ?_, ?_, ?_⟩
  · intro clock hc
    exact f1 _ (by linarith)
  · intro clock hc1 hc2
    rw [f2 (clock - 1000) (by linarith) (by linarith)]
  · intro c1 c2 hb1 hb2 hb3
    rw [f2 (c1 - 1000) (by linarith) (by linarith),
      f2 (c2 - 1000) (by linarith) (by linarith)]
    linarith
  · intro clock hc1 hc2
    exact f3 (clock - 1000) (by linarith) (by linarith)
  · intro clock hc1 hc2
    rw [f4 (clock - 1000) (by linarith) (by linarith)]
    ring_nf
  · intro c1 c2 hb1 hb2 hb3
    rw [f4 (c1 - 1000) (by linarith) (by linarith),
      f4 (c2 - 1000) (by linarith) (by linarith)]
    linarith
  · intro clock hc
    exact f5 (clock - 1000) (by linarith)
  · intro clock hc1 hc2
    rw [f2 (clock - 1000) (by linarith) (by linarith)]
    constructor
    · exact div_nonneg (by linarith) (by norm_num)
    · rw [div_lt_one (by norm_num : (0:ℚ) < 500)]
      linarith
  · intro clock hc1 hc2
    rw [f4 (clock - 1000) (by linarith) (by linarith)]
    constructor
    · have : (clock - 1000 - 800) / 200 < 1 := by
        rw [div_lt_one (by norm_num : (0:ℚ) < 200)]
        linarith
      linarith
    · have : 0 ≤ (clock - 1000 - 800) / 200 := div_nonneg (by linarith) (by norm_num)
      linarith

/-- Witness auto-connection for the phase schedule. -/
def acW3 : AutoConnection :=
  ⟨"w3", 0, 0, 3, 0, 2, 500, some 200, false, false, some 300, 1000⟩

theorem autoConnection_phase_schedule_witness :
    autoVisibleFraction acW3 ((1250 : ℚ) - acW3.startTime) = (1250 - 1000) / 500 ∧
      autoVisibleFraction acW3 ((1600 : ℚ) - acW3.startTime) = 1 ∧
      autoVisibleFraction acW3 ((2400 : ℚ) - acW3.startTime) = 0 :=
  ⟨(autoConnection_phase_schedule acW3 rfl rfl rfl rfl).2.1 1250 (by norm_num)
      (by norm_num),
    (autoConnection_phase_schedule acW3 rfl rfl rfl rfl).2.2.2.1 1600 (by norm_num)
      (by norm_num),
    (autoConnection_phase_schedule acW3 rfl rfl rfl rfl).2.2.2.2.2.2.1 2400
      (by norm_num)⟩

end Player

namespace Player

theorem mem_jsMapSet {α : Type} (m : List (String × α)) (k : String) (v : α) :
    ∀ x ∈ jsMapSet m k v, x = (k, v) ∨ x ∈ m := by
  induction m with
  | nil =>
    intro x hx
    rcases List.mem_singleton.mp hx with rfl
    exact Or.inl rfl
  | cons kv rest ih =>
    intro x hx
    unfold jsMapSet at hx
    by_cases hk : kv.1 = k
    · rw [if_pos hk] at hx
      rcases List.mem_cons.mp hx with rfl | hx
      · exact Or.inl rfl
      · exact Or.inr (List.mem_cons_of_mem _ hx)
    · rw [if_neg hk] at hx
      rcases List.mem_cons.mp hx with rfl | hx
      · exact Or.inr (List.mem_cons_self _ _)
      · rcases ih x hx with h | h
        · exact Or.inl h
        · exact Or.inr (List.mem_cons_of_mem _ h)

theorem jsMapGet_valid (env : JsEnv) (cache : Cache) (h : cacheValid env cache)
    (k : String) (v : RgbaColor) (hget : jsMapGet cache k = some v) :
    parseColorDispatch env k = some v := by
  induction cache with
  | nil => cases hget
  | cons kv rest ih =>
    unfold jsMapGet at hget
    by_cases hk : kv.1 = k
    · rw [if_pos hk] at hget
      have := h kv (List.mem_cons_self _ _)
      rw [hk] at this
      rw [this, hget]
    · rw [if_neg hk] at hget
      exact ih (fun x hx => h x (List.mem_cons_of_mem _ hx)) hget

theorem parseColor_spec (env : JsEnv) (cache : Cache) (value : String)
    (h : cacheValid env cache) :
    (parseColor env cache value).1 = parseColorPure env value ∧
      cacheValid env (parseColor env cache value).2 := by
  unfold parseColor parseColorPure
  simp only
  cases hget : jsMapGet cache value.trim with
  | some c =>
    simp only
    exact ⟨(jsMapGet_valid env cache h value.trim c hget).symm, h⟩
  | none =>
    simp only
    cases hp : parseColorDispatch env value.trim with
    | some parsed =>
      refine ⟨rfl, ?_⟩
      intro kv hkv
      rcases mem_jsMapSet cache value.trim parsed kv hkv with rfl | hkv
      · exact hp
      · exact h kv hkv
    | none => exact ⟨rfl, h⟩

theorem mixColors_spec (env : JsEnv) (c1 c2 : Cache) (f t : String) (a : ℚ)
    (h1 : cacheValid env c1) (h2 : cacheValid env c2) :
    (mixColors env c1 f t a).1 = (mixColors env c2 f t a).1 ∧
      cacheValid env (mixColors env c1 f t a).2 := by
  have p11 := parseColor_spec env c1 f h1
  have p12 := parseColor_spec env c2 f h2
  have p21 := parseColor_spec env (parseColor env c1 f).2 t p11.2
  have p22 := parseColor_spec env (parseColor env c2 f).2 t p12.2
  unfold mixColors
  simp only
  rw [p11.1, p12.1, p21.1, p22.1]
  clear p11 p12
  cases hf : parseColorPure env f with
  | none =>
    simp only
    exact ⟨trivial, p21.2⟩
  | some fc =>
    cases ht : parseColorPure env t with
    | none =>
      simp only
      exact ⟨trivial, p21.2⟩
    | some tc =>
      simp only
      exact ⟨trivial, p21.2⟩

theorem dotFill_spec (env : JsEnv) (ctx : RenderContext) (isNew : Bool)
    (key : String) (prevColors : List (String × ℤ)) (dotColor : ℤ) (ctp : ℚ)
    (c1 c2 : Cache) (h1 : cacheValid env c1) (h2 : cacheValid env c2) :
    (dotFill env ctx isNew key prevColors dotColor ctp c1).1 =
      (dotFill env ctx isNew key prevColors dotColor ctp c2).1 ∧
      cacheValid env (dotFill env ctx isNew key prevColors dotColor ctp c1).2 := by
  unfold dotFill
  cases isNew with
  | true => exact ⟨rfl, h1⟩
  | false =>
    simp only [Bool.false_eq_true, if_false]
    cases hpc : jsMapGet prevColors key with
    | none => exact ⟨rfl, h1⟩
    | some prevColorRef =>
      simp only
      by_cases hne : prevColorRef ≠ dotColor
      · rw [if_pos hne, if_pos hne]
        have hm := mixColors_spec env c1 c2
          (resolveColor ctx.colors prevColorRef DEFAULT_DOT_COLOR)
          (resolveColor ctx.colors dotColor DEFAULT_DOT_COLOR) ctp h1 h2
        simp only
        rw [hm.1]
        exact ⟨rfl, hm.2⟩
      · rw [if_neg hne, if_neg hne]
        exact ⟨rfl, h1⟩

theorem renderOneDot_spec (env : JsEnv) (ctx : RenderContext) (fd fi fo : ℚ)
    (prevPos nextPos : List String) (prevColors : List (String × ℤ))
    (et st ctp : ℚ) (g : List (String × DotPlayerGroup)) (c1 c2 : Cache)
    (i : ℕ) (dot : DotPlayerDot) (h1 : cacheValid env c1) (h2 : cacheValid env c2) :
    (renderOneDot env ctx fd fi fo prevPos nextPos prevColors et st ctp g c1 i dot).1 =
      (renderOneDot env ctx fd fi fo prevPos nextPos prevColors et st ctp g c2 i dot).1 ∧
      cacheValid env
        (renderOneDot env ctx fd fi fo prevPos nextPos prevColors et st ctp g c1
          i dot).2 := by
  unfold renderOneDot
  by_cases h : dotAlphaOf env fd fi fo prevPos nextPos et st g i dot ≤ 0
  · rw [if_pos h, if_pos h]
    exact ⟨rfl, h1⟩
  · rw [if_neg h, if_neg h]
    have hf := dotFill_spec env ctx (! prevPos.contains (createPositionKey env dot.x dot.y))
      (createPositionKey env dot.x dot.y) prevColors dot.color ctp c1 c2 h1 h2
    simp only
    rw [hf.1]
    exact ⟨rfl, hf.2⟩

theorem renderDotsAux_spec (env : JsEnv) (ctx : RenderContext) (fd fi fo : ℚ)
    (prevPos nextPos : List String) (prevColors : List (String × ℤ))
    (et st ctp : ℚ) (g : List (String × DotPlayerGroup)) :
    ∀ (dots : List DotPlayerDot) (i : ℕ) (c1 c2 : Cache),
      cacheValid env c1 → cacheValid env c2 →
      (renderDotsAux env ctx fd fi fo prevPos nextPos prevColors et st ctp g c1
        i dots).1 =
        (renderDotsAux env ctx fd fi fo prevPos nextPos prevColors et st ctp g c2
          i dots).1 ∧
      cacheValid env
        (renderDotsAux env ctx fd fi fo prevPos nextPos prevColors et st ctp g c1
          i dots).2 := by
  intro dots
  induction dots with
  | nil => exact fun i c1 c2 h1 h2 => ⟨rfl, h1⟩
  | cons dot rest ih =>
    intro i c1 c2 h1 h2
    have hone := renderOneDot_spec env ctx fd fi fo prevPos nextPos prevColors
      et st ctp g c1 c2 i dot h1 h2
    have hrest := ih (i + 1)
      (renderOneDot env ctx fd fi fo prevPos nextPos prevColors et st ctp g c1 i dot).2
      (renderOneDot env ctx fd fi fo prevPos nextPos prevColors et st ctp g c2 i dot).2
      hone.2
      (renderOneDot_spec env ctx fd fi fo prevPos nextPos prevColors et st ctp g c2
        c2 i dot h2 h2).2
    show ((match (renderOneDot env ctx fd fi fo prevPos nextPos prevColors et st ctp
        g c1 i dot).1 with | some p => [p] | none => []) ++ _, _).1 = _ ∧ _
    refine ⟨?_, ?_⟩
    · show (match (renderOneDot _ _ _ _ _ _ _ _ _ _ _ _ c1 i dot).1 with
        | some p => [p] | none => []) ++ _ = (match (renderOneDot _ _ _ _ _ _ _ _ _ _
          _ _ c2 i dot).1 with | some p => [p] | none => []) ++ _
      rw [hone.1, hrest.1]
    · exact hrest.2

theorem renderDots_spec (env : JsEnv) (ctx : RenderContext)
    (dots : List DotPlayerDot) (fd fi fo : ℚ) (prevPos nextPos : List String)
    (prevColors : List (String × ℤ)) (et st ctp : ℚ)
    (g : List (String × DotPlayerGroup)) (c1 c2 : Cache)
    (h1 : cacheValid env c1) (h2 : cacheValid env c2) :
    (renderDots env ctx dots fd fi fo prevPos nextPos prevColors et st ctp g c1).1 =
      (renderDots env ctx dots fd fi fo prevPos nextPos prevColors et st ctp g c2).1 ∧
      cacheValid env
        (renderDots env ctx dots fd fi fo prevPos nextPos prevColors et st ctp g
          c1).2 :=
  renderDotsAux_spec env ctx fd fi fo prevPos nextPos prevColors et st ctp g dots
    0 c1 c2 h1 h2

/-- C1: `renderFrame` is a pure function of its explicit inputs — for any
two valid states of the module-level parsed-color cache (and every cache
reachable by earlier calls is valid, starting from the empty one), the
emitted primitive sequence is identical, and the resulting cache is valid
again. -/
theorem renderFrame_cache_independent (env : JsEnv) (ctx : RenderContext)
    (state : FrameRenderState) (auto : Option (List AutoConnection))
    (c1 c2 : Cache) (h1 : cacheValid env c1) (h2 : cacheValid env c2) :
    (renderFrame env ctx state auto c1).1 = (renderFrame env ctx state auto c2).1 ∧
      cacheValid env (renderFrame env ctx state auto c1).2 := by
  constructor
  · simp only [renderFrame]
    rw [(renderDots_spec env ctx _ _ _ _ _ _ _ _ _ _ _ c1 c2 h1 h2).1]
  · simp only [renderFrame]
    exact (renderDots_spec env ctx _ _ _ _ _ _ _ _ _ _ _ c1 c2 h1 h2).2

/-- Witness data: two renderFrame calls on the empty cache. -/
def envW1 : JsEnv := ⟨fun _ => "k", fun _ => none, fun _ _ => 0, fun _ => 0⟩

def ctxW1 : RenderContext := ⟨100, 0, 10, 3, 5, "#fff", 1, false, [], 1, 1, 1, "#fff"⟩

def frameW1 : DotPlayerFrame :=
  ⟨"f", "f", [⟨"d", 0, 0, 0, none, none⟩], [], [], 1600, .linear, 240, 240, 240,
    .easeInOut, 500, 50, 18, true, true⟩

def stateW1 : FrameRenderState :=
  ⟨frameW1, 0, 1, 100, ⟨true, false, false, false, false⟩, [frameW1]⟩

theorem renderFrame_cache_independent_witness :
    (renderFrame envW1 ctxW1 stateW1 none []).1 =
      (renderFrame envW1 ctxW1 stateW1 none []).1 ∧
      cacheValid envW1 (renderFrame envW1 ctxW1 stateW1 none []).2 :=
  renderFrame_cache_independent envW1 ctxW1 stateW1 none [] []
    (fun kv hkv => absurd hkv (List.not_mem_nil _))
    (fun kv hkv => absurd hkv (List.not_mem_nil _))

end Player

namespace Player

theorem renderExistingOne_dangling (env : JsEnv) (ctx : RenderContext) (dur : ℚ)
    (dm : List (String × DotPlayerDot)) (pk nk : List String) (et fd : ℚ)
    (cg : List (String × DotPlayerGroup)) (c : DotPlayerConnection)
    (hd : jsMapGet dm c.fromId = none ∨ jsMapGet dm c.toId = none) :
    renderExistingOne env ctx dur dm pk nk et fd cg c = [] := by
  unfold renderExistingOne
  rcases hd with h | h
  · rw [h]
  · rw [h]
    cases jsMapGet dm c.fromId <;> rfl

theorem keySetFoldr_dangling (env : JsEnv) (dm : List (String × DotPlayerDot))
    (c : DotPlayerConnection) (l1 l2 : List DotPlayerConnection)
    (hd : jsMapGet dm c.fromId = none ∨ jsMapGet dm c.toId = none) :
    (l1 ++ c :: l2).foldr (fun connection keys =>
      match jsMapGet dm connection.fromId, jsMapGet dm connection.toId with
      | some f1, some t1 => deriveConnectionKey env f1 t1 :: keys
      | _, _ => keys) [] =
    (l1 ++ l2).foldr (fun connection keys =>
      match jsMapGet dm connection.fromId, jsMapGet dm connection.toId with
      | some f1, some t1 => deriveConnectionKey env f1 t1 :: keys
      | _, _ => keys) [] := by
  rw [List.foldr_append, List.foldr_append, List.foldr_cons]
  congr 1
  rcases hd with h | h
  · rw [h]
  · rw [h]
    cases jsMapGet dm c.fromId <;> rfl

/-- C9: a connection whose `from` or `to` id resolves to no dot of the
frame contributes nothing: `renderFrame` on the frame equals `renderFrame`
on the same frame with the dangling connection deleted (so every other dot
and connection renders identically, and nothing is thrown — the model is
total by construction). -/
theorem renderFrame_dangling_tolerant (env : JsEnv) (ctx : RenderContext)
    (state : FrameRenderState) (auto : Option (List AutoConnection))
    (cache : Cache) (c : DotPlayerConnection)
    (l1 l2 : List DotPlayerConnection)
    (hconn : state.frame.connections = l1 ++ c :: l2)
    (hd : jsMapGet (deriveDotMap state.frame.dots) c.fromId = none ∨
      jsMapGet (deriveDotMap state.frame.dots) c.toId = none) :
    renderFrame env ctx state auto cache =
      renderFrame env ctx
        { state with frame := { state.frame with connections := l1 ++ l2 } }
        auto cache := by
  have hset : deriveConnectionKeySet env (some state.frame) =
      deriveConnectionKeySet env
        (some { state.frame with connections := l1 ++ l2 }) := by
    show state.frame.connections.foldr _ [] = (l1 ++ l2).foldr _ []
    rw [hconn]
    exact keySetFoldr_dangling env (deriveDotMap state.frame.dots) c l1 l2 hd
  have hex : ∀ (pk nk : List String) (et fd : ℚ)
      (cg : List (String × DotPlayerGroup)),
      renderExistingConnections env ctx (l1 ++ c :: l2) state.frame.duration
        (deriveDotMap state.frame.dots) pk nk et fd cg =
      renderExistingConnections env ctx (l1 ++ l2) state.frame.duration
        (deriveDotMap state.frame.dots) pk nk et fd cg := by
    intro pk nk et fd cg
    unfold renderExistingConnections
    rw [List.map_append, List.map_append, List.map_cons,
      renderExistingOne_dangling env ctx state.frame.duration
        (deriveDotMap state.frame.dots) pk nk et fd cg c hd]
    simp
  have hanim : ∀ (fd2 cd cs : ℚ) (pk nk : List String) (et fdef : ℚ)
      (cg : List (String × DotPlayerGroup)),
      renderAnimatingConnections env ctx (l1 ++ c :: l2) fd2 cd cs
        (deriveDotMap state.frame.dots) pk nk et fdef cg =
      renderAnimatingConnections env ctx (l1 ++ l2) fd2 cd cs
        (deriveDotMap state.frame.dots) pk nk et fdef cg := by
    intro fd2 cd cs pk nk et fdef cg
    unfold renderAnimatingConnections
    have hpc : (match jsMapGet (deriveDotMap state.frame.dots) c.fromId,
        jsMapGet (deriveDotMap state.frame.dots) c.toId with
      | some f, some t => ! pk.contains (deriveConnectionKey env f t)
      | _, _ => false) = false := by
      rcases hd with h | h
      · rw [h]
      · rw [h]
        cases jsMapGet (deriveDotMap state.frame.dots) c.fromId <;> rfl
    rw [show (l1 ++ c :: l2).filter (fun c2 : DotPlayerConnection =>
        match jsMapGet (deriveDotMap state.frame.dots) c2.fromId,
          jsMapGet (deriveDotMap state.frame.dots) c2.toId with
        | some f, some t => ! pk.contains (deriveConnectionKey env f t)
        | _, _ => false) =
      (l1 ++ l2).filter (fun c2 : DotPlayerConnection =>
        match jsMapGet (deriveDotMap state.frame.dots) c2.fromId,
          jsMapGet (deriveDotMap state.frame.dots) c2.toId with
        | some f, some t => ! pk.contains (deriveConnectionKey env f t)
        | _, _ => false) from by
      rw [List.filter_append, List.filter_append, List.filter_cons]
      rw [hpc]
      simp]
  have hcm : deriveDotColorMap env
      (some { state.frame with connections := l1 ++ l2 }) =
      deriveDotColorMap env (some state.frame) := rfl
  have het : easedTimeOf { state.frame with connections := l1 ++ l2 }
      state.playhead = easedTimeOf state.frame state.playhead := rfl
  have hst : dotStaggerOf { state.frame with connections := l1 ++ l2 } =
      dotStaggerOf state.frame := rfl
  have hfo : fadeOutDefaultOf { state.frame with connections := l1 ++ l2 } =
      fadeOutDefaultOf state.frame := rfl
  have hcp : colorTransitionProgressOf { state.frame with connections := l1 ++ l2 }
      state.playhead = colorTransitionProgressOf state.frame state.playhead := rfl
  simp only [renderFrame]
  rw [hconn, hset, hcm, het, hst, hfo, hcp, hex, hanim]

end Player

namespace Player

/-- Witness data: a frame whose only connection references a missing dot. -/
def envW9 : JsEnv := ⟨fun _ => "k", fun _ => none, fun _ _ => 0, fun _ => 0⟩

def ctxW9 : RenderContext := ⟨100, 0, 10, 3, 5, "#fff", 1, false, [], 1, 1, 1, "#fff"⟩

def cDangling : DotPlayerConnection := ⟨"c1", "d", "missing", 0, 0, none⟩

def frameW9 : DotPlayerFrame :=
  ⟨"f", "f", [⟨"d", 0, 0, 0, none, none⟩], [cDangling], [], 1600, .linear, 240,
    240, 240, .easeInOut, 500, 50, 18, true, true⟩

def stateW9 : FrameRenderState :=
  ⟨frameW9, 0, 1, 100, ⟨true, false, false, false, false⟩, [frameW9]⟩

theorem renderFrame_dangling_tolerant_witness :
    renderFrame envW9 ctxW9 stateW9 none [] =
      renderFrame envW9 ctxW9
        { stateW9 with frame := { stateW9.frame with connections := [] ++ [] } }
        none [] :=
  renderFrame_dangling_tolerant envW9 ctxW9 stateW9 none [] cDangling [] []
    rfl (Or.inr (by decide))

end Player

namespace Player

theorem insertConn_perm (c : DotPlayerConnection) (l : List DotPlayerConnection) :
    List.Perm (insertConn c l) (c :: l) := by
  induction l with
  | nil => exact List.Perm.refl _
  | cons d rest ih =>
    unfold insertConn
    by_cases h : c.order < d.order
    · rw [if_pos h]
    · rw [if_neg h]
      exact List.Perm.trans (List.Perm.cons d ih) (List.Perm.swap c d rest)

theorem mem_insertConn (c x : DotPlayerConnection) (l : List DotPlayerConnection) :
    x ∈ insertConn c l ↔ x = c ∨ x ∈ l := by
  rw [(insertConn_perm c l).mem_iff]
  exact List.mem_cons

theorem sortByOrder_perm (l : List DotPlayerConnection) : List.Perm (sortByOrder l) l := by
  have key : ∀ (l acc : List DotPlayerConnection),
      List.Perm (List.foldl (fun acc c => insertConn c acc) acc l) (acc ++ l) := by
    intro l
    induction l with
    | nil =>
      intro acc
      simp
    | cons c rest ih =>
      intro acc
      rw [List.foldl_cons]
      refine List.Perm.trans (ih (insertConn c acc)) ?_
      refine List.Perm.trans (List.Perm.append_right rest (insertConn_perm c acc)) ?_
      exact List.perm_middle.symm
  simpa using key l []

theorem insertConn_sorted (c : DotPlayerConnection) (l : List DotPlayerConnection)
    (h : l.Pairwise (fun a b => a.order ≤ b.order)) :
    (insertConn c l).Pairwise (fun a b => a.order ≤ b.order) := by
  induction l with
  | nil => exact List.pairwise_singleton _ _
  | cons d rest ih =>
    rcases List.pairwise_cons.mp h with ⟨hd, hrest⟩
    unfold insertConn
    by_cases hlt : c.order < d.order
    · rw [if_pos hlt]
      refine List.pairwise_cons.mpr ⟨?_, h⟩
      intro x hx
      rcases List.mem_cons.mp hx with rfl | hx
      · exact le_of_lt hlt
      · exact le_trans (le_of_lt hlt) (hd x hx)
    · rw [if_neg hlt]
      refine List.pairwise_cons.mpr ⟨?_, ih hrest⟩
      intro x hx
      rcases (mem_insertConn c x rest).mp hx with rfl | hx
      · exact not_lt.mp hlt
      · exact hd x hx

theorem sortByOrder_sorted (l : List DotPlayerConnection) :
    (sortByOrder l).Pairwise (fun a b => a.order ≤ b.order) := by
  have key : ∀ (l acc : List DotPlayerConnection),
      acc.Pairwise (fun a b => a.order ≤ b.order) →
      (List.foldl (fun acc c => insertConn c acc) acc l).Pairwise
        (fun a b => a.order ≤ b.order) := by
    intro l
    induction l with
    | nil => exact fun acc h => h
    | cons c rest ih =>
      intro acc h
      rw [List.foldl_cons]
      exact ih (insertConn c acc) (insertConn_sorted c acc h)
  exact key l [] List.Pairwise.nil

theorem filter_insertConn (c : DotPlayerConnection) (l : List DotPlayerConnection)
    (q : ℚ) (h : l.Pairwise (fun a b => a.order ≤ b.order)) :
    (insertConn c l).filter (fun d => decide (d.order = q)) =
      if c.order = q then l.filter (fun d => decide (d.order = q)) ++ [c]
      else l.filter (fun d => decide (d.order = q)) := by
  induction l with
  | nil =>
    show List.filter _ [c] = _
    rw [List.filter_cons]
    by_cases hc : c.order = q
    · rw [if_pos (by simpa using hc), if_pos hc]
      rfl
    · rw [if_neg (by simpa using hc), if_neg hc]
  | cons d rest ih =>
    rcases List.pairwise_cons.mp h with ⟨hd, hrest⟩
    unfold insertConn
    by_cases hlt : c.order < d.order
    · rw [if_pos hlt]
      have hnone : (d :: rest).filter (fun x => decide (x.order = q)) = [] ∨
          ¬ c.order = q ∨
          ((d :: rest).filter (fun x => decide (x.order = q)) = [] ∧ c.order = q) := by
        by_cases hc : c.order = q
        · refine Or.inl ?_
          rw [List.filter_eq_nil_iff]
          intro x hx
          have : d.order ≤ x.order := by
            rcases List.mem_cons.mp hx with rfl | hx2
            · exact le_refl _
            · exact hd x hx2
          simp only [decide_eq_true_eq]
          intro hxq
          rw [hxq] at this
          rw [hc] at hlt
          exact absurd (lt_of_lt_of_le hlt this) (lt_irrefl q)
        · exact Or.inr (Or.inl hc)
      rw [List.filter_cons]
      by_cases hc : c.order = q
      · rw [if_pos (by simpa using hc), if_pos hc]
        rcases hnone with hn | hn | hn
        · rw [hn]
          rfl
        · exact absurd hc hn
        · rw [hn.1]
          rfl
      · rw [if_neg (by simpa using hc), if_neg hc]
    · rw [if_neg hlt]
      rw [List.filter_cons, List.filter_cons]
      rw [ih hrest]
      by_cases hc : c.order = q <;> by_cases hpd : d.order = q <;>
        simp [hc, hpd]

theorem sortByOrder_stable (l : List DotPlayerConnection) (q : ℚ) :
    (sortByOrder l).filter (fun d => decide (d.order = q)) =
      l.filter (fun d => decide (d.order = q)) := by
  have key : ∀ (l acc : List DotPlayerConnection),
      acc.Pairwise (fun a b => a.order ≤ b.order) →
      (List.foldl (fun acc c => insertConn c acc) acc l).filter
          (fun d => decide (d.order = q)) =
        acc.filter (fun d => decide (d.order = q)) ++
          l.filter (fun d => decide (d.order = q)) := by
    intro l
    induction l with
    | nil =>
      intro acc hacc
      simp
    | cons c rest ih =>
      intro acc hacc
      rw [List.foldl_cons, ih (insertConn c acc) (insertConn_sorted c acc hacc),
        filter_insertConn c acc q hacc, List.filter_cons]
      by_cases hc : c.order = q
      · rw [if_pos hc, if_pos (by simpa using hc)]
        simp
      · rw [if_neg hc, if_neg (by simpa using hc)]
  exact (key l [] List.Pairwise.nil).trans (by simp)

theorem ensureFrameOrder_orders (l : List DotPlayerConnection) :
    (ensureFrameOrder l).map (fun c => c.order) =
      (List.range l.length).map (fun i : ℕ => (i : ℚ)) := by
  unfold ensureFrameOrder
  rw [List.map_map]
  have h1 : ((fun c => c.order) ∘ fun p : ℕ × DotPlayerConnection =>
      { p.2 with order := (p.1 : ℚ) }) = fun p => ((p.1 : ℕ) : ℚ) := rfl
  rw [h1]
  have h2 : (fun p : ℕ × DotPlayerConnection => ((p.1 : ℕ) : ℚ)) =
      (fun i : ℕ => (i : ℚ)) ∘ Prod.fst := rfl
  rw [h2, ← List.map_map, List.enum_map_fst, (sortByOrder_perm l).length_eq]

/-- Scenario data: four collinear dots and three chained connections
carrying order values 0, 1, 2 along the chain. -/
def dW8A : DotPlayerDot := ⟨"a", 0, 0, 0, none, none⟩

def dW8B : DotPlayerDot := ⟨"b", 1, 0, 0, none, none⟩

def dW8C : DotPlayerDot := ⟨"c", 2, 0, 0, none, none⟩

def dW8D : DotPlayerDot := ⟨"d", 3, 0, 0, none, none⟩

def cW8ab : DotPlayerConnection := ⟨"cab", "a", "b", 0, 0, none⟩

def cW8bc : DotPlayerConnection := ⟨"cbc", "b", "c", 0, 1, none⟩

def cW8cd : DotPlayerConnection := ⟨"ccd", "c", "d", 0, 2, none⟩

def dmW8 : List (String × DotPlayerDot) := deriveDotMap [dW8A, dW8B, dW8C, dW8D]

/-- Building a segment for a connection whose `order` field was rewritten
resolves the same endpoints, key and length. -/
theorem segmentOf_update (env : JsEnv) (dm : List (String × DotPlayerDot))
    (c : DotPlayerConnection) (s : ConnectionSegment)
    (h : segmentOf env dm c = some s) (o : ℚ) :
    segmentOf env dm { c with order := o } =
      some { s with connection := { c with order := o } } := by
  unfold segmentOf at h ⊢
  cases hf : jsMapGet dm c.fromId with
  | none =>
    rw [hf] at h
    exact absurd h (by simp)
  | some f =>
    cases ht : jsMapGet dm c.toId with
    | none =>
      rw [hf, ht] at h
      exact absurd h (by simp)
    | some t =>
      rw [hf, ht] at h
      obtain rfl : s = ⟨c, f, t, deriveConnectionKey env f t,
          env.hypot (t.x - f.x) (t.y - f.y)⟩ := (Option.some.inj h).symm
      dsimp only

/-- One step of `buildPathsLoop` on a connection whose segment resolves. -/
theorem buildPathsLoop_cons_some (env : JsEnv) (dm : List (String × DotPlayerDot))
    (c : DotPlayerConnection) (rest : List DotPlayerConnection)
    (current : List ConnectionSegment) (paths : List (List ConnectionSegment))
    (seg : ConnectionSegment) (h : segmentOf env dm c = some seg) :
    buildPathsLoop env dm (c :: rest) current paths =
      match current.getLast? with
      | none => buildPathsLoop env dm rest [seg] paths
      | some last =>
        if sharesEndpoint last seg then
          buildPathsLoop env dm rest (current ++ [seg]) paths
        else buildPathsLoop env dm rest [seg] (paths ++ [current]) := by
  conv_lhs => rw [buildPathsLoop]
  rw [h]

/-- Running the path-building loop over three resolving, consecutively
chained connections yields the single path of their three segments. -/
theorem buildPathsLoop_run_three (env : JsEnv)
    (dm : List (String × DotPlayerDot)) (c0 c1 c2 : DotPlayerConnection)
    (s0 s1 s2 : ConnectionSegment)
    (h0 : segmentOf env dm c0 = some s0) (h1 : segmentOf env dm c1 = some s1)
    (h2 : segmentOf env dm c2 = some s2)
    (h01 : sharesEndpoint s0 s1) (h12 : sharesEndpoint s1 s2) :
    buildPathsLoop env dm [c0, c1, c2] [] [] = [[s0, s1, s2]] := by
  rw [buildPathsLoop_cons_some env dm c0 [c1, c2] [] [] s0 h0]
  show buildPathsLoop env dm [c1, c2] [s0] [] = _
  rw [buildPathsLoop_cons_some env dm c1 [c2] [s0] [] s1 h1]
  show (if sharesEndpoint s0 s1 then buildPathsLoop env dm [c2] ([s0] ++ [s1]) []
    else buildPathsLoop env dm [c2] [s1] ([] ++ [[s0]])) = _
  rw [if_pos h01]
  show buildPathsLoop env dm [c2] [s0, s1] [] = _
  rw [buildPathsLoop_cons_some env dm c2 [] [s0, s1] [] s2 h2]
  show (if sharesEndpoint s1 s2 then buildPathsLoop env dm [] ([s0, s1] ++ [s2]) []
    else buildPathsLoop env dm [] [s2] ([] ++ [[s0, s1]])) = _
  rw [if_pos h12]
  show ([] : List (List ConnectionSegment)) ++
    (if ([s0, s1] ++ [s2] : List ConnectionSegment) = [] then []
      else [[s0] ++ [s1] ++ [s2]]) = _
  rw [if_neg (by simp)]
  simp

/-- On any permutation of three connections carrying the distinct order
values 2, 0, 1, the stable sort returns exactly the ascending arrangement. -/
theorem sortByOrder_three (cA cB cC : DotPlayerConnection)
    (l : List DotPlayerConnection)
    (hoA : cA.order = 2) (hoB : cB.order = 0) (hoC : cC.order = 1)
    (hperm : List.Perm l [cA, cB, cC]) :
    sortByOrder l = [cB, cC, cA] := by
  have hp1 : List.Perm (sortByOrder l) [cB, cC, cA] :=
    ((sortByOrder_perm l).trans hperm).trans
      (@List.perm_append_comm _ [cA] [cB, cC])
  have hsorted_target :
      List.Pairwise (fun a b => a.order < b.order) [cB, cC, cA] := by
    refine List.pairwise_cons.mpr ⟨?_, List.pairwise_cons.mpr ⟨?_, ?_⟩⟩
    · intro x hx
      rcases List.mem_cons.mp hx with rfl | hx
      · rw [hoB, hoC]
        norm_num
      · rw [List.mem_singleton.mp hx, hoB, hoA]
        norm_num
    · intro x hx
      rw [List.mem_singleton.mp hx, hoC, hoA]
      norm_num
    · exact List.pairwise_singleton _ _
  have hne : List.Pairwise (fun a b => a.order ≠ b.order) (sortByOrder l) := by
    have hmap : List.Perm ((sortByOrder l).map (fun c => c.order))
        [cB.order, cC.order, cA.order] := hp1.map _
    rw [hoB, hoC, hoA] at hmap
    have hnd : ((sortByOrder l).map (fun c => c.order)).Nodup :=
      hmap.nodup_iff.mpr (by norm_num)
    exact (List.pairwise_map.mp hnd)
  have hlt : List.Pairwise (fun a b => a.order < b.order) (sortByOrder l) :=
    ((sortByOrder_sorted l).and hne).imp (fun h => lt_of_le_of_ne h.1 h.2)
  haveI : IsAntisymm DotPlayerConnection (fun a b => a.order < b.order) :=
    ⟨fun a b hab hba => absurd hba (lt_asymm hab)⟩
  exact List.eq_of_perm_of_sorted hp1 hlt hsorted_target

/-- C8: `buildConnectionPaths` stably sorts the connections by their
`order` value and renumbers them sequentially; consequently, for EVERY
environment, dot map and triple of connections carrying the distinct
order values `2, 0, 1` whose resolved segments are chained by shared
endpoint positions along ascending order, every permutation of the input
array yields exactly one path traversing the three segments in ascending
original order, renumbered `0 → 1 → 2`.  The remaining clauses state the
stable sort itself: `sortByOrder` returns a permutation, sorted by
`order`, preserving the relative order of connections with equal `order`
keys, and `ensureFrameOrder` renumbers the result `0, 1, 2, …`. -/
theorem buildConnectionPaths_reorder :
    (∀ (env : JsEnv) (dm : List (String × DotPlayerDot))
      (cA cB cC : DotPlayerConnection) (sA sB sC : ConnectionSegment)
      (l : List DotPlayerConnection),
      cA.order = 2 → cB.order = 0 → cC.order = 1 →
      segmentOf env dm cA = some sA → segmentOf env dm cB = some sB →
      segmentOf env dm cC = some sC →
      sharesEndpoint sB sC → sharesEndpoint sC sA →
      List.Perm l [cA, cB, cC] →
      buildConnectionPaths env l dm =
        [[{ sB with connection := { cB with order := ((0 : ℕ) : ℚ) } },
          { sC with connection := { cC with order := ((1 : ℕ) : ℚ) } },
          { sA with connection := { cA with order := ((2 : ℕ) : ℚ) } }]]) ∧
    (∀ l : List DotPlayerConnection, List.Perm (sortByOrder l) l) ∧
    (∀ l : List DotPlayerConnection,
      (sortByOrder l).Pairwise (fun a b => a.order ≤ b.order)) ∧
    (∀ (l : List DotPlayerConnection) (q : ℚ),
      (sortByOrder l).filter (fun d => decide (d.order = q)) =
        l.filter (fun d => decide (d.order = q))) ∧
    (∀ l : List DotPlayerConnection,
      (ensureFrameOrder l).map (fun c => c.order) =
        (List.range l.length).map (fun i : ℕ => (i : ℚ))) := by
  refine ⟨?_, sortByOrder_perm, sortByOrder_sorted, sortByOrder_stable,
    ensureFrameOrder_orders⟩
  intro env dm cA cB cC sA sB sC l hoA hoB hoC hsA hsB hsC hBC hCA hperm
  have hens : ensureFrameOrder l =
      [{ cB with order := ((0 : ℕ) : ℚ) }, { cC with order := ((1 : ℕ) : ℚ) },
        { cA with order := ((2 : ℕ) : ℚ) }] := by
    unfold ensureFrameOrder
    rw [sortByOrder_three cA cB cC l hoA hoB hoC hperm]
    rfl
  unfold buildConnectionPaths
  rw [hens]
  exact buildPathsLoop_run_three env dm _ _ _ _ _ _
    (segmentOf_update env dm cB sB hsB _) (segmentOf_update env dm cC sC hsC _)
    (segmentOf_update env dm cA sA hsA _) hBC hCA

/-- Witness environment for the reordering scenario. -/
def envW8 : JsEnv := ⟨fun q => toString q.num, fun _ => none, fun _ _ => 0, fun _ => 0⟩

/-- The three resolved segments of the witness scenario. -/
def sW8ab : ConnectionSegment :=
  ⟨cW8ab, dW8A, dW8B, deriveConnectionKey envW8 dW8A dW8B,
    envW8.hypot (dW8B.x - dW8A.x) (dW8B.y - dW8A.y)⟩

def sW8bc : ConnectionSegment :=
  ⟨cW8bc, dW8B, dW8C, deriveConnectionKey envW8 dW8B dW8C,
    envW8.hypot (dW8C.x - dW8B.x) (dW8C.y - dW8B.y)⟩

def sW8cd : ConnectionSegment :=
  ⟨cW8cd, dW8C, dW8D, deriveConnectionKey envW8 dW8C dW8D,
    envW8.hypot (dW8D.x - dW8C.x) (dW8D.y - dW8C.y)⟩

theorem buildConnectionPaths_reorder_witness :
    buildConnectionPaths envW8 [cW8ab, cW8bc, cW8cd] dmW8 =
      [[{ sW8ab with connection := { cW8ab with order := ((0 : ℕ) : ℚ) } },
        { sW8bc with connection := { cW8bc with order := ((1 : ℕ) : ℚ) } },
        { sW8cd with connection := { cW8cd with order := ((2 : ℕ) : ℚ) } }]] :=
  buildConnectionPaths_reorder.1 envW8 dmW8 cW8cd cW8ab cW8bc sW8cd sW8ab sW8bc
    [cW8ab, cW8bc, cW8cd] rfl rfl rfl rfl rfl rfl (by decide) (by decide)
    (@List.perm_append_comm _ [cW8ab, cW8bc] [cW8cd])

end Player
